import Mathlib

/-!
# Verification of the PCGen Ability LST generator core

A shallow embedding of `pcgen_ability_lst_generator.py`: the `Ability`
record, the line parser (`Ability.generate_ability`), the column serializer
(`Ability.__str__`), the diff generator (`Mod.__str__`), and the batch-save
contract (`AbilityGenerator.generate_ability_lst`).

Conventions of the embedding:
* Python strings are Lean `String`s; all operations are defined structurally
  on `String.data` (`List Char`) so that proofs can compute.
* Python's `str.split(sep)` / `count` / `replace` / `in` are modelled by
  `pySplit` / `pyCount` / `pyReplace` / `pyContains`, all built on one
  primitive `splitOnSeq` (split on the leftmost non-overlapping occurrences
  of a separator sequence), which matches CPython semantics for non-empty
  separators.
* A line under construction is a `Builder`: the list of tab-separated cells
  already closed plus the cell currently being appended to.  Appending a
  string is `Builder.app`, which walks the characters; a tab closes the
  current cell.  The final text of the line is `Builder.line`
  (`"\t".intercalate cells`), and the field tokens a reader sees are
  `Builder.toks` (the non-empty cells) -- exactly what
  `list(filter(None, line.split("\t")))` produces in the Python parser.
* Operations that can raise in Python (out-of-range list indexing, `int()`
  on malformed text) return `Option`; `none` is a raised exception.
  `Ability.generate_ability` returns `Option (Option Ability)`: the outer
  layer is "the call raised", the inner layer is the documented `None`
  result for a line that is not a modelled ability kind.
* Python integers are `Int`; `len(x)//N` on non-negative lengths is `Nat`
  division cast to `Int`.
-/

namespace PCGen

/-! ## Python string primitives -/

/-- Python `str.isspace` characters stripped by `str.strip()` (ASCII set). -/
def pyIsSpace (c : Char) : Bool :=
  c = ' ' || c = '\t' || c = '\n' || c = '\r' || c = '\x0b' || c = '\x0c'

/-- Python `str.strip()` on a character list. -/
def pyStripL (l : List Char) : List Char :=
  ((l.dropWhile pyIsSpace).reverse.dropWhile pyIsSpace).reverse

/-- Python `str.strip()`. -/
def pyStrip (s : String) : String := ⟨pyStripL s.data⟩

/-- Worker for `splitOnSeq`, structurally recursive on a fuel that starts
at `l.length` (every step consumes at least one character, so the fuel
never runs out before `l` does; at fuel `0`, `l = []` and `[l] = [[]]` is
the right answer). -/
def splitOnSeqGo (sep : List Char) : Nat → List Char → List (List Char)
  | 0, l => [l]
  | _ + 1, [] => [[]]
  | fuel + 1, c :: cs =>
    if sep.isPrefixOf (c :: cs) then
      [] :: splitOnSeqGo sep fuel ((c :: cs).drop sep.length)
    else
      match splitOnSeqGo sep fuel cs with
      | [] => [[c]]
      | r :: rs => (c :: r) :: rs

/-- Split a list at the leftmost non-overlapping occurrences of the
(non-empty) separator sequence `sep`; Python `str.split(sep)`. -/
def splitOnSeq (sep : List Char) (l : List Char) : List (List Char) :=
  if sep = [] then [l] else splitOnSeqGo sep l.length l

/-- Python `s.split(sep)` for a non-empty separator string. -/
def pySplit (s sep : String) : List String :=
  (splitOnSeq sep.data s.data).map (fun l => ⟨l⟩)

/-- Python `s.split(sep, maxsplit=1)`. -/
def pySplit1 (s sep : String) : List String :=
  match pySplit s sep with
  | [] => []
  | h :: t => if t = [] then [h] else [h, String.intercalate sep t]

/-- Python `s.count(sub)` for a non-empty `sub` (non-overlapping count). -/
def pyCount (s sub : String) : Nat :=
  (splitOnSeq sub.data s.data).length - 1

/-- Python `sub in s` for a non-empty `sub`. -/
def pyContains (s sub : String) : Bool :=
  decide (1 < (splitOnSeq sub.data s.data).length)

/-- Python `s.replace(old, new)` for a non-empty `old`. -/
def pyReplace (s old new : String) : String :=
  ⟨List.intercalate new.data (splitOnSeq old.data s.data)⟩

/-- Python `s.startswith(p)`. -/
def pyStartsWith (s p : String) : Bool :=
  p.data.isPrefixOf s.data

/-- Python `s.upper()` (ASCII). -/
def pyUpper (s : String) : String := ⟨s.data.map Char.toUpper⟩

/-- Python `s.lower()` (ASCII). -/
def pyLower (s : String) : String := ⟨s.data.map Char.toLower⟩

/-- One step of Python `str.title()`: `prev` records whether the previous
character was a cased letter. -/
def pyTitleAux : Bool → List Char → List Char
  | _, [] => []
  | prev, c :: cs =>
    if c.isAlpha then
      (if prev then c.toLower else c.toUpper) :: pyTitleAux true cs
    else
      c :: pyTitleAux false cs

/-- Python `s.title()` (ASCII cased). -/
def pyTitle (s : String) : String := ⟨pyTitleAux false s.data⟩

/-- Python `int(s)`: optional surrounding whitespace, optional sign, one or
more digits; `none` models the raised `ValueError`. -/
def pyInt? (s : String) : Option Int :=
  let t := pyStripL s.data
  let (sgn, ds) : Int × List Char :=
    match t with
    | '+' :: r => (1, r)
    | '-' :: r => (-1, r)
    | r => (1, r)
  if ds ≠ [] && ds.all Char.isDigit then
    some (sgn * (ds.foldl (fun a c => a * 10 + (c.toNat - '0'.toNat)) 0 : Nat))
  else none

/-- Python `str(n)` for an integer. -/
def pyStr (n : Int) : String := toString n

end PCGen

namespace PCGen

/-! ## Tag grammar -/

/-- The fixed alignment enumeration (module constant `ALIGNMENTS`). -/
def ALIGNMENTS : List String := ["LG", "NG", "CG", "LN", "N", "CN", "LE", "NE", "CE"]

/-- `PCGEN_TAB_SIZE` -/
def PCGEN_TAB_SIZE : Int := 6

/-! ## Ability record

The Python class keeps its state in the dicts `fields`, `prerequisites`,
`prestat` and `prealign`; the structure below flattens those dict entries
into one record, keeping the dict keys as field names.  `prealign` is the
list of the nine boolean flags in `ALIGNMENTS` order (the dict over exactly
those nine keys); `true` is the flag value the renderer treats as
"alignment allowed" (an alignment whose flag is `false` is put on the
`disallowed_alignments` list). -/

structure Ability where
  name : String
  key : String
  desc : String
  ability_type : String
  ability_subtypes : List String
  mult : Bool
  stack : Bool
  pretext : String
  race : String
  feats : List String
  level : Int
  bab : Int
  str : Int
  dex : Int
  con : Int
  int : Int
  wis : Int
  cha : Int
  prealign : List Bool
  mode : String
  other_fields : List String
deriving DecidableEq, Repr

/-- `Ability.__init__`: strips `name`, `desc`, `ability_type`,
`required_race` and every `other_fields` entry; `key` defaults to the
stripped name; all nine alignment flags start `False`. -/
def Ability.init (name ability_type desc : String) (subtypes : List String)
    (required_race : String) (required_feats : List String)
    (required_str required_dex required_con required_int required_wis
     required_cha required_bab required_level : Int) (mult stack : Bool)
    (key : Option String) (pretext : String) (other_fields : List String)
    (mode : String) : Ability where
  name := pyStrip name
  key := match key with | none => pyStrip name | some k => k
  desc := pyStrip desc
  ability_type := pyStrip ability_type
  ability_subtypes := subtypes
  mult := mult
  stack := stack
  pretext := pretext
  race := pyStrip required_race
  feats := required_feats
  level := required_level
  bab := required_bab
  str := required_str
  dex := required_dex
  con := required_con
  int := required_int
  wis := required_wis
  cha := required_cha
  prealign := List.replicate 9 false
  mode := mode
  other_fields := other_fields.map pyStrip

/-- The `(stat-name, value)` pairs of the `prestat` dict in insertion order
(`bab` first, as in `__init__`). -/
def Ability.prestat (a : Ability) : List (String × Int) :=
  [("bab", a.bab), ("str", a.str), ("dex", a.dex), ("con", a.con),
   ("int", a.int), ("wis", a.wis), ("cha", a.cha)]

/-- The alignments whose flag is `False`, in `ALIGNMENTS` order: the
`disallowed_alignments` list both renderers build. -/
def Ability.disallowed (a : Ability) : List String :=
  ((ALIGNMENTS.zip a.prealign).filter (fun p => !p.2)).map (fun p => p.1)

/-- `Ability.__eq__`: same name or same key, case-insensitively. -/
def Ability.eq (a other : Ability) : Bool :=
  pyUpper a.name = pyUpper other.name || pyUpper a.key = pyUpper other.key

/-! ## Line builder

A `.lst` line under construction.  `closed` are the tab-terminated cells so
far, `cur` the text after the last tab.  Appending text is `app`; the full
line text is `line`; `toks` are the non-empty cells -- the tokens
`list(filter(None, line.split("\t")))` yields. -/

structure Builder where
  closed : List String
  cur : String
deriving DecidableEq, Repr

def Builder.empty : Builder := ⟨[], ""⟩

def appChars : Builder → List Char → Builder
  | b, [] => b
  | b, c :: cs =>
    if c = '\t' then appChars ⟨b.closed ++ [b.cur], ""⟩ cs
    else appChars ⟨b.closed, ⟨b.cur.data ++ [c]⟩⟩ cs

def Builder.app (b : Builder) (s : String) : Builder := appChars b s.data

def Builder.cells (b : Builder) : List String := b.closed ++ [b.cur]

/-- Join cell contents with single tabs. -/
def joinTabs : List (List Char) → List Char
  | [] => []
  | [x] => x
  | x :: xs => x ++ '\t' :: joinTabs xs

def Builder.lineData (b : Builder) : List Char := joinTabs (b.cells.map String.data)

def Builder.line (b : Builder) : String := ⟨b.lineData⟩

def Builder.toks (b : Builder) : List String := b.cells.filter (fun c => c ≠ "")

/-- Python `"\t" * n` (empty for `n ≤ 0`). -/
def tabStr (n : Int) : String := ⟨List.replicate n.toNat '\t'⟩

/-! ## Column arithmetic -/

/-- `Ability.calculate_tabs_raw`: padding tabs for a token of the given
column width, plus the excess carried to later columns. -/
def calculate_tabs_raw (token : String) (field_width : Int) : Int × Int :=
  let token := pyStrip token
  let tabs : Int := field_width - ((token.data.length / 6 : Nat) : Int)
  let excess_tabs : Int :=
    if (token.data.length : Int) > field_width * 6 then
      ((token.data.length / 6 : Nat) : Int) - field_width
    else 0
  (tabs, excess_tabs)

/-- Worker for `drain`: the loop runs at most `excess.toNat` times. -/
def drainGo (floor : Int) : Nat → Int → Int → Int × Int
  | 0, tabs, excess => (tabs, excess)
  | fuel + 1, tabs, excess =>
    if tabs > floor ∧ excess > 0 then drainGo floor fuel (tabs - 1) (excess - 1)
    else (tabs, excess)

/-- The `while tabs > floor and excess_tabs > 0: tabs -= 1; excess_tabs -= 1`
loops of both renderers. -/
def drain (floor tabs excess : Int) : Int × Int :=
  drainGo floor excess.toNat tabs excess

end PCGen

namespace PCGen

/-! ## Column serializer (`Ability.__str__`)

`__str__` both builds the line and mutates `self.other_fields` (synthetic
compound-prerequisite entries).  The state below threads the ability (whose
`other_fields` may change), the line builder and the running
`excess_tabs`; each `segN` is the corresponding block of `__str__`, in
source order.  Blocks that index `ability_subtypes[0]` return `Option`. -/

structure RS where
  a : Ability
  b : Builder
  et : Int
deriving Repr

/-- The synthesized DEX compound entry (with its leading tab as appended
on line 356). -/
def dexPremult (a : Ability) : String :=
  "\t" ++ "PREMULT:1,[PREVARGTEQ:PreStatScore_DEX," ++ pyStr a.dex ++
    "],[PREVARGTEQ:FeatDexRequirement," ++ pyStr a.dex ++ "]"

/-- The synthesized STR entry. -/
def strPremult (a : Ability) : String :=
  "\t" ++ "PREVARGTEQ:PreStatScore_STR," ++ pyStr a.str

/-- The synthesized INT compound entry. -/
def intPremult (a : Ability) : String :=
  "\t" ++ "PREMULT: 1, [PREVARGTEQ: PreStatScore_INT, " ++ pyStr a.int ++
    "], [PREVARGTEQ: CombatFeatIntRequirement, " ++ pyStr a.int ++ "]"

/-- The trait race-prerequisite compound entry (same string in `__str__`
line 392 and `Mod.__str__` line 700). -/
def racePremult (race : String) : String :=
  "PREMULT:1,[PRERACE:1," ++ race ++
    "],[PREABILITY:1,CATEGORY=Special Ability,Adoptive Race ~ " ++ race ++ "]"

/-- The trait bypass-restriction compound entry (lines 425-427 / 737-741). -/
def bypassPremult (key st0 : String) : String :=
  "PREMULT:1,[PREABILITY:1,CATEGORY=Special Ability," ++ key ++
    "],[PREVAREQ:BypassTraitRestriction,1],[!PREABILITY:1,CATEGORY:Special Ability,TYPE." ++
    st0 ++ "Trait]"

/-- Lines 287-309: name cell, its padding, initial excess, and the key cell. -/
def seg1 (a : Ability) : RS :=
  let b := Builder.empty.app a.name
  let b := b.app (tabStr (6 - ((a.name.data.length / 6 : Nat) : Int)))
  let et : Int :=
    if (a.name.data.length : Int) > 6 * PCGEN_TAB_SIZE then
      (((a.name.data.length - 36) / 6 : Nat) : Int)
    else 0
  if a.key = a.name then
    let (tabs, et) := drain 0 6 et
    ⟨a, b.app (tabStr tabs), et⟩
  else
    let b := b.app ("KEY:" ++ a.key)
    let (tabs, et') := calculate_tabs_raw ("KEY:" ++ a.key) 6
    let (tabs, et) := drain 0 tabs (et + et')
    ⟨a, b.app (tabStr tabs), et⟩

/-- Lines 311-336: category cell and type cell. -/
def seg2 (s : RS) : Option RS := do
  let a := s.a
  let (b, et, type_string) ←
    if a.ability_type = "Feat" then
      let (tabs, et) := drain 1 3 s.et
      pure (s.b.app ("\t" ++ "CATEGORY:" ++ "FEAT" ++ tabStr tabs), et,
        "TYPE:" ++ String.intercalate "." a.ability_subtypes)
    else if a.ability_type = "Trait" then do
      let b := s.b.app ("\t" ++ "CATEGORY:" ++ "Special Ability" ++ "\t")
      let st0 ← a.ability_subtypes.head?
      let ts := "TYPE:Trait." ++
        (if st0 = "Combat" ∨ st0 = "Social" ∨ st0 = "Magic" ∨ st0 = "Faith"
         then "BasicTrait." else "") ++ st0 ++ "Trait" ++
        (if 0 < pyCount st0 "Race" ∧ pyCount a.race "None" = 0
         then "." ++ pyTitle a.race ++ "Trait" else "")
      pure (b, s.et, ts)
    else
      pure (s.b.app ("\t" ++ "CATEGORY:" ++ "Special Ability" ++ "\t"), s.et,
        "TYPE:GM_Award.SpecialQuality")
  let (tabs, et') := calculate_tabs_raw type_string 4
  let (tabs, et) := drain 0 tabs (et + et')
  pure ⟨a, b.app ("\t" ++ type_string ++ tabStr tabs), et⟩

/-- The `stats` list of lines 338-343 with its values: `con`, `wis`, `cha`,
plus `str`, `dex`, `int` outside Pathfinder mode. -/
def statsList (a : Ability) : List (String × Int) :=
  [("con", a.con), ("wis", a.wis), ("cha", a.cha)] ++
    (if a.mode ≠ "Pathfinder 1e" then [("str", a.str), ("dex", a.dex), ("int", a.int)]
     else [])

/-- `stats_required` of lines 343-346. -/
def statsRequired (a : Ability) : List (String × Int) :=
  (statsList a).filter (fun p => 0 < p.2)

/-- The `PRESTAT:` token of lines 348-351. -/
def prestatToken (req : List (String × Int)) : String :=
  req.foldl (fun acc p => acc ++ "," ++ pyUpper p.1 ++ "=" ++ pyStr p.2)
    ("PRESTAT:" ++ pyStr req.length)

/-- Lines 338-370: stat-minimum cell; under Pathfinder mode the str/dex/int
minimums are instead synthesized into `other_fields` (each only if no entry
already holds the marker fragment). -/
def seg3 (s : RS) : RS :=
  let a := s.a
  let req := statsRequired a
  let b := if req ≠ [] then s.b.app ("\t" ++ prestatToken req) else s.b
  if a.mode = "Pathfinder 1e" ∧ (0 < a.dex ∨ 0 < a.str ∨ 0 < a.int) then
    let of := a.other_fields
    let of := if 0 < a.dex ∧ ¬ of.any (fun f => pyContains f "PreStatScore_DEX")
      then of ++ [dexPremult a] else of
    let of := if 0 < a.str ∧ ¬ of.any (fun f => pyContains f "PreStatScore_STR")
      then of ++ [strPremult a] else of
    let of := if 0 < a.int ∧ ¬ of.any (fun f => pyContains f "PreStatScore_INT")
      then of ++ [intPremult a] else of
    ⟨{ a with other_fields := of }, b.app (tabStr 4), s.et⟩
  else if req = [] then ⟨a, b.app (tabStr 4), s.et⟩
  else ⟨a, b, s.et⟩

/-- The `!PREALIGN:` token (lines 373-379 / 680-686). -/
def alignToken (a : Ability) : String :=
  "!PREALIGN:" ++ String.intercalate "," a.disallowed

/-- Lines 372-385: alignment-exclusion cell. -/
def seg4 (s : RS) : RS :=
  let a := s.a
  let align_string := if a.disallowed.length < 9 then alignToken a else ""
  let (tabs, et') := calculate_tabs_raw align_string 5
  let (tabs, et) := drain 0 tabs (s.et + et')
  ⟨a, s.b.app ("\t" ++ align_string ++ tabStr tabs), et⟩

/-- Lines 387-417: race cell; a Trait instead synthesizes the
race-prerequisite compound entry (replacing every entry that holds both
marker fragments, else appending). -/
def seg5 (s : RS) : RS :=
  let a := s.a
  if a.race ≠ "None" then
    if a.ability_type = "Trait" then
      let ps := racePremult a.race
      let found := a.other_fields.any
        (fun f => pyContains f "PREMULT:1," ∧ pyContains f "PRERACE:1,")
      let of := a.other_fields.map
        (fun f => if pyContains f "PREMULT:1," ∧ pyContains f "PRERACE:1," then ps else f)
      let of := if ¬ found then of ++ [ps] else of
      ⟨{ a with other_fields := of }, s.b.app (tabStr (4 + 1)), s.et⟩
    else
      let race_string := "PRERACE:1," ++ a.race
      let (tabs, et') := calculate_tabs_raw race_string 4
      let (tabs, et) := drain 0 tabs (s.et + et')
      ⟨a, s.b.app ("\t" ++ race_string ++ tabStr tabs), et⟩
  else
    let (tabs, et) := drain 0 (4 + 1) s.et
    ⟨a, s.b.app (tabStr tabs), et⟩

/-- Lines 419-427: trait bypass-restriction synthesis (no cell emitted). -/
def seg6 (s : RS) : Option RS := do
  let a := s.a
  if a.ability_type = "Trait" then
    let present := a.other_fields.any
      (fun f => 0 < pyCount f "PREMULT:1,[" ∧ 0 < pyCount f "PREVAREQ:BypassTraitRestriction,1")
    if ¬ present then
      let st0 ← a.ability_subtypes.head?
      pure ⟨{ a with other_fields := a.other_fields ++ [bypassPremult a.key st0] }, s.b, s.et⟩
    else pure s
  else pure s

/-- Lines 429-436: attack-bonus cell. -/
def seg7 (s : RS) : RS :=
  if 0 < s.a.bab then ⟨s.a, s.b.app ("\t" ++ "PRETOTALAB:" ++ pyStr s.a.bab), s.et⟩
  else
    let (tabs, et) := drain 0 3 s.et
    ⟨s.a, s.b.app (tabStr tabs), et⟩

/-- Lines 438-445: level cell. -/
def seg8 (s : RS) : RS :=
  if 0 < s.a.level then
    ⟨s.a, s.b.app ("\t" ++ "PREVARGTEQ:TL," ++ pyStr s.a.level), s.et⟩
  else
    let (tabs, et) := drain 0 4 s.et
    ⟨s.a, s.b.app (tabStr tabs), et⟩

/-- The `PREABILITY:` token of lines 449-452. -/
def featsToken (feats : List String) : String :=
  feats.foldl (fun acc f => acc ++ "," ++ f)
    ("PREABILITY:" ++ pyStr feats.length ++ ",CATEGORY=FEAT")

/-- Lines 447-458: feat-prerequisite cell. -/
def seg9 (s : RS) : RS :=
  let feats_string := if s.a.feats ≠ [] then featsToken s.a.feats else ""
  let (tabs, et') := calculate_tabs_raw feats_string 11
  let (tabs, et) := drain 0 tabs (s.et + et')
  ⟨s.a, s.b.app ("\t" ++ feats_string ++ tabStr tabs), et⟩

/-- Lines 460-469: MULT cell, synthesizing `CHOOSE:NOCHOICE` when needed. -/
def seg10 (s : RS) : RS :=
  if s.a.mult then
    let b := s.b.app ("\t" ++ "MULT:" ++ "YES\t")
    if ¬ s.a.other_fields.any (fun f => 0 < pyCount f "CHOOSE") then
      ⟨{ s.a with other_fields := s.a.other_fields ++ ["CHOOSE:NOCHOICE"] }, b, s.et⟩
    else ⟨s.a, b, s.et⟩
  else ⟨s.a, s.b.app ("\t" ++ "MULT:" ++ "NO\t"), s.et⟩

/-- Lines 471-474: STACK cell. -/
def seg11 (s : RS) : RS :=
  ⟨s.a, s.b.app ("\t" ++ "STACK:" ++ (if s.a.stack then "YES\t" else "NO\t")), s.et⟩

/-- Lines 476-482: GM-award zero-cost synthesis. -/
def seg12 (s : RS) : RS :=
  if s.a.ability_type = "GM_Award" ∧
      ¬ s.a.other_fields.any (fun f => 0 < pyCount f "COST:") then
    ⟨{ s.a with other_fields := s.a.other_fields ++ ["COST:0"] }, s.b, s.et⟩
  else s

/-- Lines 484-488: description and narrative-prerequisite cells. -/
def seg13 (s : RS) : RS :=
  let b := if s.a.desc ≠ "" then s.b.app ("\t\tDESC:" ++ s.a.desc) else s.b
  let b := if s.a.pretext ≠ "" then b.app ("\t" ++ "PRETEXT:" ++ s.a.pretext) else b
  ⟨s.a, b, s.et⟩

/-- Lines 490-493: every (stripped, non-blank) `other_fields` entry. -/
def seg14 (s : RS) : RS :=
  ⟨s.a,
   s.a.other_fields.foldl
     (fun b f => if pyStrip f ≠ "" then b.app ("\t\t" ++ pyStrip f) else b) s.b,
   s.et⟩

/-- `Ability.__str__`: the rendered line plus the ability as mutated by the
idempotent syntheses.  `none` models the `IndexError` a Trait with no
subtypes raises. -/
def Ability.render (a : Ability) : Option (Ability × Builder) := do
  let s ← seg2 (seg1 a)
  let s ← seg6 (seg5 (seg4 (seg3 s)))
  let s := seg14 (seg13 (seg12 (seg11 (seg10 (seg9 (seg8 (seg7 s)))))))
  pure (s.a, s.b)

end PCGen

namespace PCGen

/-! ## Line parser (`Ability.generate_ability`)

`ability_dict` is modelled by `PD`.  The Python dict would also accept
assignments under arbitrary keys (e.g. a `PRESTAT:` naming an unknown stat
creates a key that is never read again); `setStat` models exactly the keys
the final constructor call reads back, and ignores the write-only ones. -/

structure PD where
  name : String
  key : String
  type : String
  subtypes : List String
  align : List Bool
  race : String
  str : Int
  dex : Int
  con : Int
  int : Int
  wis : Int
  cha : Int
  bab : Int
  level : Int
  mult : Bool
  stack : Bool
  desc : String
  feats : List String
  pretext : String
  other_fields : List String
deriving DecidableEq, Repr

/-- The freshly initialised `ability_dict` (lines 147-168). -/
def PD.start (name : String) : PD where
  name := name
  key := name
  type := ""
  subtypes := []
  align := List.replicate 9 false
  race := "None"
  str := 0
  dex := 0
  con := 0
  int := 0
  wis := 0
  cha := 0
  bab := 0
  level := 0
  mult := false
  stack := false
  desc := ""
  feats := []
  pretext := ""
  other_fields := []

/-- `ability_dict[alignment] = v` for an alignment name (an unknown name
creates a dict key that is never read; modelled as a no-op on the flags). -/
def setAlign (flags : List Bool) (nm : String) (v : Bool) : List Bool :=
  (ALIGNMENTS.zip flags).map (fun p => if p.1 = nm then v else p.2)

/-- `ability_dict[statname] = n` for the stat keys the constructor call
reads back (plus `level`, which is written but never read). -/
def setStat (d : PD) (sname : String) (n : Int) : PD :=
  if sname = "str" then { d with str := n }
  else if sname = "dex" then { d with dex := n }
  else if sname = "con" then { d with con := n }
  else if sname = "int" then { d with int := n }
  else if sname = "wis" then { d with wis := n }
  else if sname = "cha" then { d with cha := n }
  else if sname = "bab" then { d with bab := n }
  else if sname = "level" then { d with level := n }
  else d

/-- `Ability.parse_premult`. -/
def parse_premult (token : String) : List String :=
  (pySplit token "],[").map (fun t => pyReplace (pyReplace t "[" "") "]" "")

/-- One iteration of the `PREMULT:` sub-condition loop (lines 221-236),
threading `(ability_dict, parseable)`. -/
def premultStep (p : PD × Bool) (sub : String) : Option (PD × Bool) := do
  let (d, parseable) := p
  if pyStartsWith sub "PRERACE:" then do
    let v ← (pySplit1 sub ":").get? 1
    let race ← (pySplit v ",").get? 1
    let race := pyReplace race "%" ""
    if 0 < pyCount d.race "None" then pure ({ d with race := race }, true)
    else pure (d, parseable)
  else if pyStartsWith sub "PREVARGTEQ:" ∧ 0 < pyCount sub "PreStatScore_DEX" then do
    let v ← (pySplit1 sub ":").get? 1
    let sv ← (pySplit v ",").get? 1
    let n ← pyInt? sv
    pure ({ d with dex := n }, true)
  else if pyStartsWith sub "PREVARGTEQ:" ∧ 0 < pyCount sub "PreStatScore_INT" then do
    let v ← (pySplit1 sub ":").get? 1
    let sv ← (pySplit v ",").get? 1
    let n ← pyInt? sv
    pure ({ d with int := n }, true)
  else pure (d, parseable)

/-- The token-dispatch loop body of `generate_ability` (lines 169-247). -/
def processToken (d : PD) (token0 : String) : Option PD := do
  let token := pyStrip token0
  if pyStartsWith token "CATEGORY:" then
    pure (if 0 < pyCount token "FEAT" then { d with type := "Feat" } else d)
  else if pyStartsWith token "KEY:" then do
    let v ← (pySplit1 token ":").get? 1
    pure { d with key := v }
  else if pyStartsWith token "TYPE:" then do
    let d :=
      if 0 < pyCount token "Trait" ∧ pyCount token "RacialTrait" = 0 then
        { d with type := "Trait" }
      else if 0 < pyCount token "GM_Award" then { d with type := "GM_Award" }
      else d
    let v ← (pySplit1 token ":").get? 1
    pure ((pySplit v ".").foldl (fun d sub =>
      let subtype := pyReplace (pyReplace (pyReplace sub "Trait" "") "SpecialQuality" "") "GM_Award" ""
      if subtype ≠ "" ∧ pyCount subtype "Basic" = 0 ∧ d.subtypes.count "Race" = 0 then
        { d with subtypes := d.subtypes ++ [subtype] }
      else d) d)
  else if pyStartsWith token "!PREALIGN:" then do
    let d := { d with align := List.replicate 9 true }
    let v ← (pySplit1 token ":").get? 1
    pure ((pySplit v ",").foldl (fun d sub => { d with align := setAlign d.align sub false }) d)
  else if pyStartsWith token "PRERACE:" then do
    let v ← (pySplit1 token ":").get? 1
    let race ← (pySplit v ",").get? 1
    pure { d with race := pyReplace race "%" "" }
  else if pyStartsWith token "PRESTAT:" then do
    let v ← (pySplit1 token ":").get? 1
    let s1 ← (pySplit v ",").get? 1
    let parts := pySplit s1 "="
    let sname ← parts.get? 0
    let sval ← parts.get? 1
    let n ← pyInt? sval
    pure (setStat d (pyLower sname) n)
  else if pyStartsWith token "PRETOTALAB:" then do
    let v ← (pySplit1 token ":").get? 1
    let n ← pyInt? v
    pure { d with bab := n }
  else if pyStartsWith token "PREABILITY:" ∧ 0 < pyCount token "CATEGORY=FEAT" then do
    let v ← (pySplit1 token ":").get? 1
    pure { d with feats := (pySplit v ",").drop 2 }
  else if pyStartsWith token "DESC:" then do
    let v ← (pySplit1 token ":").get? 1
    pure { d with desc := v }
  else if pyStartsWith token "MULT:" then do
    let v ← (pySplit1 token ":").get? 1
    pure { d with mult := 0 < pyCount (pyUpper v) "YES" }
  else if pyStartsWith token "STACK:" then do
    let v ← (pySplit1 token ":").get? 1
    pure { d with stack := 0 < pyCount (pyUpper v) "YES" }
  else if pyStartsWith token "PREMULT:" then do
    let v ← (pySplit1 token ":").get? 1
    let tv ← (pySplit1 v ",").get? 1
    let (d, parseable) ← (parse_premult tv).foldlM premultStep (d, false)
    if parseable then pure d
    else pure { d with other_fields := d.other_fields ++ [token] }
  else if pyStartsWith token "PREVARGTEQ:" ∧ 0 < pyCount token "PreStatScore_STR" then do
    let v ← (pySplit1 token ":").get? 1
    let sv ← (pySplit v ",").get? 1
    let n ← pyInt? sv
    pure { d with str := n }
  else if pyStartsWith token "PREVARGTEQ:TL" then do
    let v ← (pySplit1 token ",").get? 1
    let n ← pyInt? v
    pure { d with level := n }
  else if pyStartsWith token "PRETEXT:" then do
    let v ← (pySplit1 token ":").get? 1
    pure { d with pretext := v }
  else
    pure { d with other_fields := d.other_fields ++ [token] }

/-- `Ability.generate_ability`.  Outer `none`: the call raised (Python
exception); inner `none`: the documented "not a modelled ability" result.
Note the final constructor call passes no `required_level`, `key` and
`prealign` are then overwritten from the dict, and `mode` is left at its
default. -/
def Ability.generate_ability (lst_string : String) : Option (Option Ability) := do
  if pyStartsWith (pyStrip lst_string) "#" then pure none
  else
    match (pySplit lst_string "\t").filter (fun t => t ≠ "") with
    | [] => none
    | name :: rest => do
      let d ← rest.foldlM processToken (PD.start name)
      if d.type ≠ "" then
        let a := Ability.init d.name d.type d.desc d.subtypes d.race d.feats
          d.str d.dex d.con d.int d.wis d.cha d.bab 0 d.mult d.stack none
          d.pretext d.other_fields "Pathfinder 1e"
        pure (some { a with key := d.key, prealign := d.align })
      else pure none

end PCGen

namespace PCGen

/-! ## Diff generator (`Mod.__str__`)

`Mod.__init__` stores the two records unchecked (plus `mode` from the
modified record and `key` from the base record); rendering walks the
attribute groups.  `MS` threads both records (only the modified one is
ever updated), the builder and the excess ledger. -/

structure MS where
  base : Ability
  m : Ability
  b : Builder
  et : Int
deriving Repr

/-- `Mod.extract_key`. -/
def Mod.extract_key (lst_string : String) : Option String := do
  let p ← (pySplit lst_string "|").get? 1
  (pySplit p ".").get? 0

/-- The `.MOD` key header (lines 562-565). -/
def modHeader (m : Ability) : String :=
  if m.ability_type = "Feat" then "CATEGORY=FEAT|" ++ m.key ++ ".MOD"
  else "CATEGORY=Special Ability|" ++ m.key ++ ".MOD"

/-- Lines 557-568: the header cell and its padding (`tabs + 1`, no drain). -/
def mseg1 (base m : Ability) : MS :=
  let b := Builder.empty.app (modHeader m)
  let (tabs, et) := calculate_tabs_raw (modHeader m) 11
  ⟨base, m, b.app (tabStr (tabs + 1)), et⟩

/-- `clear_subtypes` after the first loop (lines 571-575). -/
def clearSubtypes1 (base m : Ability) : Bool :=
  base.ability_subtypes.any (fun st => ¬ m.ability_subtypes.contains st)

/-- `added_subtypes` (lines 576-578), computed with the first-stage
`clear_subtypes` value. -/
def addedSubtypes (base m : Ability) : List String :=
  m.ability_subtypes.filter
    (fun st => ¬ base.ability_subtypes.contains st ∨ clearSubtypes1 base m)

/-- `clear_subtypes` after the racial-trait clause (lines 579-582); the
short-circuited `and` indexes `base.ability_subtypes[0]` only when the
first two conjuncts hold. -/
def clearSubtypes2 (base m : Ability) : Option Bool := do
  if clearSubtypes1 base m then pure true
  else if base.ability_type = "Trait" ∧ m.race ≠ base.race then do
    let st0 ← base.ability_subtypes.head?
    pure (0 < pyCount st0 "Race")
  else pure false

/-- The `TYPE:` token of a patch (lines 592-605). -/
def modTypeToken (base m : Ability) : Option String := do
  if base.ability_type = "Feat" then
    pure ("TYPE:" ++ String.intercalate "." (addedSubtypes base m))
  else if base.ability_type = "Trait" then do
    let st0 ← m.ability_subtypes.head?
    pure ("TYPE:Trait." ++
      (if st0 = "Combat" ∨ st0 = "Social" ∨ st0 = "Magic" ∨ st0 = "Faith"
       then "BasicTrait." else "") ++ st0 ++ "Trait" ++
      (if 0 < pyCount st0 "Race" ∧ pyCount m.race "None" = 0
       then "." ++ pyTitle m.race ++ "Trait" else ""))
  else pure "TYPE:GM_Award.SpecialQuality"

/-- Lines 570-613: the subtype group (clear cell plus `TYPE:` cell). -/
def mseg2 (s : MS) : Option MS := do
  let clear ← clearSubtypes2 s.base s.m
  let (b, et) ←
    if clear then pure (s.b.app "\tTYPE:.clear\t", s.et)
    else
      let (tabs, et) := drain 1 3 s.et
      pure (s.b.app (tabStr tabs), et)
  if addedSubtypes s.base s.m ≠ [] ∨ clear then do
    let ts ← modTypeToken s.base s.m
    let (tabs, et') := calculate_tabs_raw ts 5
    let (tabs, et) := drain 0 tabs (et + et')
    pure ⟨s.base, s.m, b.app ("\t" ++ ts ++ tabStr tabs), et⟩
  else
    pure ⟨s.base, s.m, b.app (tabStr (5 + 1)), et⟩

/-- `clear_prerequisites` (lines 615-629). -/
def clearPrereq (base m : Ability) : Bool :=
  base.race ≠ m.race || base.level ≠ m.level || base.pretext ≠ m.pretext ||
  ((m.prestat.zip base.prestat).any
    (fun p => p.2.2 ≠ p.1.2 ∧ p.2.2 ≠ 0)) ||
  ((base.prealign.zip m.prealign).any (fun p => p.1 ≠ p.2)) ||
  (base.feats.any (fun f => ¬ m.feats.contains f))

/-- Lines 631-634: the `PRE:.clear` sentinel cell. -/
def mseg3 (s : MS) : MS :=
  if clearPrereq s.base s.m then ⟨s.base, s.m, s.b.app "\tPRE:.clear\t", s.et⟩
  else ⟨s.base, s.m, s.b.app "\t\t\t", s.et⟩

/-- `self.prestat[stat]` by key. -/
def statLookup (a : Ability) (nm : String) : Int :=
  (a.prestat.lookup nm).getD 0

/-- The `premult_string[stat]` table of lines 655-664 (no leading tab,
unlike the `__str__` versions). -/
def modPremultString (m : Ability) (st : String) : String :=
  if st = "str" then "PREVARGTEQ:PreStatScore_STR," ++ pyStr m.str
  else if st = "dex" then
    "PREMULT:1,[PREVARGTEQ:PreStatScore_DEX," ++ pyStr m.dex ++
      "],[PREVARGTEQ:FeatDexRequirement," ++ pyStr m.dex ++ "]"
  else
    "PREMULT: 1, [PREVARGTEQ: PreStatScore_INT, " ++ pyStr m.int ++
      "], [PREVARGTEQ: CombatFeatIntRequirement, " ++ pyStr m.int ++ "]"

/-- One iteration of the loop of lines 665-674: replace every entry holding
the `PreStatScore_<STAT>` fragment, else append. -/
def modStatSynth (base m : Ability) (st : String) : Ability :=
  if 0 < statLookup m st ∧ (clearPrereq base m ∨ statLookup base st = 0) then
    let ps := modPremultString m st
    let marker := "PreStatScore_" ++ pyUpper st
    let found := m.other_fields.any (fun f => pyContains f marker)
    let of := m.other_fields.map (fun f => if pyContains f marker then ps else f)
    { m with other_fields := if ¬ found then of ++ [ps] else of }
  else m

/-- `stats_required` of the patch (lines 636-645): a stat is re-emitted if
nonzero in the edited record and either the group is being cleared or the
base had no such minimum. -/
def modStatsRequired (base m : Ability) : List (String × Int) :=
  (statsList m).filter (fun p =>
    0 < p.2 ∧ (clearPrereq base m ∨ statLookup base p.1 = 0))

/-- Lines 647-677: the `PRESTAT:` cell and the Pathfinder str/dex/int
synthesis into the edited record's `other_fields` (replace-or-append). -/
def mseg4 (s : MS) : MS :=
  let req := modStatsRequired s.base s.m
  let b := if req ≠ [] then s.b.app ("\t" ++ prestatToken req) else s.b
  if s.m.mode = "Pathfinder 1e" ∧ (0 < s.m.dex ∨ 0 < s.m.str ∨ 0 < s.m.int) then
    let m := s.m
    let m := modStatSynth s.base m "str"
    let m := modStatSynth s.base m "dex"
    let m := modStatSynth s.base m "int"
    ⟨s.base, m, b.app (tabStr 4), s.et⟩
  else if req = [] then ⟨s.base, s.m, b.app (tabStr 4), s.et⟩
  else ⟨s.base, s.m, b, s.et⟩

end PCGen

namespace PCGen

/-- Lines 679-692: alignment cell of a patch -- emitted only when fewer than
nine alignments are disallowed *and* the prerequisite group is cleared. -/
def mseg5 (s : MS) : MS :=
  let align_string :=
    if s.m.disallowed.length < 9 ∧ clearPrereq s.base s.m then alignToken s.m else ""
  let (tabs, et') := calculate_tabs_raw align_string 5
  let (tabs, et) := drain 0 tabs (s.et + et')
  ⟨s.base, s.m, s.b.app ("\t" ++ align_string ++ tabStr tabs), et⟩

/-- Lines 694-726: race cell of a patch (Trait: compound-entry synthesis). -/
def mseg6 (s : MS) : MS :=
  if s.m.race ≠ "None" ∧ (clearPrereq s.base s.m ∨ s.base.race = "None") then
    if s.m.ability_type = "Trait" then
      let ps := racePremult s.m.race
      let found := s.m.other_fields.any
        (fun f => pyContains f "PREMULT:1," ∧ pyContains f "PRERACE:1,")
      let of := s.m.other_fields.map
        (fun f => if pyContains f "PREMULT:1," ∧ pyContains f "PRERACE:1," then ps else f)
      let of := if ¬ found then of ++ [ps] else of
      ⟨s.base, { s.m with other_fields := of }, s.b.app (tabStr (4 + 1)), s.et⟩
    else
      let race_string := "PRERACE:1," ++ s.m.race
      let (tabs, et') := calculate_tabs_raw race_string 4
      let (tabs, et) := drain 0 tabs (s.et + et')
      ⟨s.base, s.m, s.b.app ("\t" ++ race_string ++ tabStr tabs), et⟩
  else
    let (tabs, et) := drain 0 (4 + 1) s.et
    ⟨s.base, s.m, s.b.app (tabStr tabs), et⟩

/-- Lines 728-741: trait bypass-restriction synthesis in a patch.  The
`or` short-circuits: the subtype heads are compared only when the
prerequisite group is not being cleared. -/
def mseg7 (s : MS) : Option MS := do
  if s.m.ability_type = "Trait" then
    let trigger ←
      if clearPrereq s.base s.m then pure true
      else do
        let mh ← s.m.ability_subtypes.head?
        let bh ← s.base.ability_subtypes.head?
        pure (decide (mh ≠ bh))
    if trigger then
      let present := s.m.other_fields.any
        (fun f => 0 < pyCount f "PREMULT:1,[" ∧
          0 < pyCount f "PREVAREQ:BypassTraitRestriction,1")
      if ¬ present then do
        let st0 ← s.m.ability_subtypes.head?
        pure ⟨s.base,
          { s.m with other_fields := s.m.other_fields ++ [bypassPremult s.m.key st0] },
          s.b, s.et⟩
      else pure s
    else pure s
  else pure s

/-- Lines 743-751: attack-bonus cell of a patch. -/
def mseg8 (s : MS) : MS :=
  if 0 < s.m.bab ∧ (clearPrereq s.base s.m ∨ s.base.bab = 0) then
    ⟨s.base, s.m, s.b.app ("\t" ++ "PRETOTALAB:" ++ pyStr s.m.bab), s.et⟩
  else
    let (tabs, et) := drain 0 3 s.et
    ⟨s.base, s.m, s.b.app (tabStr tabs), et⟩

/-- Lines 753-762: level cell of a patch. -/
def mseg9 (s : MS) : MS :=
  if 0 < s.m.level ∧ (clearPrereq s.base s.m ∨ s.base.level = 0) then
    ⟨s.base, s.m, s.b.app ("\t" ++ "PREVARGTEQ:TL," ++ pyStr s.m.level), s.et⟩
  else
    let (tabs, et) := drain 0 4 s.et
    ⟨s.base, s.m, s.b.app (tabStr tabs), et⟩

/-- `added_feats` (lines 766-769). -/
def addedFeats (base m : Ability) : List String :=
  m.feats.filter (fun f => ¬ base.feats.contains f ∨ clearPrereq base m)

/-- Lines 764-778: feat-prerequisite cell of a patch. -/
def mseg10 (s : MS) : MS :=
  let added := addedFeats s.base s.m
  let feats_string :=
    if added ≠ [] then
      "PREABILITY:" ++ pyStr added.length ++ ",CATEGORY=FEAT," ++
        String.intercalate "," added
    else ""
  let (tabs, et') := calculate_tabs_raw feats_string 11
  let (tabs, et) := drain 0 tabs (s.et + et')
  ⟨s.base, s.m, s.b.app ("\t" ++ feats_string ++ tabStr tabs), et⟩

/-- Lines 780-783: narrative-prerequisite cell of a patch. -/
def mseg11 (s : MS) : MS :=
  if s.m.pretext ≠ "" ∧ (clearPrereq s.base s.m ∨ s.base.pretext = "") then
    ⟨s.base, s.m, s.b.app ("\t" ++ "PRETEXT:" ++ s.m.pretext), s.et⟩
  else s

/-- Lines 785-796: MULT cell of a patch, emitted only on a flip, with the
`CHOOSE:NOCHOICE` synthesis on a False-to-True flip. -/
def mseg12 (s : MS) : MS :=
  if s.m.mult ∧ ¬ s.base.mult then
    let b := s.b.app ("\t" ++ "MULT:" ++ "YES\t")
    if ¬ s.m.other_fields.any (fun f => 0 < pyCount f "CHOOSE") then
      ⟨s.base, { s.m with other_fields := s.m.other_fields ++ ["CHOOSE:NOCHOICE"] }, b, s.et⟩
    else ⟨s.base, s.m, b, s.et⟩
  else if ¬ s.m.mult ∧ s.base.mult then
    ⟨s.base, s.m, s.b.app ("\t" ++ "MULT:" ++ "NO\t"), s.et⟩
  else ⟨s.base, s.m, s.b.app (tabStr 3), s.et⟩

/-- Lines 798-803: STACK cell of a patch (flip only). -/
def mseg13 (s : MS) : MS :=
  if s.m.stack ∧ ¬ s.base.stack then
    ⟨s.base, s.m, s.b.app ("\t" ++ "STACK:" ++ "YES\t"), s.et⟩
  else if ¬ s.m.stack ∧ s.base.stack then
    ⟨s.base, s.m, s.b.app ("\t" ++ "STACK:" ++ "NO\t"), s.et⟩
  else ⟨s.base, s.m, s.b.app (tabStr 3), s.et⟩

/-- Lines 805-806: description cells (clear plus new value) on any change. -/
def mseg14 (s : MS) : MS :=
  if s.m.desc ≠ s.base.desc then
    ⟨s.base, s.m, s.b.app ("\t\tDESC:.clear\tDESC:" ++ s.m.desc), s.et⟩
  else s

/-- Python `field.count("PRE", 0, 4)`: occurrences inside `field[0:4]`. -/
def preCount4 (f : String) : Nat := pyCount ⟨f.data.take 4⟩ "PRE"

/-- `added_other_fields` (lines 808-812). -/
def addedOtherFields (base m : Ability) : List String :=
  m.other_fields.filter
    (fun f => ¬ base.other_fields.contains f ∨ (clearPrereq base m ∧ 0 < preCount4 f))

/-- Lines 808-816: the extra-field cells of a patch. -/
def mseg15 (s : MS) : MS :=
  ⟨s.base, s.m,
   (addedOtherFields s.base s.m).foldl
     (fun b f => if pyStrip f ≠ "" then b.app ("\t\t" ++ pyStrip f) else b) s.b,
   s.et⟩

/-- `Mod.__str__`: renders the patch for `Mod(base_ability, modified_ability)`.
Returns the two records as they stand after rendering (the modified one may
have gained synthesized `other_fields` entries) and the built line. -/
def Mod.str (base modified : Ability) : Option (Ability × Ability × Builder) := do
  let s ← mseg2 (mseg1 base modified)
  let s := mseg6 (mseg5 (mseg4 (mseg3 s)))
  let s ← mseg7 s
  let s := mseg15 (mseg14 (mseg13 (mseg12 (mseg11 (mseg10 (mseg9 (mseg8 s)))))))
  pure (s.base, s.m, s.b)

end PCGen

namespace PCGen

/-! ## Collection store (`AbilityGenerator`) -/

/-- The duplicate test of `add_ability` (line 981): case-sensitive equality
of names or of keys. -/
def dupTrigger (a ability : Ability) : Bool :=
  a.name = ability.name || a.key = ability.key

/-- Whether inserting `ability` raises the overwrite question (the loop of
lines 980-989 finds a duplicate). -/
def addAbilityAsks (lst : List Ability) (ability : Ability) : Bool :=
  lst.any (fun a => dupTrigger a ability)

/-- Python `list.remove(a)`: drops the first element `== a`, where `==` is
`Ability.__eq__` (case-insensitive name-or-key). -/
def removeFirstEq (lst : List Ability) (a : Ability) : List Ability :=
  match lst with
  | [] => []
  | x :: xs => if Ability.eq x a then xs else x :: removeFirstEq xs a

/-- `AbilityGenerator.add_ability` on one mode's ability list; `answer` is
the user's reply to the overwrite dialog. -/
def add_ability (lst : List Ability) (ability : Ability) (answer : Bool) : List Ability :=
  match lst.find? (fun a => dupTrigger a ability) with
  | some a => if answer then removeFirstEq lst a ++ [ability] else lst
  | none => lst ++ [ability]

/-- Python's `<` on strings: codepoint-lexicographic comparison of the
character lists. -/
def strLtb : List Char → List Char → Bool
  | [], [] => false
  | [], _ :: _ => true
  | _ :: _, [] => false
  | a :: as, b :: bs => if a < b then true else if b < a then false else strLtb as bs

/-- Python's `<=` on strings. -/
def strLeb (s t : String) : Bool := !(strLtb t.data s.data)

/-- The sort key of line 1422: the *concatenation*
`ability_type + key`, compared as Python strings. -/
def sortKeyLe (x y : Ability) : Bool :=
  strLeb (x.ability_type ++ x.key) (y.ability_type ++ y.key)

/-- The generated-by comment line (lines 1418-1419). -/
def generatedByLine : String :=
  "# Generated by PCGen Ability LST File Generator (https://github.com/Tamdrik/PCGen-Ability-LST-File-Generator)"

/-- `AbilityGenerator.generate_ability_lst`, as the list of lines written
to the file (each `f.write(s + "\n")` is one line; the two banner writes
`"\n# BEGIN ..."` each contribute a blank line and a comment line).  Every
ability first has its `mode` set, is rendered (mutating it in place --
the returned value only models the file contents), and `none` models a
raised rendering error. -/
def generate_ability_lst (abilities : List Ability) (mods other_entries : List String)
    (header : String) (mode : String) : Option (List String) := do
  let sorted := abilities.mergeSort sortKeyLe
  let rendered ← sorted.mapM
    (fun a => (Ability.render { a with mode := mode }).map (fun p => p.2.line))
  pure ([generatedByLine, header, ""] ++ rendered ++
    (if other_entries ≠ [] then ["", "# BEGIN OTHER ENTRIES (e.g., class abilities)"] else []) ++
    other_entries ++ ["", "# BEGIN MODS"] ++ mods)

end PCGen

namespace PCGen

/-! ## Concrete records used as test inputs -/

/-- A plain feat with a level-5 prerequisite and no other requirements. -/
def sampleFeat : Ability where
  name := "Sample Feat"
  key := "Sample Feat"
  desc := "D"
  ability_type := "Feat"
  ability_subtypes := ["Combat"]
  mult := false
  stack := false
  pretext := ""
  race := "None"
  feats := []
  level := 5
  bab := 0
  str := 0
  dex := 0
  con := 0
  int := 0
  wis := 0
  cha := 0
  prealign := List.replicate 9 false
  mode := "Pathfinder 1e"
  other_fields := []

/-- The same feat with an edited description (a valid base/edited pair for a
patch). -/
def sampleEdited : Ability := { sampleFeat with desc := "D, edited" }

/-- The concrete patch-render result for `sampleFeat`/`sampleEdited`. -/
def sampleModOut : Ability × Ability × Builder :=
  (Mod.str sampleFeat sampleEdited).getD (sampleFeat, sampleFeat, Builder.empty)

/-- A trait usable as a concrete rendering/patch input. -/
def sampleTrait : Ability :=
  { sampleFeat with name := "Sample Trait", key := "Sample Trait",
                    ability_type := "Trait", ability_subtypes := ["Combat"] }

/-- The same trait with an empty subtype list (unrenderable). -/
def sampleTraitEmpty : Ability := { sampleTrait with ability_subtypes := [] }

/-- An edited record whose key differs from `sampleFeat`. -/
def keyMismatchEdited : Ability :=
  { sampleFeat with key := "Different Key", name := "Different Name" }

/-- The spec's sort key: the pair `(kind, key)` ordered lexicographically.
(The code instead compares the concatenations `kind ++ key`.) -/
def pairKeyLe (x y : Ability) : Prop :=
  x.ability_type < y.ability_type ∨ (x.ability_type = y.ability_type ∧ x.key ≤ y.key)

/-- An unsorted concrete ability list for the batch save. -/
def c8Abilities : List Ability := [sampleTrait, sampleFeat]

/-- The rendered line of `sampleFeat` under Pathfinder mode. -/
def c8LineFeat : String :=
  ((Ability.render { sampleFeat with mode := "Pathfinder 1e" }).getD
    (sampleFeat, Builder.empty)).2.line

/-- The rendered line of `sampleTrait` under Pathfinder mode. -/
def c8LineTrait : String :=
  ((Ability.render { sampleTrait with mode := "Pathfinder 1e" }).getD
    (sampleTrait, Builder.empty)).2.line

/-- The expected file lines for saving `c8Abilities`. -/
def c8Lines : List String :=
  [generatedByLine, "HEADER", "", c8LineFeat, c8LineTrait,
   "", "# BEGIN OTHER ENTRIES (e.g., class abilities)", "OTHERENTRY",
   "", "# BEGIN MODS", "MODLINE"]

/-- The concrete self-patch result for `sampleFeat`. -/
def c2SelfOut : Ability × Ability × Builder :=
  (Mod.str sampleFeat sampleFeat).getD (sampleFeat, sampleFeat, Builder.empty)

/-- An edited record raising a stat minimum from zero (for C3). -/
def c3Edited : Ability := { sampleFeat with con := 5 }

/-- The concrete patch for `sampleFeat`/`c3Edited`. -/
def c3Out : Ability × Ability × Builder :=
  (Mod.str sampleFeat c3Edited).getD (sampleFeat, sampleFeat, Builder.empty)

/-- A base record differing from `sampleFeat` in the level requirement. -/
def c3ClearBase : Ability := { sampleFeat with level := 1 }

/-- The concrete patch for `c3ClearBase`/`sampleFeat`. -/
def c3ClearOut : Ability × Ability × Builder :=
  (Mod.str c3ClearBase sampleFeat).getD (sampleFeat, sampleFeat, Builder.empty)

/-- Records equal under `Ability.__eq__` but not case-sensitively. -/
def caseFeatLower : Ability :=
  { sampleFeat with name := "power attack", key := "power attack" }

def caseFeatUpper : Ability :=
  { sampleFeat with name := "POWER ATTACK", key := "POWER ATTACK" }

end PCGen

namespace PCGen

/-- Join parts with a separator sequence (the shape of Python
`sep.join(parts)` and of `String.intercalate` at the character level). -/
def joinSep (sep : List Char) (parts : List (List Char)) : List Char :=
  match parts with
  | [] => []
  | x :: xs => x ++ xs.flatMap (fun y => sep ++ y)

end PCGen

namespace PCGen


/-- The `other_fields` update performed by `seg3` (lines 352-367). -/
def ofSeg3 (a : Ability) : List String :=
  if a.mode = "Pathfinder 1e" ∧ (0 < a.dex ∨ 0 < a.str ∨ 0 < a.int) then
    let of := a.other_fields
    let of := if 0 < a.dex ∧ ¬ of.any (fun f => pyContains f "PreStatScore_DEX")
      then of ++ [dexPremult a] else of
    let of := if 0 < a.str ∧ ¬ of.any (fun f => pyContains f "PreStatScore_STR")
      then of ++ [strPremult a] else of
    let of := if 0 < a.int ∧ ¬ of.any (fun f => pyContains f "PreStatScore_INT")
      then of ++ [intPremult a] else of
    of
  else a.other_fields

/-- The `other_fields` update performed by `seg5` (lines 389-401). -/
def ofSeg5 (a : Ability) : List String :=
  if a.race ≠ "None" then
    if a.ability_type = "Trait" then
      let ps := racePremult a.race
      let found := a.other_fields.any
        (fun f => pyContains f "PREMULT:1," ∧ pyContains f "PRERACE:1,")
      let of := a.other_fields.map
        (fun f => if pyContains f "PREMULT:1," ∧ pyContains f "PRERACE:1," then ps else f)
      if ¬ found then of ++ [ps] else of
    else a.other_fields
  else a.other_fields

/-- The `other_fields` update performed by `seg6` (lines 419-427), with the
subtype head looked up totally. -/
def ofSeg6 (a : Ability) : List String :=
  if a.ability_type = "Trait" then
    if ¬ a.other_fields.any
        (fun f => 0 < pyCount f "PREMULT:1,[" ∧
          0 < pyCount f "PREVAREQ:BypassTraitRestriction,1") then
      a.other_fields ++ [bypassPremult a.key (a.ability_subtypes.headD "")]
    else a.other_fields
  else a.other_fields

/-- The `other_fields` update performed by `seg10` (lines 460-469). -/
def ofSeg10 (a : Ability) : List String :=
  if a.mult then
    if ¬ a.other_fields.any (fun f => 0 < pyCount f "CHOOSE") then
      a.other_fields ++ ["CHOOSE:NOCHOICE"]
    else a.other_fields
  else a.other_fields

/-- The `other_fields` update performed by `seg12` (lines 476-482). -/
def ofSeg12 (a : Ability) : List String :=
  if a.ability_type = "GM_Award" ∧ ¬ a.other_fields.any (fun f => 0 < pyCount f "COST:") then
    a.other_fields ++ ["COST:0"]
  else a.other_fields

/-- The record after the `seg3` mutation. -/
def a3R (r : Ability) : Ability := { r with other_fields := ofSeg3 r }

/-- The record after the `seg5` mutation. -/
def a5R (r : Ability) : Ability := { r with other_fields := ofSeg5 (a3R r) }

/-- The record after the `seg6` mutation. -/
def a6R (r : Ability) : Ability := { r with other_fields := ofSeg6 (a5R r) }

/-- The record after the `seg10` mutation. -/
def a10R (r : Ability) : Ability := { r with other_fields := ofSeg10 (a6R r) }

/-- The composite `other_fields` update performed by one full render. -/
def ofRender (r : Ability) : List String := ofSeg12 (a10R r)

/-- The `sampleTrait` render pair (used to witness C6). -/
def c6Pair : Ability × Builder :=
  (Ability.render sampleTrait).getD (sampleTrait, Builder.empty)

def advTrait : Ability :=
  { sampleTrait with name := "Adversarial Trait", key := "PRERACE:1,odd", race := "Elf" }

def advR1 : Ability := ((Ability.render advTrait).getD (advTrait, Builder.empty)).1

def advR2 : Ability := ((Ability.render advR1).getD (advR1, Builder.empty)).1

end PCGen

namespace PCGen

/-! ## General lemmas about the builder -/

theorem appChars_append (b : Builder) (l1 l2 : List Char) :
    appChars b (l1 ++ l2) = appChars (appChars b l1) l2 := by
  induction l1 generalizing b with
  | nil => rfl
  | cons c cs ih =>
    simp only [List.cons_append, appChars]
    split <;> exact ih _

theorem Builder.app_append (b : Builder) (s t : String) :
    b.app (s ++ t) = (b.app s).app t := by
  simp [Builder.app, String.data_append, appChars_append]

/-- Appending to the builder only extends the list of closed cells. -/
theorem appChars_closed_extend (b : Builder) (l : List Char) :
    ∃ ext, (appChars b l).closed = b.closed ++ ext := by
  induction l generalizing b with
  | nil => exact ⟨[], by simp [appChars]⟩
  | cons c cs ih =>
    simp only [appChars]
    split
    · obtain ⟨ext, h⟩ := ih ⟨b.closed ++ [b.cur], ""⟩
      exact ⟨[b.cur] ++ ext, by simp [h]⟩
    · exact ih _

/-- Appending a tab-free string extends the current cell. -/
theorem appChars_tabFree (cs : List String) (cur : String) (l : List Char)
    (h : ∀ c ∈ l, c ≠ '\t') :
    appChars ⟨cs, cur⟩ l = ⟨cs, ⟨cur.data ++ l⟩⟩ := by
  induction l generalizing cur with
  | nil => simp [appChars]
  | cons c cl ih =>
    have hc : c ≠ '\t' := h c (by simp)
    simp only [appChars, if_neg hc]
    rw [ih _ (fun c hc => h c (by simp [hc]))]
    simp

theorem joinTabs_append (xs ys : List (List Char)) (hx : xs ≠ []) (hy : ys ≠ []) :
    joinTabs (xs ++ ys) = joinTabs xs ++ '\t' :: joinTabs ys := by
  induction xs with
  | nil => exact absurd rfl hx
  | cons x xt ih =>
    cases xt with
    | nil =>
      cases ys with
      | nil => exact absurd rfl hy
      | cons y yt => simp [joinTabs]
    | cons x2 xt2 =>
      have h2 := ih (by simp)
      simp only [List.cons_append] at h2
      simp only [List.cons_append, joinTabs, List.append_eq, h2]
      simp

theorem joinTabs_extend_last (xs : List (List Char)) (y : List Char) (c : Char) :
    joinTabs (xs ++ [y ++ [c]]) = joinTabs (xs ++ [y]) ++ [c] := by
  cases xs with
  | nil => simp [joinTabs]
  | cons x xt =>
    rw [joinTabs_append (x :: xt) [y ++ [c]] (by simp) (by simp),
      joinTabs_append (x :: xt) [y] (by simp) (by simp)]
    simp [joinTabs]

/-- The line text grows by exactly the appended characters. -/
theorem lineData_appChars (b : Builder) (l : List Char) :
    (appChars b l).lineData = b.lineData ++ l := by
  induction l generalizing b with
  | nil => simp [appChars]
  | cons c cl ih =>
    simp only [appChars]
    split
    · next hc =>
      subst hc
      rw [ih]
      have : Builder.lineData ⟨b.closed ++ [b.cur], ""⟩ = b.lineData ++ ['\t'] := by
        simp only [Builder.lineData, Builder.cells, List.map_append, List.map_cons,
          List.map_nil, List.append_assoc, List.cons_append, List.nil_append]
        rw [show List.map String.data b.closed ++ [b.cur.data, []] =
            (List.map String.data b.closed ++ [b.cur.data]) ++ [([] : List Char)] by simp,
          joinTabs_append (b.closed.map String.data ++ [b.cur.data]) [[]]
            (by simp) (by simp)]
        simp [joinTabs]
      simp [this]
    · rw [ih]
      have : Builder.lineData ⟨b.closed, ⟨b.cur.data ++ [c]⟩⟩ = b.lineData ++ [c] := by
        simp only [Builder.lineData, Builder.cells]
        have := joinTabs_extend_last (b.closed.map String.data) b.cur.data c
        simpa using this
      simp [this]

theorem lineData_app (b : Builder) (s : String) :
    (b.app s).lineData = b.lineData ++ s.data :=
  lineData_appChars b s.data

end PCGen

namespace PCGen

set_option maxRecDepth 100000 in
/-- C1: the code drops the level requirement on a render-then-parse round
trip.  Rendering `sampleFeat` (`requiredLevel = 5`) emits the
`PREVARGTEQ:TL,5` token, rendering changes nothing else about the record,
yet parsing the rendered line back yields the record with
`requiredLevel = 0` and all other modelled fields intact: `generate_ability`
stores the parsed level in its dict but never passes it to the `Ability`
constructor, so render-then-parse is not a fixed point even on a record
that carries every idempotently-synthesized `extraFields` entry (here:
none are required). -/
theorem c1_render_parse_drops_level :
    sampleFeat.level = 5 ∧
    (do
      let (r1, b) ← Ability.render sampleFeat
      let r2 ← (← Ability.generate_ability b.line)
      pure (r1, r2)) = some (sampleFeat, { sampleFeat with level := 0 }) := by
  constructor
  · rfl
  · decide

end PCGen

namespace PCGen

/-! ## Lemmas about the split primitive -/

theorem splitOnSeqGo_fuel (sep : List Char) (hsep : sep ≠ []) :
    ∀ (f1 f2 : Nat) (l : List Char), l.length ≤ f1 → l.length ≤ f2 →
      splitOnSeqGo sep f1 l = splitOnSeqGo sep f2 l := by
  have hlen : 1 ≤ sep.length := List.length_pos.mpr hsep
  intro f1
  induction f1 with
  | zero =>
    intro f2 l h1 _
    have : l = [] := List.eq_nil_of_length_eq_zero (Nat.le_zero.mp h1)
    subst this
    cases f2 <;> rfl
  | succ f1 ih =>
    intro f2 l h1 h2
    cases l with
    | nil => cases f2 <;> rfl
    | cons c cs =>
      cases f2 with
      | zero => simp at h2
      | succ f2 =>
        simp only [splitOnSeqGo]
        split
        · next hpre =>
          have hd : ((c :: cs).drop sep.length).length ≤ f1 := by
            simp only [List.length_drop, List.length_cons]
            simp only [List.length_cons] at h1
            omega
          have hd2 : ((c :: cs).drop sep.length).length ≤ f2 := by
            simp only [List.length_drop, List.length_cons]
            simp only [List.length_cons] at h2
            omega
          rw [ih _ _ hd hd2]
        · have hc : cs.length ≤ f1 := by simp only [List.length_cons] at h1; omega
          have hc2 : cs.length ≤ f2 := by simp only [List.length_cons] at h2; omega
          rw [ih _ _ hc hc2]

theorem splitOnSeq_nil (sep : List Char) (h : sep ≠ []) : splitOnSeq sep [] = [[]] := by
  cases sep with
  | nil => exact absurd rfl h
  | cons _ _ => rfl

theorem splitOnSeq_pos (sep l : List Char) (h : sep ≠ []) (hpre : sep.isPrefixOf l) :
    splitOnSeq sep l = [] :: splitOnSeq sep (l.drop sep.length) := by
  cases l with
  | nil =>
    cases sep with
    | nil => exact absurd rfl h
    | cons s ss => simp [List.isPrefixOf] at hpre
  | cons c cs =>
    simp only [splitOnSeq, if_neg h]
    have h1 : 1 ≤ sep.length := List.length_pos.mpr h
    conv_lhs => rw [show (c :: cs).length = cs.length + 1 from by simp]
    simp only [splitOnSeqGo, if_pos hpre]
    congr 1
    exact splitOnSeqGo_fuel sep h cs.length ((c :: cs).drop sep.length).length _
      (by simp only [List.length_drop, List.length_cons]; omega) (le_refl _)

theorem splitOnSeq_neg (sep : List Char) (c : Char) (cs : List Char) (h : sep ≠ [])
    (hpre : ¬ sep.isPrefixOf (c :: cs)) :
    splitOnSeq sep (c :: cs) =
      match splitOnSeq sep cs with
      | [] => [[c]]
      | r :: rs => (c :: r) :: rs := by
  simp only [splitOnSeq, if_neg h]
  conv_lhs => rw [show (c :: cs).length = cs.length + 1 from by simp]
  simp only [splitOnSeqGo, if_neg hpre]

theorem splitOnSeqGo_ne_nil (sep : List Char) :
    ∀ (fuel : Nat) (l : List Char), splitOnSeqGo sep fuel l ≠ [] := by
  intro fuel
  induction fuel with
  | zero => intro l; simp [splitOnSeqGo]
  | succ fuel ih =>
    intro l
    cases l with
    | nil => simp [splitOnSeqGo]
    | cons c cs =>
      simp only [splitOnSeqGo]
      split
      · simp
      · split <;> simp

theorem splitOnSeq_ne_nil (sep l : List Char) : splitOnSeq sep l ≠ [] := by
  by_cases h : sep = []
  · simp [splitOnSeq, h]
  · simp only [splitOnSeq, if_neg h]
    exact splitOnSeqGo_ne_nil sep l.length l

/-- A list with no occurrence of the separator is not split.  The
no-occurrence hypothesis is phrased as: no tail of `l` starts with `sep`. -/
theorem splitOnSeq_single (sep l : List Char) (h : sep ≠ [])
    (hocc : ∀ t, t <:+ l → ¬ sep.isPrefixOf t) : splitOnSeq sep l = [l] := by
  induction l with
  | nil => exact splitOnSeq_nil sep h
  | cons c cs ih =>
    have hpre : ¬ sep.isPrefixOf (c :: cs) := hocc _ (List.suffix_refl _)
    rw [splitOnSeq_neg sep c cs h hpre,
      ih (fun t ht => hocc t (ht.trans (List.suffix_cons c cs)))]

end PCGen

namespace PCGen

/-! ## Joining and splitting on a single separator character -/

theorem intercalate_go_data (s : String) : ∀ (as : List String) (a : String),
    (String.intercalate.go a s as).data = a.data ++ as.flatMap (fun y => s.data ++ y.data) := by
  intro as
  induction as with
  | nil => intro a; simp [String.intercalate.go]
  | cons b bs ih =>
    intro a
    rw [String.intercalate.go, ih]
    simp [String.data_append]

theorem data_intercalate (s : String) (parts : List String) :
    (String.intercalate s parts).data = joinSep s.data (parts.map String.data) := by
  cases parts with
  | nil => rfl
  | cons a as =>
    rw [String.intercalate, intercalate_go_data]
    simp [joinSep, List.flatMap_map]

theorem splitOnSeq_char_single (c : Char) (l : List Char) (h : c ∉ l) :
    splitOnSeq [c] l = [l] := by
  induction l with
  | nil => exact splitOnSeq_nil [c] (by simp)
  | cons d t ih =>
    have hd : ¬ ([c].isPrefixOf (d :: t)) := by
      simp only [List.isPrefixOf, Bool.and_eq_true, beq_iff_eq]
      intro hcd
      exact h (by simp [hcd.1])
    rw [splitOnSeq_neg [c] d t (by simp) hd, ih (fun hm => h (List.mem_cons_of_mem d hm))]

theorem splitOnSeq_char_append (c : Char) (a b : List Char) (h : c ∉ a) :
    splitOnSeq [c] (a ++ c :: b) = a :: splitOnSeq [c] b := by
  induction a with
  | nil =>
    rw [List.nil_append, splitOnSeq_pos [c] (c :: b) (by simp) (by simp [List.isPrefixOf])]
    simp
  | cons d a' ih =>
    have hd : ¬ ([c].isPrefixOf (d :: (a' ++ c :: b))) := by
      simp only [List.isPrefixOf, Bool.and_eq_true, beq_iff_eq]
      intro hcd
      exact h (by simp [hcd.1])
    rw [List.cons_append, splitOnSeq_neg [c] d _ (by simp) hd,
      ih (fun hm => h (List.mem_cons_of_mem d hm))]

theorem splitOnSeq_char_joinSep (c : Char) (parts : List (List Char))
    (h : ∀ p ∈ parts, c ∉ p) (hne : parts ≠ []) :
    splitOnSeq [c] (joinSep [c] parts) = parts := by
  induction parts with
  | nil => exact absurd rfl hne
  | cons x xs ih =>
    cases xs with
    | nil =>
      simp only [joinSep, List.flatMap_nil, List.append_nil]
      exact splitOnSeq_char_single c x (h x (by simp))
    | cons y ys =>
      have : joinSep [c] (x :: y :: ys) = x ++ c :: joinSep [c] (y :: ys) := by
        simp [joinSep]
      rw [this, splitOnSeq_char_append c _ _ (h x (by simp)),
        ih (fun p hp => h p (List.mem_cons_of_mem x hp)) (by simp)]

theorem joinSep_splitOnSeq_char (c : Char) (l : List Char) :
    joinSep [c] (splitOnSeq [c] l) = l := by
  induction l with
  | nil => rw [splitOnSeq_nil [c] (by simp)]; rfl
  | cons d t ih =>
    by_cases hcd : c = d
    · subst hcd
      rw [splitOnSeq_pos [c] (c :: t) (by simp) (by simp [List.isPrefixOf])]
      simp only [List.length_cons, List.length_nil, Nat.zero_add, List.drop_succ_cons,
        List.drop_zero]
      cases hs : splitOnSeq [c] t with
      | nil => exact absurd hs (splitOnSeq_ne_nil [c] t)
      | cons p ps =>
        rw [hs] at ih
        simp only [joinSep, List.flatMap_cons, List.nil_append, List.cons_append] at ih ⊢
        simp [ih]
    · have hd : ¬ ([c].isPrefixOf (d :: t)) := by
        simp only [List.isPrefixOf, Bool.and_eq_true, beq_iff_eq]
        intro hp
        exact hcd hp.1
      rw [splitOnSeq_neg [c] d t (by simp) hd]
      cases hs : splitOnSeq [c] t with
      | nil => exact absurd hs (splitOnSeq_ne_nil [c] t)
      | cons p ps =>
        rw [hs] at ih
        simp only [joinSep] at ih ⊢
        cases ps <;> simp_all

end PCGen

namespace PCGen

/-! ## Lemmas about the Python string operations -/

theorem pyStartsWith_append_self (q x : String) : pyStartsWith (q ++ x) q = true := by
  simp [pyStartsWith, String.data_append, List.isPrefixOf_iff_prefix, List.prefix_append]

/-- Two incomparable heads: `p ++ x` cannot start with `q`. -/
theorem pyStartsWith_append_ne (p q x : String)
    (h1 : q.data.isPrefixOf p.data = false) (h2 : p.data.isPrefixOf q.data = false) :
    pyStartsWith (p ++ x) q = false := by
  simp only [pyStartsWith, String.data_append]
  rw [Bool.eq_false_iff]
  intro hq
  rw [List.isPrefixOf_iff_prefix] at hq
  rcases Nat.le_total q.data.length p.data.length with hle | hle
  · have : q.data <+: p.data :=
      List.prefix_of_prefix_length_le hq (List.prefix_append _ _) hle
    rw [← List.isPrefixOf_iff_prefix] at this
    simp [this] at h1
  · have : p.data <+: q.data :=
      List.prefix_of_prefix_length_le (List.prefix_append _ _) hq hle
    rw [← List.isPrefixOf_iff_prefix] at this
    simp [this] at h2

theorem pySplit_char_append (p x : String) (c : Char) (hc : c ∉ p.data) :
    pySplit (p ++ ⟨[c]⟩ ++ x) ⟨[c]⟩ =
      p :: (splitOnSeq [c] x.data).map (fun l => ⟨l⟩) := by
  simp only [pySplit, String.data_append]
  rw [show p.data ++ [c] ++ x.data = p.data ++ c :: x.data by simp,
    splitOnSeq_char_append c p.data x.data hc]
  simp

theorem pySplit1_sep (p x : String) (c : Char) (hc : c ∉ p.data) :
    pySplit1 (p ++ ⟨[c]⟩ ++ x) ⟨[c]⟩ = [p, x] := by
  rw [pySplit1, pySplit_char_append p x c hc]
  rcases hs : (splitOnSeq [c] x.data).map (fun l => (⟨l⟩ : String)) with _ | ⟨t, ts⟩
  · exact absurd (List.map_eq_nil_iff.mp hs) (splitOnSeq_ne_nil [c] x.data)
  · have h2 : (String.intercalate ⟨[c]⟩ (t :: ts)).data = x.data := by
      rw [data_intercalate, ← hs]
      have h3 : List.map String.data
          (List.map (fun l : List Char => (⟨l⟩ : String)) (splitOnSeq [c] x.data)) =
          splitOnSeq [c] x.data := by
        simp only [List.map_map]
        rw [show (String.data ∘ fun l : List Char => (⟨l⟩ : String)) = id from rfl,
          List.map_id]
      rw [h3]
      exact joinSep_splitOnSeq_char c x.data
    have hjoin : String.intercalate ⟨[c]⟩ (t :: ts) = x :=
      congrArg (fun l : List Char => (⟨l⟩ : String)) h2
    simp [hjoin]

/-- An explicit occurrence makes `pyContains` true. -/
theorem pyContains_parts (a sub b : String) (hsub : sub ≠ "") :
    pyContains (a ++ sub ++ b) sub = true := by
  have hd : sub.data ≠ [] := by
    intro h
    exact hsub (congrArg (fun l : List Char => (⟨l⟩ : String)) h)
  simp only [pyContains, String.data_append, decide_eq_true_eq]
  have key : ∀ (l1 : List Char), 2 ≤ (splitOnSeq sub.data (l1 ++ sub.data ++ b.data)).length := by
    intro l1
    induction l1 with
    | nil =>
      rw [List.nil_append, splitOnSeq_pos sub.data _ hd
        (by rw [List.isPrefixOf_iff_prefix]; exact List.prefix_append _ _)]
      have := splitOnSeq_ne_nil sub.data ((sub.data ++ b.data).drop sub.data.length)
      simp only [List.length_cons]
      cases hs : splitOnSeq sub.data ((sub.data ++ b.data).drop sub.data.length) with
      | nil => exact absurd hs this
      | cons _ _ => simp
    | cons d l1' ih =>
      by_cases hpre : sub.data.isPrefixOf (d :: (l1' ++ sub.data ++ b.data))
      · rw [List.cons_append, List.cons_append, splitOnSeq_pos sub.data _ hd (by
          simpa [List.cons_append] using hpre)]
        have := splitOnSeq_ne_nil sub.data ((d :: (l1' ++ sub.data ++ b.data)).drop sub.data.length)
        simp only [List.length_cons]
        cases hs : splitOnSeq sub.data ((d :: (l1' ++ sub.data ++ b.data)).drop sub.data.length) with
        | nil => exact absurd hs this
        | cons _ _ => simp
      · rw [List.cons_append, List.cons_append, splitOnSeq_neg sub.data d _ hd (by
          simpa [List.cons_append] using hpre)]
        rcases hs : splitOnSeq sub.data (l1' ++ sub.data ++ b.data) with _ | ⟨r, rs⟩
        · exact absurd hs (splitOnSeq_ne_nil _ _)
        · rw [hs] at ih
          simp only [List.length_cons] at ih ⊢
          omega
  exact key a.data

end PCGen

namespace PCGen

theorem dropWhile_append_single {p : Char → Bool} (xs : List Char) (c : Char)
    (hc : ¬ p c) : (xs ++ [c]).dropWhile p = xs.dropWhile p ++ [c] := by
  induction xs with
  | nil => simp [List.dropWhile, hc]
  | cons x xt ih =>
    by_cases hx : p x
    · simp [List.dropWhile_cons, hx, ih]
    · simp [List.dropWhile_cons, hx]

/-- Stripping keeps a non-space first character. -/
theorem pyStripL_cons (c : Char) (l : List Char) (hc : ¬ pyIsSpace c) :
    ∃ t, pyStripL (c :: l) = c :: t := by
  simp only [pyStripL, List.dropWhile_cons, hc, Bool.false_eq_true, if_neg, not_false_iff]
  rw [show (c :: l).reverse = l.reverse ++ [c] by simp,
    dropWhile_append_single l.reverse c (by simp [hc])]
  exact ⟨(l.reverse.dropWhile pyIsSpace).reverse, by simp⟩

/-- A list whose first and last characters are not whitespace is unchanged
by `strip()`. -/
theorem pyStripL_eq_self (l : List Char)
    (h1 : ∀ c, l.head? = some c → ¬ pyIsSpace c)
    (h2 : ∀ c, l.getLast? = some c → ¬ pyIsSpace c) : pyStripL l = l := by
  cases l with
  | nil => rfl
  | cons c t =>
    have hc : ¬ pyIsSpace c := h1 c rfl
    simp only [pyStripL, List.dropWhile_cons, hc, Bool.false_eq_true, if_neg, not_false_iff]
    rcases hrev : (c :: t).reverse with _ | ⟨d, rest⟩
    · simp at hrev
    · have hd : (c :: t).getLast? = some d := by
        rw [← List.head?_reverse, hrev]; rfl
      have : ¬ pyIsSpace d := h2 d hd
      simp only [List.dropWhile_cons, this, Bool.false_eq_true, if_neg, not_false_iff]
      rw [← hrev]
      simp

theorem pyStrip_eq_self (s : String)
    (h1 : ∀ c, s.data.head? = some c → ¬ pyIsSpace c)
    (h2 : ∀ c, s.data.getLast? = some c → ¬ pyIsSpace c) : pyStrip s = s := by
  have := pyStripL_eq_self s.data h1 h2
  simp only [pyStrip, this]

/-- Every character of a joined list comes from the separator or a part. -/
theorem mem_joinSep (sep : List Char) (parts : List (List Char)) (c : Char)
    (h : c ∈ joinSep sep parts) : c ∈ sep ∨ ∃ p ∈ parts, c ∈ p := by
  induction parts with
  | nil => simp [joinSep] at h
  | cons x xs ih =>
    simp only [joinSep, List.mem_append, List.mem_flatMap] at h
    rcases h with h | ⟨y, hy, hcy⟩
    · exact Or.inr ⟨x, by simp, h⟩
    · rcases hcy with h | h
      · exact Or.inl h
      · exact Or.inr ⟨y, by simp [hy], h⟩

/-- `setAlign` on flags of the shape `ALIGNMENTS.map f`. -/
theorem setAlign_map (f : String → Bool) (nm : String) (v : Bool) :
    setAlign (ALIGNMENTS.map f) nm v =
      ALIGNMENTS.map (fun al => if al = nm then v else f al) := by
  simp only [setAlign]
  rw [show ALIGNMENTS.zip (ALIGNMENTS.map f) = (ALIGNMENTS.map id).zip (ALIGNMENTS.map f) by
    simp, List.zip_map']
  simp

/-- Folding `setAlign … false` over a list of names, starting from all-true
flags, clears exactly the listed alignments. -/
theorem foldl_setAlign (S : List String) (f : String → Bool) :
    S.foldl (fun fl nm => setAlign fl nm false) (ALIGNMENTS.map f) =
      ALIGNMENTS.map (fun al => if S.contains al then false else f al) := by
  induction S generalizing f with
  | nil => simp
  | cons s St ih =>
    simp only [List.foldl_cons, setAlign_map, ih]
    apply List.map_congr_left
    intro al _
    by_cases h1 : al = s <;> by_cases h2 : St.contains al <;>
      simp [h1, h2, List.contains_cons]

end PCGen

namespace PCGen

/-- Characters of alignment names are ordinary: not whitespace, tab, colon
or comma. -/
theorem alignment_chars (s : String) (hs : s ∈ ALIGNMENTS) (ch : Char) (hch : ch ∈ s.data) :
    ¬ pyIsSpace ch ∧ ch ≠ '\t' ∧ ch ≠ ':' ∧ ch ≠ ',' := by
  have H : ALIGNMENTS.all
      (fun s => s.data.all
        (fun ch => (!pyIsSpace ch) && (ch != '\t') && (ch != ':') && (ch != ','))) = true := by
    decide
  rw [List.all_eq_true] at H
  have h1 := H s hs
  rw [List.all_eq_true] at h1
  have h2 := h1 ch hch
  simp only [Bool.and_eq_true, Bool.not_eq_true', bne_iff_ne] at h2
  exact ⟨by simp [h2.1.1.1], h2.1.1.2, h2.1.2, h2.2⟩

/-- Folding the alignment-clearing updates over the dict only changes the
`align` component. -/
theorem foldl_alignUpdate (S : List String) (d : PD) :
    S.foldl (fun d sub => { d with align := setAlign d.align sub false }) d =
      { d with align := S.foldl (fun fl nm => setAlign fl nm false) d.align } := by
  induction S generalizing d with
  | nil => simp
  | cons s St ih => simp [List.foldl_cons, ih]

/-- `disallowed` of a record whose flags are `ALIGNMENTS.map f`. -/
theorem disallowed_of_map (a : Ability) (f : String → Bool)
    (h : a.prealign = ALIGNMENTS.map f) :
    a.disallowed = ALIGNMENTS.filter (fun al => ! f al) := by
  simp only [Ability.disallowed, h]
  rw [show ALIGNMENTS.zip (ALIGNMENTS.map f) = (ALIGNMENTS.map id).zip (ALIGNMENTS.map f) by
    simp, List.zip_map']
  rw [List.filter_map, List.map_map]
  rw [show ((fun p : String × Bool => p.1) ∘ fun a => (id a, f a)) = fun a => a from rfl,
    show ((fun p : String × Bool => !p.2) ∘ fun a => (id a, f a)) = fun a => !(f a) from rfl]
  exact List.map_id' _

end PCGen

namespace PCGen

/-- Every alignment name is a non-empty string. -/
theorem alignment_ne_nil (s : String) (hs : s ∈ ALIGNMENTS) : s.data ≠ [] := by
  have H : ALIGNMENTS.all (fun s => !s.data.isEmpty) = true := by decide
  rw [List.all_eq_true] at H
  have := H s hs
  simpa [List.isEmpty_iff] using this

/-- All characters of the wire list `",".join(S)` for `S ⊆ ALIGNMENTS` are
ordinary (not whitespace, tab or colon). -/
theorem intercalate_alignment_chars (S : List String) (hS : ∀ s ∈ S, s ∈ ALIGNMENTS) :
    ∀ ch ∈ (String.intercalate "," S).data, ¬ pyIsSpace ch ∧ ch ≠ '\t' ∧ ch ≠ ':' := by
  intro ch hch
  rw [data_intercalate] at hch
  rcases mem_joinSep _ _ _ hch with h | ⟨p, hp, hchp⟩
  · have : ch = ',' := by
      have : ("," : String).data = [','] := rfl
      rw [this] at h
      simpa using h
    subst this
    exact ⟨by decide, by decide, by decide⟩
  · rcases List.mem_map.mp hp with ⟨s, hsS, rfl⟩
    have := alignment_chars s (hS s hsS) ch hchp
    exact ⟨this.1, this.2.1, this.2.2.1⟩

end PCGen

namespace PCGen

/-- C5 (counterexample): parsing a line whose alignment-exclusion field
lists only `LE` produces a record in which `LE` alone is disallowed (its
is-allowed flag is the only `false` one) -- not, as the claim states, a
record with all nine alignments excluded and the listed subset cleared
back to allowed, which would leave the other eight excluded. -/
theorem c5_counterexample :
    (Ability.generate_ability "N\tCATEGORY:FEAT\t!PREALIGN:LE").map
        (Option.map Ability.disallowed) = some (some ["LE"]) ∧
      (["LE"] : List String) ≠
        ALIGNMENTS.filter (fun al => !((["LE"] : List String).contains al)) := by
  constructor
  · decide
  · decide

/-- C5 (amended): the parser treats the alignment-exclusion field's listed
subset `S` as the *excluded* alignments: after parsing, every listed
alignment's is-allowed flag is `false` and every unlisted one's is `true`,
so the record's disallowed set is exactly `S`. -/
theorem c5_parse_alignment_inversion (S : List String) (hS : ∀ s ∈ S, s ∈ ALIGNMENTS) :
    (Ability.generate_ability
        ("N\tCATEGORY:FEAT\t!PREALIGN:" ++ String.intercalate "," S)).map
      (Option.map (fun a => (a.prealign, a.disallowed))) =
    some (some (ALIGNMENTS.map (fun al => !(S.contains al)),
      ALIGNMENTS.filter (fun al => S.contains al))) := by
  rcases S with _ | ⟨s0, St⟩
  · decide
  · set S := s0 :: St with hSdef
    set J := String.intercalate "," S with hJ
    have hchars := intercalate_alignment_chars S hS
    rw [← hJ] at hchars
    have hlinedata : ("N\tCATEGORY:FEAT\t!PREALIGN:" ++ J).data =
        ['N'] ++ '\t' :: ("CATEGORY:FEAT".data ++ '\t' :: ("!PREALIGN:".data ++ J.data)) := by
      rw [String.data_append]
      rfl
    have hJtab : '\t' ∉ J.data := fun h => (hchars '\t' h).2.1 rfl
    have hsplit : pySplit ("N\tCATEGORY:FEAT\t!PREALIGN:" ++ J) "\t" =
        ["N", "CATEGORY:FEAT", ⟨"!PREALIGN:".data ++ J.data⟩] := by
      simp only [pySplit, hlinedata]
      rw [splitOnSeq_char_append '\t' ['N'] _ (by decide)]
      rw [splitOnSeq_char_append '\t' ("CATEGORY:FEAT".data) _ (by decide)]
      rw [splitOnSeq_char_single '\t' ("!PREALIGN:".data ++ J.data) (by
        intro h
        rcases List.mem_append.mp h with h | h
        · revert h
          decide
        · exact hJtab h)]
      rfl
    have htok3 : (⟨"!PREALIGN:".data ++ J.data⟩ : String) = "!PREALIGN:" ++ J :=
      (congrArg (fun l : List Char => (⟨l⟩ : String)) (String.data_append "!PREALIGN:" J)).symm
    have htokne : ("!PREALIGN:" ++ J) ≠ "" := by
      intro h
      have := congrArg String.data h
      simp [String.data_append] at this
    have hhash : pyStartsWith (pyStrip ("N\tCATEGORY:FEAT\t!PREALIGN:" ++ J)) "#" = false := by
      simp only [pyStrip, hlinedata]
      obtain ⟨t, ht⟩ := pyStripL_cons 'N'
        ('\t' :: ("CATEGORY:FEAT".data ++ '\t' :: ("!PREALIGN:".data ++ J.data))) (by decide)
      simp only [List.cons_append, List.nil_append] at ht ⊢
      rw [ht]
      simp [pyStartsWith, List.isPrefixOf]
    have hfilter : (["N", "CATEGORY:FEAT", "!PREALIGN:" ++ J].filter (fun t => t ≠ "")) =
        ["N", "CATEGORY:FEAT", "!PREALIGN:" ++ J] := by
      simp [List.filter, htokne]
    have hJne : J.data ≠ [] := by
      rw [hJ, data_intercalate]
      intro h
      simp only [List.map_cons, joinSep] at h
      exact alignment_ne_nil s0 (hS s0 (by simp [hSdef])) (List.append_eq_nil.mp h).1
    have hstrip3 : pyStrip ("!PREALIGN:" ++ J) = "!PREALIGN:" ++ J := by
      apply pyStrip_eq_self
      · intro c hc
        rw [String.data_append] at hc
        rw [show "!PREALIGN:".data = '!' :: "PREALIGN:".data from rfl] at hc
        simp only [List.cons_append, List.head?_cons, Option.some_inj] at hc
        subst hc
        decide
      · intro c hc
        rw [String.data_append, List.getLast?_append_of_ne_nil _ hJne] at hc
        exact (hchars c (List.mem_of_mem_getLast? hc)).1
    have hneg1 : pyStartsWith ("!PREALIGN:" ++ J) "CATEGORY:" = false :=
      pyStartsWith_append_ne _ _ _ (by decide) (by decide)
    have hneg2 : pyStartsWith ("!PREALIGN:" ++ J) "KEY:" = false :=
      pyStartsWith_append_ne _ _ _ (by decide) (by decide)
    have hneg3 : pyStartsWith ("!PREALIGN:" ++ J) "TYPE:" = false :=
      pyStartsWith_append_ne _ _ _ (by decide) (by decide)
    have hpos : pyStartsWith ("!PREALIGN:" ++ J) "!PREALIGN:" = true :=
      pyStartsWith_append_self _ _
    have hps1 : pySplit1 ("!PREALIGN:" ++ J) ":" = ["!PREALIGN", J] := by
      rw [show ("!PREALIGN:" ++ J) = "!PREALIGN" ++ ⟨[':']⟩ ++ J from rfl,
        show (":" : String) = ⟨[':']⟩ from rfl]
      exact pySplit1_sep "!PREALIGN" J ':' (by decide)
    have hsplitJ : pySplit J "," = s0 :: St := by
      rw [pySplit, show ("," : String).data = [','] from rfl, hJ, data_intercalate,
        show ("," : String).data = [','] from rfl,
        splitOnSeq_char_joinSep ',' ((s0 :: St).map String.data) (by
          intro p hp
          rcases List.mem_map.mp hp with ⟨t, htS, rfl⟩
          intro hc
          exact (alignment_chars t (hS t (by simpa [hSdef] using htS)) ',' hc).2.2.2 rfl)
        (by simp)]
      rw [List.map_map, show ((fun l => (⟨l⟩ : String)) ∘ String.data) = id from rfl,
        List.map_id]
    have hmapeq : ALIGNMENTS.map (fun al => if (s0 :: St).contains al then false else true) =
        ALIGNMENTS.map (fun al => !((s0 :: St).contains al)) :=
      List.map_congr_left (fun al _ => by cases h : (s0 :: St).contains al <;> simp [h])
    have hPT2 : processToken { PD.start "N" with type := "Feat" } ("!PREALIGN:" ++ J) =
        some { PD.start "N" with
                 type := "Feat",
                 align := ALIGNMENTS.map (fun al => !((s0 :: St).contains al)) } := by
      simp only [processToken, hstrip3, hneg1, hneg2, hneg3, hpos, hps1, hsplitJ,
        Bool.false_eq_true, if_false, if_true, Option.bind_eq_bind]
      simp only [List.get?, Option.some_bind, Option.bind_some]
      rw [foldl_alignUpdate]
      simp only [show (List.replicate 9 true) = ALIGNMENTS.map (fun _ => true) from rfl]
      simp only [foldl_setAlign]
      simp only [hsplitJ, hmapeq]
      rfl
    have hPT1 : processToken (PD.start "N") "CATEGORY:FEAT" =
        some { PD.start "N" with type := "Feat" } := rfl
    simp only [Ability.generate_ability, hhash, Bool.false_eq_true, if_false, hsplit, htok3,
      hfilter, List.foldlM, hPT1, Option.some_bind, hPT2, Option.bind_eq_bind]
    have hpb : ∀ (x : PD) (f : PD → Option (Option Ability)), Option.bind (pure x) f = f x :=
      fun _ _ => rfl
    rw [hpb]
    split
    · have hmp : ∀ (x : Ability),
          Option.map (Option.map (fun a : Ability => (a.prealign, a.disallowed)))
            (pure (some x) : Option (Option Ability)) =
          some (some (x.prealign, x.disallowed)) := fun _ => rfl
      rw [hmp]
      simp only [Option.some_inj, Prod.mk.injEq]
      constructor
      · trivial
      · rw [disallowed_of_map _ (fun al => !((s0 :: St).contains al)) rfl]
        apply List.filter_congr
        intro al _
        simp [hSdef, Bool.not_not]
    · next h => simp at h

/-- Witness for `c5_parse_alignment_inversion` at `S = ["LE", "NE", "CE"]`. -/
theorem c5_parse_alignment_inversion_witness :
    (∀ s ∈ (["LE", "NE", "CE"] : List String), s ∈ ALIGNMENTS) ∧
    (Ability.generate_ability
        ("N\tCATEGORY:FEAT\t!PREALIGN:" ++ String.intercalate "," ["LE", "NE", "CE"])).map
      (Option.map (fun a => (a.prealign, a.disallowed))) =
    some (some (ALIGNMENTS.map (fun al => !((["LE", "NE", "CE"] : List String).contains al)),
      ALIGNMENTS.filter (fun al => (["LE", "NE", "CE"] : List String).contains al))) :=
  ⟨by decide, c5_parse_alignment_inversion ["LE", "NE", "CE"] (by decide)⟩

end PCGen

namespace PCGen

/-! ## Frame lemmas: what each diff-render segment can change -/

theorem modStatSynth_frame (base m : Ability) (st : String) :
    modStatSynth base m st = { m with other_fields := (modStatSynth base m st).other_fields } := by
  simp only [modStatSynth]
  split <;> simp

theorem mseg1_frame (base m : Ability) :
    (mseg1 base m).base = base ∧ (mseg1 base m).m = m := by
  simp [mseg1]

theorem mseg2_frame (s : MS) (s' : MS) (h : mseg2 s = some s') :
    s'.base = s.base ∧ s'.m = s.m := by
  rcases hc : clearSubtypes2 s.base s.m with _ | c
  · simp [mseg2, hc] at h
  · rcases ht : modTypeToken s.base s.m with _ | ts
    · simp only [mseg2, hc, Option.bind_eq_bind, Option.some_bind, ht] at h
      split at h <;> split at h <;> simp at h <;> simp [← h]
    · simp only [mseg2, hc, Option.bind_eq_bind, Option.some_bind, ht] at h
      split at h <;> split at h <;> simp at h <;> simp [← h]

theorem mseg3_frame (s : MS) : (mseg3 s).base = s.base ∧ (mseg3 s).m = s.m := by
  simp only [mseg3]
  split <;> simp

theorem mseg4_frame (s : MS) :
    (mseg4 s).base = s.base ∧
      (mseg4 s).m = { s.m with other_fields := (mseg4 s).m.other_fields } := by
  simp only [mseg4]
  split
  · constructor
    · simp
    · simp only
      rw [modStatSynth_frame s.base (modStatSynth s.base (modStatSynth s.base s.m "str") "dex") "int",
        modStatSynth_frame s.base (modStatSynth s.base s.m "str") "dex",
        modStatSynth_frame s.base s.m "str"]
  · split <;> simp

theorem mseg5_frame (s : MS) : (mseg5 s).base = s.base ∧ (mseg5 s).m = s.m := by
  simp [mseg5]

theorem mseg6_frame (s : MS) :
    (mseg6 s).base = s.base ∧
      (mseg6 s).m = { s.m with other_fields := (mseg6 s).m.other_fields } := by
  simp only [mseg6]
  split
  · split <;> simp
  · simp

theorem mseg7_frame (s : MS) (s' : MS) (h : mseg7 s = some s') :
    s'.base = s.base ∧ s'.m = { s.m with other_fields := s'.m.other_fields } := by
  have hsb : ∀ {α β : Type} (x : α) (f : α → Option β), (some x : Option α) >>= f = f x :=
    fun _ _ => rfl
  have hpb : ∀ {α β : Type} (x : α) (f : α → Option β), (pure x : Option α) >>= f = f x :=
    fun _ _ => rfl
  simp only [mseg7] at h
  by_cases htr : s.m.ability_type = "Trait"
  · rw [if_pos htr] at h
    by_cases hcl : clearPrereq s.base s.m = true
    · rw [if_pos hcl, hpb, if_pos rfl] at h
      by_cases hpres : (s.m.other_fields.any fun f =>
          decide (0 < pyCount f "PREMULT:1,[" ∧
            0 < pyCount f "PREVAREQ:BypassTraitRestriction,1")) = true
      · rw [if_neg (not_not_intro hpres)] at h
        cases h
        exact ⟨rfl, rfl⟩
      · rw [if_pos hpres] at h
        rcases hms : s.m.ability_subtypes with _ | ⟨mh, mts⟩
        · rw [show s.m.ability_subtypes.head? = none by rw [hms]; rfl] at h
          simp at h
        · rw [show s.m.ability_subtypes.head? = some mh by rw [hms]; rfl, hsb] at h
          cases h
          exact ⟨rfl, rfl⟩
    · rw [if_neg hcl] at h
      rcases hms : s.m.ability_subtypes with _ | ⟨mh, mts⟩
      · rw [show s.m.ability_subtypes.head? = none by rw [hms]; rfl] at h
        simp at h
      · rw [show s.m.ability_subtypes.head? = some mh by rw [hms]; rfl, hsb] at h
        rcases hbs : s.base.ability_subtypes with _ | ⟨bh, bts⟩
        · rw [show s.base.ability_subtypes.head? = none by rw [hbs]; rfl] at h
          simp at h
        · rw [show s.base.ability_subtypes.head? = some bh by rw [hbs]; rfl, hsb, hpb] at h
          by_cases hne : mh = bh
          · rw [if_neg (by simp [hne])] at h
            cases h
            exact ⟨rfl, rfl⟩
          · rw [if_pos (by simp [hne])] at h
            by_cases hpres : (s.m.other_fields.any fun f =>
                decide (0 < pyCount f "PREMULT:1,[" ∧
                  0 < pyCount f "PREVAREQ:BypassTraitRestriction,1")) = true
            · rw [if_neg (not_not_intro hpres)] at h
              cases h
              exact ⟨rfl, rfl⟩
            · rw [if_pos hpres] at h
              rw [hsb] at h
              cases h
              exact ⟨rfl, rfl⟩
  · rw [if_neg htr] at h
    cases h
    exact ⟨rfl, rfl⟩

theorem mseg8_frame (s : MS) : (mseg8 s).base = s.base ∧ (mseg8 s).m = s.m := by
  simp only [mseg8]; split <;> simp

theorem mseg9_frame (s : MS) : (mseg9 s).base = s.base ∧ (mseg9 s).m = s.m := by
  simp only [mseg9]; split <;> simp

theorem mseg10_frame (s : MS) : (mseg10 s).base = s.base ∧ (mseg10 s).m = s.m := by
  simp [mseg10]

theorem mseg11_frame (s : MS) : (mseg11 s).base = s.base ∧ (mseg11 s).m = s.m := by
  simp only [mseg11]; split <;> simp

theorem mseg12_frame (s : MS) :
    (mseg12 s).base = s.base ∧
      (mseg12 s).m = { s.m with other_fields := (mseg12 s).m.other_fields } := by
  simp only [mseg12]
  split
  · split <;> simp
  · split <;> simp

theorem mseg13_frame (s : MS) : (mseg13 s).base = s.base ∧ (mseg13 s).m = s.m := by
  simp only [mseg13]
  split
  · simp
  · split <;> simp

theorem mseg14_frame (s : MS) : (mseg14 s).base = s.base ∧ (mseg14 s).m = s.m := by
  simp only [mseg14]; split <;> simp

theorem mseg15_frame (s : MS) : (mseg15 s).base = s.base ∧ (mseg15 s).m = s.m := by
  simp [mseg15]

end PCGen

namespace PCGen

/-- Transitivity of "equal except possibly in `other_fields`". -/
theorem withOF_trans (x y z : Ability) (h1 : y = { x with other_fields := y.other_fields })
    (h2 : z = { y with other_fields := z.other_fields }) :
    z = { x with other_fields := z.other_fields } := by
  rw [h2, h1]

/-- C9: rendering a patch never changes the base record, and changes the
edited record at most in its `other_fields` list (the synthesized entries):
whenever `Mod.__str__` returns, the base comes back untouched and the edited
record agrees with its original value on every field except `other_fields`. -/
theorem c9_diff_no_base_mutation (base m : Ability) (b' m' : Ability) (bld : Builder)
    (h : Mod.str base m = some (b', m', bld)) :
    b' = base ∧ m' = { m with other_fields := m'.other_fields } := by
  have hsb : ∀ {α β : Type} (x : α) (f : α → Option β), (some x : Option α) >>= f = f x :=
    fun _ _ => rfl
  simp only [Mod.str] at h
  rcases h2 : mseg2 (mseg1 base m) with _ | s1
  · rw [h2] at h
    simp at h
  rw [h2, hsb] at h
  rcases h7 : mseg7 (mseg6 (mseg5 (mseg4 (mseg3 s1)))) with _ | s3
  · rw [h7] at h
    simp at h
  rw [h7, hsb] at h
  simp only [Option.pure_def, Option.some_inj, Prod.mk.injEq] at h
  obtain ⟨hb, hm, hbl⟩ := h
  obtain ⟨h2b, h2m⟩ := mseg2_frame _ _ h2
  obtain ⟨h1b, h1m⟩ := mseg1_frame base m
  obtain ⟨h3b, h3m⟩ := mseg3_frame s1
  obtain ⟨h4b, h4m⟩ := mseg4_frame (mseg3 s1)
  obtain ⟨h5b, h5m⟩ := mseg5_frame (mseg4 (mseg3 s1))
  obtain ⟨h6b, h6m⟩ := mseg6_frame (mseg5 (mseg4 (mseg3 s1)))
  obtain ⟨h7b, h7m⟩ := mseg7_frame _ _ h7
  obtain ⟨h8b, h8m⟩ := mseg8_frame s3
  obtain ⟨h9b, h9m⟩ := mseg9_frame (mseg8 s3)
  obtain ⟨h10b, h10m⟩ := mseg10_frame (mseg9 (mseg8 s3))
  obtain ⟨h11b, h11m⟩ := mseg11_frame (mseg10 (mseg9 (mseg8 s3)))
  obtain ⟨h12b, h12m⟩ := mseg12_frame (mseg11 (mseg10 (mseg9 (mseg8 s3))))
  obtain ⟨h13b, h13m⟩ := mseg13_frame (mseg12 (mseg11 (mseg10 (mseg9 (mseg8 s3)))))
  obtain ⟨h14b, h14m⟩ := mseg14_frame (mseg13 (mseg12 (mseg11 (mseg10 (mseg9 (mseg8 s3))))))
  obtain ⟨h15b, h15m⟩ :=
    mseg15_frame (mseg14 (mseg13 (mseg12 (mseg11 (mseg10 (mseg9 (mseg8 s3)))))))
  constructor
  · rw [← hb, h15b, h14b, h13b, h12b, h11b, h10b, h9b, h8b, h7b, h6b, h5b, h4b, h3b, h2b, h1b]
  · have hchain1 : (mseg6 (mseg5 (mseg4 (mseg3 s1)))).m =
        { s1.m with
          other_fields := (mseg6 (mseg5 (mseg4 (mseg3 s1)))).m.other_fields } := by
      have h4m' : (mseg4 (mseg3 s1)).m =
          { s1.m with other_fields := (mseg4 (mseg3 s1)).m.other_fields } := by
        rw [h4m, h3m]
      rw [h5m] at h6m
      exact withOF_trans _ _ _ h4m' h6m
    have hchain2 : s3.m = { s1.m with other_fields := s3.m.other_fields } :=
      withOF_trans _ _ _ hchain1 h7m
    have hchain3 :
        (mseg15 (mseg14 (mseg13 (mseg12 (mseg11 (mseg10 (mseg9 (mseg8 s3)))))))).m =
        { s3.m with other_fields :=
          (mseg15 (mseg14 (mseg13 (mseg12 (mseg11 (mseg10 (mseg9 (mseg8 s3)))))))).m.other_fields } := by
      rw [h15m, h14m, h13m, h12m, h11m, h10m, h9m, h8m]
    have hfinal := withOF_trans _ _ _ hchain2 hchain3
    rw [h2m, h1m] at hfinal
    rw [← hm]
    exact hfinal

set_option maxRecDepth 100000 in
/-- C9 witness: the theorem applied to the concrete pair
`sampleFeat`/`sampleEdited`. -/
theorem c9_diff_no_base_mutation_witness :
    sampleModOut.1 = sampleFeat ∧
      sampleModOut.2.1 = { sampleEdited with other_fields := sampleModOut.2.1.other_fields } :=
  c9_diff_no_base_mutation sampleFeat sampleEdited sampleModOut.1 sampleModOut.2.1
    sampleModOut.2.2 (by decide)

end PCGen

namespace PCGen

theorem withOF_proj (x y : Ability) (h : y = { x with other_fields := y.other_fields }) :
    y.ability_type = x.ability_type ∧ y.ability_subtypes = x.ability_subtypes := by
  constructor <;> rw [h]

theorem seg1_a (a : Ability) : (seg1 a).a = a := by
  simp only [seg1]
  repeat' split
  all_goals rfl

theorem seg2_some (s : RS) (h : s.a.ability_type = "Trait" → s.a.ability_subtypes ≠ []) :
    ∃ s', seg2 s = some s' ∧ s'.a = s.a := by
  have hsb : ∀ {α β : Type} (x : α) (f : α → Option β), (some x : Option α) >>= f = f x :=
    fun _ _ => rfl
  by_cases hf : s.a.ability_type = "Feat"
  · simp only [seg2]
    rw [if_pos hf]
    exact ⟨_, rfl, rfl⟩
  · by_cases ht : s.a.ability_type = "Trait"
    · rcases hl : s.a.ability_subtypes with _ | ⟨st0, rest⟩
      · exact absurd hl (h ht)
      simp only [seg2]
      rw [if_neg hf, if_pos ht]
      rw [show s.a.ability_subtypes.head? = some st0 by rw [hl]; rfl, hsb]
      exact ⟨_, rfl, rfl⟩
    · simp only [seg2]
      rw [if_neg hf, if_neg ht]
      exact ⟨_, rfl, rfl⟩

theorem seg2_none (s : RS) (ht : s.a.ability_type = "Trait")
    (hsub : s.a.ability_subtypes = []) : seg2 s = none := by
  simp only [seg2]
  rw [if_neg (by rw [ht]; decide), if_pos ht]
  rw [show s.a.ability_subtypes.head? = none by rw [hsub]; rfl]
  rfl

theorem seg3_frame (s : RS) :
    (seg3 s).a = { s.a with other_fields := (seg3 s).a.other_fields } := by
  simp only [seg3]
  repeat' split
  all_goals rfl

theorem seg4_a (s : RS) : (seg4 s).a = s.a := by
  simp only [seg4]
  repeat' split
  all_goals rfl

theorem seg5_frame (s : RS) :
    (seg5 s).a = { s.a with other_fields := (seg5 s).a.other_fields } := by
  simp only [seg5]
  repeat' split
  all_goals rfl

theorem seg6_some (s : RS) (h : s.a.ability_type = "Trait" → s.a.ability_subtypes ≠ []) :
    ∃ s', seg6 s = some s' ∧ s'.a = { s.a with other_fields := s'.a.other_fields } := by
  have hsb : ∀ {α β : Type} (x : α) (f : α → Option β), (some x : Option α) >>= f = f x :=
    fun _ _ => rfl
  by_cases ht : s.a.ability_type = "Trait"
  · simp only [seg6]
    rw [if_pos ht]
    by_cases hp : (s.a.other_fields.any
      (fun f => decide (0 < pyCount f "PREMULT:1,[" ∧
        0 < pyCount f "PREVAREQ:BypassTraitRestriction,1"))) = true
    · rw [if_neg (fun hc => hc hp)]
      exact ⟨s, rfl, rfl⟩
    · rw [if_pos hp]
      rcases hl : s.a.ability_subtypes with _ | ⟨st0, rest⟩
      · exact absurd hl (h ht)
      exact ⟨_, rfl, rfl⟩
  · simp only [seg6]
    rw [if_neg ht]
    exact ⟨s, rfl, rfl⟩

theorem seg7_a (s : RS) : (seg7 s).a = s.a := by
  simp only [seg7]
  repeat' split
  all_goals rfl

theorem seg8_a (s : RS) : (seg8 s).a = s.a := by
  simp only [seg8]
  repeat' split
  all_goals rfl

theorem seg9_a (s : RS) : (seg9 s).a = s.a := by
  simp only [seg9]
  repeat' split
  all_goals rfl

theorem seg10_frame (s : RS) :
    (seg10 s).a = { s.a with other_fields := (seg10 s).a.other_fields } := by
  simp only [seg10]
  repeat' split
  all_goals rfl

theorem seg11_a (s : RS) : (seg11 s).a = s.a := rfl

theorem seg12_frame (s : RS) :
    (seg12 s).a = { s.a with other_fields := (seg12 s).a.other_fields } := by
  simp only [seg12]
  repeat' split
  all_goals rfl

theorem seg13_a (s : RS) : (seg13 s).a = s.a := rfl

theorem seg14_a (s : RS) : (seg14 s).a = s.a := rfl

theorem renderTail_frame (s : RS) :
    (seg14 (seg13 (seg12 (seg11 (seg10 (seg9 (seg8 (seg7 s)))))))).a =
      { s.a with other_fields :=
        (seg14 (seg13 (seg12 (seg11 (seg10 (seg9 (seg8 (seg7 s)))))))).a.other_fields } := by
  rw [seg14_a, seg13_a]
  have h10 : (seg10 (seg9 (seg8 (seg7 s)))).a =
      { s.a with other_fields := (seg10 (seg9 (seg8 (seg7 s)))).a.other_fields } := by
    rw [seg10_frame, seg9_a, seg8_a, seg7_a]
  have h12 : (seg12 (seg11 (seg10 (seg9 (seg8 (seg7 s)))))).a =
      { (seg10 (seg9 (seg8 (seg7 s)))).a with other_fields :=
        (seg12 (seg11 (seg10 (seg9 (seg8 (seg7 s)))))).a.other_fields } := by
    rw [seg12_frame, seg11_a]
  exact withOF_trans _ _ _ h10 h12

theorem render_some (a : Ability) (h : a.ability_type = "Trait" → a.ability_subtypes ≠ []) :
    ∃ r b, Ability.render a = some (r, b) ∧
      r = { a with other_fields := r.other_fields } := by
  have hsb : ∀ {α β : Type} (x : α) (f : α → Option β), (some x : Option α) >>= f = f x :=
    fun _ _ => rfl
  obtain ⟨s1, hs1, hs1a⟩ := seg2_some (seg1 a) (by rw [seg1_a]; exact h)
  rw [seg1_a] at hs1a
  have h5 : (seg5 (seg4 (seg3 s1))).a =
      { a with other_fields := (seg5 (seg4 (seg3 s1))).a.other_fields } := by
    have h3 := seg3_frame s1
    have h4 := seg4_a (seg3 s1)
    have h5' := seg5_frame (seg4 (seg3 s1))
    rw [h4, h3, hs1a] at h5'
    exact h5'
  obtain ⟨hty5, hsub5⟩ := withOF_proj _ _ h5
  obtain ⟨s2, hs2, hs2a⟩ := seg6_some (seg5 (seg4 (seg3 s1)))
    (by rw [hty5, hsub5]; exact h)
  simp only [Ability.render]
  rw [hs1, hsb, hs2, hsb]
  refine ⟨_, _, rfl, ?_⟩
  have hc1 := withOF_trans _ _ _ h5 hs2a
  exact withOF_trans _ _ _ hc1 (renderTail_frame s2)

theorem render_none_trait (a : Ability) (ht : a.ability_type = "Trait")
    (hsub : a.ability_subtypes = []) : Ability.render a = none := by
  simp only [Ability.render]
  rw [seg2_none (seg1 a) (by rw [seg1_a]; exact ht) (by rw [seg1_a]; exact hsub)]
  rfl

end PCGen

namespace PCGen

theorem clearSubtypes2_some (base m : Ability)
    (hb : base.ability_type = "Trait" → base.ability_subtypes ≠ []) :
    ∃ c, clearSubtypes2 base m = some c := by
  by_cases h1 : clearSubtypes1 base m = true
  · exact ⟨_, by simp only [clearSubtypes2]; rw [if_pos h1]; rfl⟩
  · by_cases h2 : base.ability_type = "Trait" ∧ m.race ≠ base.race
    · rcases hl : base.ability_subtypes with _ | ⟨st0, rest⟩
      · exact absurd hl (hb h2.1)
      simp only [clearSubtypes2]
      rw [if_neg h1, if_pos h2,
        show base.ability_subtypes.head? = some st0 by rw [hl]; rfl]
      exact ⟨_, rfl⟩
    · exact ⟨_, by simp only [clearSubtypes2]; rw [if_neg h1, if_neg h2]; rfl⟩

theorem modTypeToken_some (base m : Ability)
    (hm : base.ability_type = "Trait" → m.ability_subtypes ≠ []) :
    ∃ t, modTypeToken base m = some t := by
  by_cases hf : base.ability_type = "Feat"
  · exact ⟨_, by simp only [modTypeToken]; rw [if_pos hf]; rfl⟩
  · by_cases ht : base.ability_type = "Trait"
    · rcases hl : m.ability_subtypes with _ | ⟨st0, rest⟩
      · exact absurd hl (hm ht)
      simp only [modTypeToken]
      rw [if_neg hf, if_pos ht,
        show m.ability_subtypes.head? = some st0 by rw [hl]; rfl]
      exact ⟨_, rfl⟩
    · exact ⟨_, by simp only [modTypeToken]; rw [if_neg hf, if_neg ht]; rfl⟩

theorem mseg2_some (s : MS)
    (hb : s.base.ability_type = "Trait" → s.base.ability_subtypes ≠ [])
    (hm : s.base.ability_type = "Trait" → s.m.ability_subtypes ≠ []) :
    ∃ s', mseg2 s = some s' := by
  obtain ⟨c, hc⟩ := clearSubtypes2_some s.base s.m hb
  obtain ⟨ts, hts⟩ := modTypeToken_some s.base s.m hm
  by_cases hadd : addedSubtypes s.base s.m = [] <;>
    cases c <;>
      · simp only [mseg2, hc, hts, hadd, Option.some_bind, ne_eq, not_true_eq_false,
          not_false_eq_true, Bool.false_eq_true, false_or, true_or,
          or_false, or_true, if_true, if_false, ite_true, ite_false]
        exact ⟨_, rfl⟩

theorem mseg7_some (s : MS)
    (h : s.m.ability_type = "Trait" →
      (s.m.ability_subtypes ≠ [] ∧ s.base.ability_subtypes ≠ [])) :
    ∃ s', mseg7 s = some s' := by
  by_cases ht : s.m.ability_type = "Trait"
  · obtain ⟨hmne, hbne⟩ := h ht
    rcases hlm : s.m.ability_subtypes with _ | ⟨mh, mrest⟩
    · exact absurd hlm hmne
    rcases hlb : s.base.ability_subtypes with _ | ⟨bh, brest⟩
    · exact absurd hlb hbne
    by_cases hcl : clearPrereq s.base s.m = true
    · by_cases hp : (s.m.other_fields.any
          (fun f => decide (0 < pyCount f "PREMULT:1,[" ∧
            0 < pyCount f "PREVAREQ:BypassTraitRestriction,1"))) = true
      all_goals
        simp only [mseg7, ht, hcl, hp, hlm, hlb, if_true, if_false, ite_true, ite_false,
          List.head?_cons, Option.some_bind, Bool.false_eq_true, not_true_eq_false,
          not_false_eq_true, if_pos, reduceIte]
      all_goals try exact ⟨_, rfl⟩
    · by_cases hne : mh = bh
      · simp only [mseg7, ht, hcl, hlm, hlb, List.head?_cons, Option.some_bind,
          ite_true, ite_false, reduceIte, hne, decide_not, Bool.false_eq_true]
        try simp [hcl]
        try exact ⟨_, rfl⟩
      · by_cases hp : (s.m.other_fields.any
            (fun f => decide (0 < pyCount f "PREMULT:1,[" ∧
              0 < pyCount f "PREVAREQ:BypassTraitRestriction,1"))) = true
        all_goals
          simp only [mseg7, ht, hcl, hp, hlm, hlb, List.head?_cons, Option.some_bind,
            ite_true, ite_false, reduceIte, Bool.false_eq_true, not_true_eq_false,
            not_false_eq_true]
        all_goals try simp [hcl, hne, hp]
        all_goals try exact ⟨_, rfl⟩
  · simp only [mseg7, ht, ite_false, reduceIte]
    try simp [ht]
    try exact ⟨_, rfl⟩

theorem modStr_some (base m : Ability)
    (hb : base.ability_type = "Trait" → base.ability_subtypes ≠ [])
    (hm : base.ability_type = "Trait" → m.ability_subtypes ≠ [])
    (hm2 : m.ability_type = "Trait" → (m.ability_subtypes ≠ [] ∧ base.ability_subtypes ≠ [])) :
    ∃ p, Mod.str base m = some p := by
  have hsb : ∀ {α β : Type} (x : α) (f : α → Option β), (some x : Option α) >>= f = f x :=
    fun _ _ => rfl
  obtain ⟨h1b, h1m⟩ := mseg1_frame base m
  obtain ⟨s1, hs1⟩ := mseg2_some (mseg1 base m)
    (by rw [h1b]; exact hb) (by rw [h1b, h1m]; exact hm)
  obtain ⟨h2b, h2m⟩ := mseg2_frame _ _ hs1
  rw [h1b] at h2b
  rw [h1m] at h2m
  have hx6b : (mseg6 (mseg5 (mseg4 (mseg3 s1)))).base = base := by
    rw [(mseg6_frame _).1, (mseg5_frame _).1, (mseg4_frame _).1, (mseg3_frame _).1, h2b]
  have hx6m : (mseg6 (mseg5 (mseg4 (mseg3 s1)))).m =
      { m with other_fields := (mseg6 (mseg5 (mseg4 (mseg3 s1)))).m.other_fields } := by
    have h4 := (mseg4_frame (mseg3 s1)).2
    rw [(mseg3_frame s1).2, h2m] at h4
    have h6 := (mseg6_frame (mseg5 (mseg4 (mseg3 s1)))).2
    rw [(mseg5_frame _).2] at h6
    exact withOF_trans _ _ _ h4 h6
  obtain ⟨hty6, hsub6⟩ := withOF_proj _ _ hx6m
  obtain ⟨s3, hs3⟩ := mseg7_some (mseg6 (mseg5 (mseg4 (mseg3 s1))))
    (by rw [hty6, hsub6, hx6b]; exact hm2)
  simp only [Mod.str]
  rw [hs1, hsb, hs3, hsb]
  exact ⟨_, rfl⟩

end PCGen

namespace PCGen

/-- C10: trait subtype safety. -/
theorem c10_trait_subtype_safety (r base : Ability) (hr : r.ability_type = "Trait") :
    (r.ability_subtypes ≠ [] → (Ability.render r).isSome = true) ∧
    (r.ability_subtypes = [] → Ability.render r = none) ∧
    (base.ability_type = "Trait" → base.ability_subtypes ≠ [] → r.ability_subtypes ≠ [] →
      (Mod.str base r).isSome = true) := by
  refine ⟨?_, ?_, ?_⟩
  · intro hne
    obtain ⟨r1, b1, hrb, _⟩ := render_some r (fun _ => hne)
    rw [hrb]
    rfl
  · intro hnil
    exact render_none_trait r hr hnil
  · intro hbt hbne hrne
    obtain ⟨p, hp⟩ := modStr_some base r (fun _ => hbne) (fun _ => hrne)
      (fun _ => ⟨hrne, hbne⟩)
    rw [hp]
    rfl

set_option maxRecDepth 100000 in
/-- C10 witness. -/
theorem c10_trait_subtype_safety_witness :
    (Ability.render sampleTrait).isSome = true ∧
    Ability.render sampleTraitEmpty = none ∧
    (Mod.str sampleTrait sampleTrait).isSome = true :=
  ⟨(c10_trait_subtype_safety sampleTrait sampleTrait rfl).1 (by decide),
   (c10_trait_subtype_safety sampleTraitEmpty sampleTrait rfl).2.1 rfl,
   (c10_trait_subtype_safety sampleTrait sampleTrait rfl).2.2 rfl (by decide) (by decide)⟩

end PCGen

namespace PCGen

theorem app_ext_trans {b0 b1 b2 : Builder} (h1 : ∃ t, b1 = b0.app t)
    (h2 : ∃ t, b2 = b1.app t) : ∃ t, b2 = b0.app t := by
  obtain ⟨t1, e1⟩ := h1
  obtain ⟨t2, e2⟩ := h2
  exact ⟨t1 ++ t2, by rw [e2, e1, Builder.app_append]⟩

theorem foldl_strip_ext (l : List String) (b : Builder) :
    ∃ t, l.foldl (fun b f => if pyStrip f ≠ "" then b.app ("\t\t" ++ pyStrip f) else b) b
      = b.app t := by
  induction l generalizing b with
  | nil => exact ⟨"", rfl⟩
  | cons f fs ih =>
    simp only [List.foldl_cons]
    by_cases hf : pyStrip f ≠ ""
    · rw [if_pos hf]
      obtain ⟨t, ht⟩ := ih (b.app ("\t\t" ++ pyStrip f))
      exact ⟨("\t\t" ++ pyStrip f) ++ t, by rw [ht]; exact (Builder.app_append _ _ _).symm⟩
    · rw [if_neg hf]
      exact ih b

theorem mseg1_b (base m : Ability) :
    (mseg1 base m).b = (Builder.empty.app (modHeader m)).app
      (tabStr ((calculate_tabs_raw (modHeader m) 11).1 + 1)) := rfl

set_option maxHeartbeats 1000000 in
theorem mseg3_b (s : MS) : ∃ t, (mseg3 s).b = s.b.app t := by
  simp only [mseg3]
  repeat' split
  all_goals first
    | exact ⟨_, rfl⟩
    | exact ⟨_, (Builder.app_append _ _ _).symm⟩
    | exact ⟨"", rfl⟩

set_option maxHeartbeats 1000000 in
theorem mseg4_b (s : MS) : ∃ t, (mseg4 s).b = s.b.app t := by
  simp only [mseg4]
  repeat' split
  all_goals first
    | exact ⟨_, rfl⟩
    | exact ⟨_, (Builder.app_append _ _ _).symm⟩
    | exact ⟨"", rfl⟩

set_option maxHeartbeats 1000000 in
theorem mseg5_b (s : MS) : ∃ t, (mseg5 s).b = s.b.app t := by
  simp only [mseg5]
  repeat' split
  all_goals first
    | exact ⟨_, rfl⟩
    | exact ⟨_, (Builder.app_append _ _ _).symm⟩
    | exact ⟨"", rfl⟩

set_option maxHeartbeats 1000000 in
theorem mseg6_b (s : MS) : ∃ t, (mseg6 s).b = s.b.app t := by
  simp only [mseg6]
  repeat' split
  all_goals first
    | exact ⟨_, rfl⟩
    | exact ⟨_, (Builder.app_append _ _ _).symm⟩
    | exact ⟨"", rfl⟩

set_option maxHeartbeats 1000000 in
theorem mseg8_b (s : MS) : ∃ t, (mseg8 s).b = s.b.app t := by
  simp only [mseg8]
  repeat' split
  all_goals first
    | exact ⟨_, rfl⟩
    | exact ⟨_, (Builder.app_append _ _ _).symm⟩
    | exact ⟨"", rfl⟩

set_option maxHeartbeats 1000000 in
theorem mseg9_b (s : MS) : ∃ t, (mseg9 s).b = s.b.app t := by
  simp only [mseg9]
  repeat' split
  all_goals first
    | exact ⟨_, rfl⟩
    | exact ⟨_, (Builder.app_append _ _ _).symm⟩
    | exact ⟨"", rfl⟩

set_option maxHeartbeats 1000000 in
theorem mseg10_b (s : MS) : ∃ t, (mseg10 s).b = s.b.app t := by
  simp only [mseg10]
  repeat' split
  all_goals first
    | exact ⟨_, rfl⟩
    | exact ⟨_, (Builder.app_append _ _ _).symm⟩
    | exact ⟨"", rfl⟩

set_option maxHeartbeats 1000000 in
theorem mseg11_b (s : MS) : ∃ t, (mseg11 s).b = s.b.app t := by
  simp only [mseg11]
  repeat' split
  all_goals first
    | exact ⟨_, rfl⟩
    | exact ⟨_, (Builder.app_append _ _ _).symm⟩
    | exact ⟨"", rfl⟩

set_option maxHeartbeats 1000000 in
theorem mseg12_b (s : MS) : ∃ t, (mseg12 s).b = s.b.app t := by
  simp only [mseg12]
  repeat' split
  all_goals first
    | exact ⟨_, rfl⟩
    | exact ⟨_, (Builder.app_append _ _ _).symm⟩
    | exact ⟨"", rfl⟩

set_option maxHeartbeats 1000000 in
theorem mseg13_b (s : MS) : ∃ t, (mseg13 s).b = s.b.app t := by
  simp only [mseg13]
  repeat' split
  all_goals first
    | exact ⟨_, rfl⟩
    | exact ⟨_, (Builder.app_append _ _ _).symm⟩
    | exact ⟨"", rfl⟩

set_option maxHeartbeats 1000000 in
theorem mseg14_b (s : MS) : ∃ t, (mseg14 s).b = s.b.app t := by
  simp only [mseg14]
  repeat' split
  all_goals first
    | exact ⟨_, rfl⟩
    | exact ⟨_, (Builder.app_append _ _ _).symm⟩
    | exact ⟨"", rfl⟩

theorem mseg15_b (s : MS) : ∃ t, (mseg15 s).b = s.b.app t := by
  simp only [mseg15]
  exact foldl_strip_ext _ _

theorem mseg2_b (s s' : MS) (h : mseg2 s = some s') : ∃ t, s'.b = s.b.app t := by
  rcases hc : clearSubtypes2 s.base s.m with _ | c
  · simp [mseg2, hc] at h
  · rcases ht : modTypeToken s.base s.m with _ | ts
    · simp only [mseg2, hc, Option.bind_eq_bind, Option.some_bind, ht] at h
      split at h <;> split at h
      all_goals first
        | (cases h
           first
             | exact ⟨_, rfl⟩
             | exact ⟨_, (Builder.app_append _ _ _).symm⟩
             | exact ⟨"", rfl⟩)
        | simp at h
    · simp only [mseg2, hc, Option.bind_eq_bind, Option.some_bind, ht] at h
      split at h <;> split at h
      all_goals first
        | (cases h
           first
             | exact ⟨_, rfl⟩
             | exact ⟨_, (Builder.app_append _ _ _).symm⟩
             | exact ⟨"", rfl⟩)
        | simp at h

theorem mseg7_b (s s' : MS) (h : mseg7 s = some s') : s'.b = s.b := by
  have hsb : ∀ {α β : Type} (x : α) (f : α → Option β), (some x : Option α) >>= f = f x :=
    fun _ _ => rfl
  have hpb : ∀ {α β : Type} (x : α) (f : α → Option β), (pure x : Option α) >>= f = f x :=
    fun _ _ => rfl
  simp only [mseg7] at h
  by_cases htr : s.m.ability_type = "Trait"
  · rw [if_pos htr] at h
    by_cases hcl : clearPrereq s.base s.m = true
    · rw [if_pos hcl, hpb, if_pos rfl] at h
      by_cases hpres : (s.m.other_fields.any fun f =>
          decide (0 < pyCount f "PREMULT:1,[" ∧
            0 < pyCount f "PREVAREQ:BypassTraitRestriction,1")) = true
      · rw [if_neg (not_not_intro hpres)] at h
        cases h
        rfl
      · rw [if_pos hpres] at h
        rcases hms : s.m.ability_subtypes with _ | ⟨mh, mts⟩
        · rw [show s.m.ability_subtypes.head? = none by rw [hms]; rfl] at h
          simp at h
        · rw [show s.m.ability_subtypes.head? = some mh by rw [hms]; rfl, hsb] at h
          cases h
          rfl
    · rw [if_neg hcl] at h
      rcases hms : s.m.ability_subtypes with _ | ⟨mh, mts⟩
      · rw [show s.m.ability_subtypes.head? = none by rw [hms]; rfl] at h
        simp at h
      · rw [show s.m.ability_subtypes.head? = some mh by rw [hms]; rfl, hsb] at h
        rcases hbs : s.base.ability_subtypes with _ | ⟨bh, bts⟩
        · rw [show s.base.ability_subtypes.head? = none by rw [hbs]; rfl] at h
          simp at h
        · rw [show s.base.ability_subtypes.head? = some bh by rw [hbs]; rfl, hsb, hpb] at h
          by_cases hne : mh = bh
          · rw [if_neg (by simp [hne])] at h
            cases h
            rfl
          · rw [if_pos (by simp [hne])] at h
            by_cases hpres : (s.m.other_fields.any fun f =>
                decide (0 < pyCount f "PREMULT:1,[" ∧
                  0 < pyCount f "PREVAREQ:BypassTraitRestriction,1")) = true
            · rw [if_neg (not_not_intro hpres)] at h
              cases h
              rfl
            · rw [if_pos hpres] at h
              rw [hsb] at h
              cases h
              rfl
  · rw [if_neg htr] at h
    cases h
    rfl

end PCGen

namespace PCGen

theorem lineData_empty : Builder.empty.lineData = [] := rfl

theorem modStr_line_prefix (base m b' m' : Ability) (bld : Builder)
    (h : Mod.str base m = some (b', m', bld)) :
    ∃ t : String, bld.line = modHeader m ++ t := by
  have hsb : ∀ {α β : Type} (x : α) (f : α → Option β), (some x : Option α) >>= f = f x :=
    fun _ _ => rfl
  simp only [Mod.str] at h
  rcases h2 : mseg2 (mseg1 base m) with _ | s1
  · rw [h2] at h
    simp at h
  rw [h2, hsb] at h
  rcases h7 : mseg7 (mseg6 (mseg5 (mseg4 (mseg3 s1)))) with _ | s3
  · rw [h7] at h
    simp at h
  rw [h7, hsb] at h
  simp only [Option.pure_def, Option.some_inj, Prod.mk.injEq] at h
  obtain ⟨hb, hm, hbl⟩ := h
  have e1 : ∃ t, s1.b = (mseg1 base m).b.app t := mseg2_b _ _ h2
  have e6 : ∃ t, (mseg6 (mseg5 (mseg4 (mseg3 s1)))).b = s1.b.app t :=
    app_ext_trans (app_ext_trans (app_ext_trans (mseg3_b s1) (mseg4_b _)) (mseg5_b _))
      (mseg6_b _)
  have e7 : ∃ t, s3.b = (mseg6 (mseg5 (mseg4 (mseg3 s1)))).b.app t :=
    ⟨"", by rw [mseg7_b _ _ h7]; rfl⟩
  have e15 : ∃ t,
      (mseg15 (mseg14 (mseg13 (mseg12 (mseg11 (mseg10 (mseg9 (mseg8 s3)))))))).b =
        s3.b.app t :=
    app_ext_trans (app_ext_trans (app_ext_trans (app_ext_trans (app_ext_trans
      (app_ext_trans (app_ext_trans (mseg8_b s3) (mseg9_b _)) (mseg10_b _)) (mseg11_b _))
      (mseg12_b _)) (mseg13_b _)) (mseg14_b _)) (mseg15_b _)
  have etotal : ∃ t,
      (mseg15 (mseg14 (mseg13 (mseg12 (mseg11 (mseg10 (mseg9 (mseg8 s3)))))))).b =
        (mseg1 base m).b.app t :=
    app_ext_trans (app_ext_trans (app_ext_trans e1 e6) e7) e15
  obtain ⟨t, et⟩ := etotal
  refine ⟨⟨(tabStr ((calculate_tabs_raw (modHeader m) 11).1 + 1)).data ++ t.data⟩, ?_⟩
  rw [← hbl]
  simp only [Builder.line]
  rw [et, mseg1_b base m]
  simp only [lineData_app, lineData_empty, List.nil_append, List.append_assoc]
  rfl

/-- C4 amended: a patch for two records with mismatched keys renders without
any failure, silently, and its line starts with the header derived from the
edited record's key. -/
theorem c4_mismatched_keys_render_silently (base m : Ability)
    (hkey : base.key ≠ m.key)
    (hb : base.ability_type = "Trait" → base.ability_subtypes ≠ [])
    (hm : base.ability_type = "Trait" → m.ability_subtypes ≠ [])
    (hm2 : m.ability_type = "Trait" → (m.ability_subtypes ≠ [] ∧ base.ability_subtypes ≠ [])) :
    ∃ b' m' bld, Mod.str base m = some (b', m', bld) ∧
      pyStartsWith bld.line (modHeader m) = true := by
  obtain ⟨p, hp⟩ := modStr_some base m hb hm hm2
  obtain ⟨t, hline⟩ := modStr_line_prefix base m p.1 p.2.1 p.2.2 (by rw [hp])
  refine ⟨p.1, p.2.1, p.2.2, by rw [hp], ?_⟩
  rw [hline]
  exact pyStartsWith_append_self _ _

set_option maxRecDepth 100000 in
/-- C4 counterexample. -/
theorem c4_counterexample :
    sampleFeat.key ≠ keyMismatchEdited.key ∧
      (Mod.str sampleFeat keyMismatchEdited).isSome = true := by
  constructor
  · decide
  · decide

/-- C4 witness. -/
theorem c4_mismatched_keys_render_silently_witness :
    ∃ b' m' bld, Mod.str sampleFeat keyMismatchEdited = some (b', m', bld) ∧
      pyStartsWith bld.line (modHeader keyMismatchEdited) = true :=
  c4_mismatched_keys_render_silently sampleFeat keyMismatchEdited (by decide) (by decide)
    (by decide) (by decide)

end PCGen

namespace PCGen

/-- C7 counterexample: the records are equal under `Ability.__eq__`
(case-insensitive), yet inserting the second with the first stored raises no
overwrite question -- the duplicate check of `add_ability` is
case-sensitive. -/
theorem c7_counterexample :
    Ability.eq caseFeatLower caseFeatUpper = true ∧
      addAbilityAsks [caseFeatLower] caseFeatUpper = false := by
  constructor
  · decide
  · decide

/-- C7 amended: the duplicate check of `add_ability` fires exactly on a
case-sensitive match of names or keys; such a match always implies
`Ability.__eq__` (but not conversely). -/
theorem c7_duplicate_check_case_sensitive (lst : List Ability) (ability : Ability) :
    (addAbilityAsks lst ability = true ↔
      ∃ x ∈ lst, x.name = ability.name ∨ x.key = ability.key) ∧
    (addAbilityAsks lst ability = true → ∃ x ∈ lst, Ability.eq x ability = true) := by
  have hiff : addAbilityAsks lst ability = true ↔
      ∃ x ∈ lst, x.name = ability.name ∨ x.key = ability.key := by
    simp [addAbilityAsks, dupTrigger, List.any_eq_true]
  refine ⟨hiff, ?_⟩
  intro h
  obtain ⟨x, hx, hcase⟩ := hiff.mp h
  refine ⟨x, hx, ?_⟩
  simp only [Ability.eq, Bool.or_eq_true, decide_eq_true_eq]
  rcases hcase with h | h
  · left
    rw [h]
  · right
    rw [h]

/-- C7 witness: at a concrete store the check fires and yields an
`Ability.__eq__` duplicate. -/
theorem c7_duplicate_check_case_sensitive_witness :
    ∃ x ∈ [caseFeatUpper], Ability.eq x caseFeatUpper = true :=
  (c7_duplicate_check_case_sensitive [caseFeatUpper] caseFeatUpper).2 (by decide)

end PCGen

namespace PCGen

theorem contains_of_mem {l : List String} {x : String} (hx : x ∈ l) : l.contains x = true :=
  List.elem_iff.mpr hx

theorem zip_self_fst_eq_snd {α : Type} :
    ∀ (l : List α) (p : α × α), p ∈ l.zip l → p.1 = p.2
  | [], p, hp => by simp at hp
  | x :: xs, p, hp => by
      rcases List.mem_cons.mp hp with h | h
      · rw [h]
      · exact zip_self_fst_eq_snd xs p h

theorem clearSubtypes1_self (a : Ability) : clearSubtypes1 a a = false := by
  simp only [clearSubtypes1, List.any_eq_false]
  intro st hst
  simp [hst]

theorem clearSubtypes2_self (a : Ability) : clearSubtypes2 a a = some false := by
  simp only [clearSubtypes2]
  rw [if_neg (by rw [clearSubtypes1_self]; exact Bool.false_ne_true),
    if_neg (fun hc => hc.2 rfl)]
  rfl

theorem addedSubtypes_self (a : Ability) : addedSubtypes a a = [] := by
  simp only [addedSubtypes, clearSubtypes1_self]
  rw [List.filter_eq_nil]
  intro st hst
  simp [hst]

theorem clearPrereq_self (a : Ability) : clearPrereq a a = false := by
  simp only [clearPrereq, Bool.or_eq_false_iff]
  refine ⟨⟨⟨⟨⟨by simp, by simp⟩, by simp⟩, ?_⟩, ?_⟩, ?_⟩
  · rw [List.any_eq_false]
    intro p hp
    have := zip_self_fst_eq_snd _ p hp
    simp [this]
  · rw [List.any_eq_false]
    intro p hp
    have := zip_self_fst_eq_snd _ p hp
    simp [this]
  · rw [List.any_eq_false]
    intro f hf
    simp [hf]

theorem statLookup_con (a : Ability) : statLookup a "con" = a.con := rfl
theorem statLookup_wis (a : Ability) : statLookup a "wis" = a.wis := rfl
theorem statLookup_cha (a : Ability) : statLookup a "cha" = a.cha := rfl
theorem statLookup_str (a : Ability) : statLookup a "str" = a.str := rfl
theorem statLookup_dex (a : Ability) : statLookup a "dex" = a.dex := rfl
theorem statLookup_int (a : Ability) : statLookup a "int" = a.int := rfl

theorem modStatsRequired_self (a : Ability) : modStatsRequired a a = [] := by
  simp only [modStatsRequired, statsList, clearPrereq_self]
  rw [List.filter_eq_nil]
  intro p hp
  rw [List.mem_append] at hp
  rcases hp with h | h
  · fin_cases h <;>
      · simp [statLookup_con, statLookup_wis, statLookup_cha]
        try omega
  · split at h
    · fin_cases h <;>
        · simp [statLookup_str, statLookup_dex, statLookup_int]
          try omega
    · simp at h

theorem modStatSynth_self (a : Ability) (st : String) : modStatSynth a a st = a := by
  simp only [modStatSynth, clearPrereq_self]
  rw [if_neg]
  rintro ⟨h1, h2 | h2⟩
  · exact Bool.false_ne_true h2
  · rw [h2] at h1
    exact lt_irrefl 0 h1

theorem addedFeats_self (a : Ability) : addedFeats a a = [] := by
  simp only [addedFeats, clearPrereq_self]
  rw [List.filter_eq_nil]
  intro f hf
  simp [hf]

theorem addedOtherFields_self (a : Ability) : addedOtherFields a a = [] := by
  simp only [addedOtherFields, clearPrereq_self]
  rw [List.filter_eq_nil]
  intro f hf
  simp [hf]

theorem tabOnly_tabStr (n : Int) : ∀ c ∈ (tabStr n).data, c = '\t' := by
  intro c hc
  simp only [tabStr] at hc
  exact List.eq_of_mem_replicate hc

theorem tabOnly_append (s t : String) (hs : ∀ c ∈ s.data, c = '\t')
    (ht : ∀ c ∈ t.data, c = '\t') : ∀ c ∈ (s ++ t).data, c = '\t' := by
  intro c hc
  rw [String.data_append] at hc
  rcases List.mem_append.mp hc with h | h
  · exact hs c h
  · exact ht c h

end PCGen

namespace PCGen

theorem mseg2_self (s : MS) (s' : MS) (hbm : s.base = s.m) (h : mseg2 s = some s') :
    ∃ t et', (∀ c ∈ t.data, c = '\t') ∧ s' = ⟨s.base, s.m, s.b.app t, et'⟩ := by
  have hc : clearSubtypes2 s.base s.m = some false := by
    rw [hbm]
    exact clearSubtypes2_self s.m
  have hadd : addedSubtypes s.base s.m = [] := by
    rw [hbm]
    exact addedSubtypes_self s.m
  simp only [mseg2, hc, hadd, Option.bind_eq_bind, Option.some_bind, Bool.false_eq_true,
    if_false, ite_false, ne_eq, not_true_eq_false, or_false, eq_self_iff_true,
    reduceIte] at h
  have h' : ({ base := s.base, m := s.m,
               b := (s.b.app (tabStr (drain 1 3 s.et).1)).app (tabStr (5 + 1)),
               et := (drain 1 3 s.et).2 } : MS) = s' := Option.some.inj h
  refine ⟨tabStr (drain 1 3 s.et).1 ++ tabStr (5 + 1), (drain 1 3 s.et).2,
    tabOnly_append _ _ (tabOnly_tabStr _) (tabOnly_tabStr _), ?_⟩
  rw [← h', Builder.app_append]

theorem mseg3_self (s : MS) (hbm : s.base = s.m) :
    ∃ t et', (∀ c ∈ t.data, c = '\t') ∧ mseg3 s = ⟨s.base, s.m, s.b.app t, et'⟩ := by
  refine ⟨"\t\t\t", s.et, by decide, ?_⟩
  simp only [mseg3]
  rw [if_neg]
  rw [hbm, clearPrereq_self]
  exact Bool.false_ne_true

theorem mseg4_self (s : MS) (hbm : s.base = s.m) :
    ∃ t et', (∀ c ∈ t.data, c = '\t') ∧ mseg4 s = ⟨s.base, s.m, s.b.app t, et'⟩ := by
  refine ⟨tabStr 4, s.et, tabOnly_tabStr 4, ?_⟩
  have hreq : modStatsRequired s.base s.m = [] := by
    rw [hbm]
    exact modStatsRequired_self s.m
  simp only [mseg4, hreq]
  rw [if_neg (fun hc : ([] : List (String × Int)) ≠ [] => hc rfl)]
  rw [hbm]
  split
  · rw [modStatSynth_self, modStatSynth_self, modStatSynth_self]
  · rw [if_pos trivial]

theorem mseg5_self (s : MS) (hbm : s.base = s.m) :
    ∃ t et', (∀ c ∈ t.data, c = '\t') ∧ mseg5 s = ⟨s.base, s.m, s.b.app t, et'⟩ := by
  simp only [mseg5]
  rw [if_neg]
  · refine ⟨_, _, ?_, rfl⟩
    exact tabOnly_append _ _ (by decide) (tabOnly_tabStr _)
  · rintro ⟨h1, h2⟩
    rw [hbm, clearPrereq_self] at h2
    exact Bool.false_ne_true h2

theorem mseg6_self (s : MS) (hbm : s.base = s.m) :
    ∃ t et', (∀ c ∈ t.data, c = '\t') ∧ mseg6 s = ⟨s.base, s.m, s.b.app t, et'⟩ := by
  simp only [mseg6]
  rw [if_neg]
  · exact ⟨_, _, tabOnly_tabStr _, rfl⟩
  · rintro ⟨h1, h2 | h2⟩
    · rw [hbm, clearPrereq_self] at h2
      exact Bool.false_ne_true h2
    · rw [hbm] at h2
      exact h1 h2

theorem mseg7_self (s : MS) (s' : MS) (hbm : s.base = s.m) (h : mseg7 s = some s') :
    s' = s := by
  have hsb : ∀ {α β : Type} (x : α) (f : α → Option β), (some x : Option α) >>= f = f x :=
    fun _ _ => rfl
  have hpb : ∀ {α β : Type} (x : α) (f : α → Option β), (pure x : Option α) >>= f = f x :=
    fun _ _ => rfl
  simp only [mseg7] at h
  by_cases htr : s.m.ability_type = "Trait"
  · rw [if_pos htr] at h
    have hclf : clearPrereq s.base s.m = false := by
      rw [hbm]
      exact clearPrereq_self s.m
    rw [if_neg (by rw [hclf]; exact Bool.false_ne_true)] at h
    rcases hms : s.m.ability_subtypes with _ | ⟨mh, mts⟩
    · rw [show s.m.ability_subtypes.head? = none by rw [hms]; rfl] at h
      simp at h
    · rw [show s.m.ability_subtypes.head? = some mh by rw [hms]; rfl, hsb] at h
      have hbs : s.base.ability_subtypes = mh :: mts := by rw [hbm, hms]
      rw [show s.base.ability_subtypes.head? = some mh by rw [hbs]; rfl, hsb, hpb] at h
      rw [if_neg (by simp)] at h
      cases h
      rfl
  · rw [if_neg htr] at h
    cases h
    rfl

theorem mseg8_self (s : MS) (hbm : s.base = s.m) :
    ∃ t et', (∀ c ∈ t.data, c = '\t') ∧ mseg8 s = ⟨s.base, s.m, s.b.app t, et'⟩ := by
  simp only [mseg8]
  rw [if_neg]
  · exact ⟨_, _, tabOnly_tabStr _, rfl⟩
  · rintro ⟨h1, h2 | h2⟩
    · rw [hbm, clearPrereq_self] at h2
      exact Bool.false_ne_true h2
    · rw [hbm] at h2
      rw [h2] at h1
      exact lt_irrefl 0 h1

theorem mseg9_self (s : MS) (hbm : s.base = s.m) :
    ∃ t et', (∀ c ∈ t.data, c = '\t') ∧ mseg9 s = ⟨s.base, s.m, s.b.app t, et'⟩ := by
  simp only [mseg9]
  rw [if_neg]
  · exact ⟨_, _, tabOnly_tabStr _, rfl⟩
  · rintro ⟨h1, h2 | h2⟩
    · rw [hbm, clearPrereq_self] at h2
      exact Bool.false_ne_true h2
    · rw [hbm] at h2
      rw [h2] at h1
      exact lt_irrefl 0 h1

theorem mseg10_self (s : MS) (hbm : s.base = s.m) :
    ∃ t et', (∀ c ∈ t.data, c = '\t') ∧ mseg10 s = ⟨s.base, s.m, s.b.app t, et'⟩ := by
  have hadd : addedFeats s.base s.m = [] := by
    rw [hbm]
    exact addedFeats_self s.m
  simp only [mseg10, hadd]
  rw [if_neg (fun hc : ([] : List String) ≠ [] => hc rfl)]
  refine ⟨_, _, ?_, rfl⟩
  exact tabOnly_append _ _ (by decide) (tabOnly_tabStr _)

theorem mseg11_self (s : MS) (hbm : s.base = s.m) :
    ∃ t et', (∀ c ∈ t.data, c = '\t') ∧ mseg11 s = ⟨s.base, s.m, s.b.app t, et'⟩ := by
  refine ⟨"", s.et, by decide, ?_⟩
  simp only [mseg11]
  rw [if_neg]
  · rfl
  · rintro ⟨h1, h2 | h2⟩
    · rw [hbm, clearPrereq_self] at h2
      exact Bool.false_ne_true h2
    · rw [hbm] at h2
      exact h1 h2

theorem mseg12_self (s : MS) (hbm : s.base = s.m) :
    ∃ t et', (∀ c ∈ t.data, c = '\t') ∧ mseg12 s = ⟨s.base, s.m, s.b.app t, et'⟩ := by
  refine ⟨tabStr 3, s.et, tabOnly_tabStr 3, ?_⟩
  simp only [mseg12]
  rw [if_neg, if_neg]
  all_goals rintro ⟨h1, h2⟩
  all_goals rw [hbm] at h2
  all_goals first
    | exact h1 h2
    | exact h2 h1

theorem mseg13_self (s : MS) (hbm : s.base = s.m) :
    ∃ t et', (∀ c ∈ t.data, c = '\t') ∧ mseg13 s = ⟨s.base, s.m, s.b.app t, et'⟩ := by
  refine ⟨tabStr 3, s.et, tabOnly_tabStr 3, ?_⟩
  simp only [mseg13]
  rw [if_neg, if_neg]
  all_goals rintro ⟨h1, h2⟩
  all_goals rw [hbm] at h2
  all_goals first
    | exact h1 h2
    | exact h2 h1

theorem mseg14_self (s : MS) (hbm : s.base = s.m) :
    ∃ t et', (∀ c ∈ t.data, c = '\t') ∧ mseg14 s = ⟨s.base, s.m, s.b.app t, et'⟩ := by
  refine ⟨"", s.et, by decide, ?_⟩
  simp only [mseg14]
  rw [if_neg]
  · rfl
  · rw [hbm]
    simp

theorem mseg15_self (s : MS) (hbm : s.base = s.m) :
    ∃ t et', (∀ c ∈ t.data, c = '\t') ∧ mseg15 s = ⟨s.base, s.m, s.b.app t, et'⟩ := by
  have hadd : addedOtherFields s.base s.m = [] := by
    rw [hbm]
    exact addedOtherFields_self s.m
  refine ⟨"", s.et, by decide, ?_⟩
  simp only [mseg15, hadd, List.foldl_nil]
  rfl

end PCGen

namespace PCGen

theorem append_eq_append_replicate_of_tabOnly (p L : List Char) (h : ∀ c ∈ L, c = '\t') :
    ∃ n, p ++ L = p ++ List.replicate n '\t' :=
  ⟨L.length, by rw [← List.eq_replicate_of_mem h]⟩

theorem chainA_self (s : MS) (hbm : s.base = s.m) :
    ∃ t et', (∀ c ∈ t.data, c = '\t') ∧
      mseg6 (mseg5 (mseg4 (mseg3 s))) = ⟨s.base, s.m, s.b.app t, et'⟩ := by
  obtain ⟨t3, e3, ht3, h3⟩ := mseg3_self s hbm
  rw [h3]
  obtain ⟨t4, e4, ht4, h4⟩ := mseg4_self ⟨s.base, s.m, s.b.app t3, e3⟩ hbm
  rw [h4]
  dsimp only
  obtain ⟨t5, e5, ht5, h5⟩ := mseg5_self ⟨s.base, s.m, (s.b.app t3).app t4, e4⟩ hbm
  rw [h5]
  dsimp only
  obtain ⟨t6, e6, ht6, h6⟩ := mseg6_self ⟨s.base, s.m, ((s.b.app t3).app t4).app t5, e5⟩ hbm
  rw [h6]
  dsimp only
  refine ⟨t3 ++ t4 ++ t5 ++ t6, e6, ?_, ?_⟩
  · exact tabOnly_append _ _ (tabOnly_append _ _ (tabOnly_append _ _ ht3 ht4) ht5) ht6
  · rw [Builder.app_append, Builder.app_append, Builder.app_append]

theorem chainB_self (s : MS) (hbm : s.base = s.m) :
    ∃ t et', (∀ c ∈ t.data, c = '\t') ∧
      mseg15 (mseg14 (mseg13 (mseg12 (mseg11 (mseg10 (mseg9 (mseg8 s))))))) =
        ⟨s.base, s.m, s.b.app t, et'⟩ := by
  obtain ⟨t8, e8, ht8, h8⟩ := mseg8_self s hbm
  rw [h8]
  obtain ⟨t9, e9, ht9, h9⟩ := mseg9_self ⟨s.base, s.m, s.b.app t8, e8⟩ hbm
  rw [h9]
  dsimp only
  obtain ⟨t10, e10, ht10, h10⟩ := mseg10_self ⟨s.base, s.m, (s.b.app t8).app t9, e9⟩ hbm
  rw [h10]
  dsimp only
  obtain ⟨t11, e11, ht11, h11⟩ :=
    mseg11_self ⟨s.base, s.m, ((s.b.app t8).app t9).app t10, e10⟩ hbm
  rw [h11]
  dsimp only
  obtain ⟨t12, e12, ht12, h12⟩ :=
    mseg12_self ⟨s.base, s.m, (((s.b.app t8).app t9).app t10).app t11, e11⟩ hbm
  rw [h12]
  dsimp only
  obtain ⟨t13, e13, ht13, h13⟩ :=
    mseg13_self ⟨s.base, s.m, ((((s.b.app t8).app t9).app t10).app t11).app t12, e12⟩ hbm
  rw [h13]
  dsimp only
  obtain ⟨t14, e14, ht14, h14⟩ :=
    mseg14_self
      ⟨s.base, s.m, (((((s.b.app t8).app t9).app t10).app t11).app t12).app t13, e13⟩ hbm
  rw [h14]
  dsimp only
  obtain ⟨t15, e15, ht15, h15⟩ :=
    mseg15_self
      ⟨s.base, s.m,
        ((((((s.b.app t8).app t9).app t10).app t11).app t12).app t13).app t14, e14⟩ hbm
  rw [h15]
  dsimp only
  refine ⟨t8 ++ t9 ++ t10 ++ t11 ++ t12 ++ t13 ++ t14 ++ t15, e15, ?_, ?_⟩
  · exact tabOnly_append _ _ (tabOnly_append _ _ (tabOnly_append _ _ (tabOnly_append _ _
      (tabOnly_append _ _ (tabOnly_append _ _ (tabOnly_append _ _ ht8 ht9) ht10) ht11)
      ht12) ht13) ht14) ht15
  · rw [Builder.app_append, Builder.app_append, Builder.app_append, Builder.app_append,
      Builder.app_append, Builder.app_append, Builder.app_append]

/-- C2: the patch for two identical records consists of the `.MOD` key header
followed by tab padding only: no prerequisite, subtype, description, clear or
extra-field cell is emitted, and both records come back unchanged. -/
theorem c2_self_diff_only_header (r : Ability) (b' m' : Ability) (bld : Builder)
    (h : Mod.str r r = some (b', m', bld)) :
    b' = r ∧ m' = r ∧
      ∃ n, bld.lineData = (modHeader r).data ++ List.replicate n '\t' := by
  have hsb : ∀ {α β : Type} (x : α) (f : α → Option β), (some x : Option α) >>= f = f x :=
    fun _ _ => rfl
  simp only [Mod.str] at h
  rcases h2 : mseg2 (mseg1 r r) with _ | s1
  · rw [h2] at h
    simp at h
  rw [h2, hsb] at h
  rcases h7 : mseg7 (mseg6 (mseg5 (mseg4 (mseg3 s1)))) with _ | s3
  · rw [h7] at h
    simp at h
  rw [h7, hsb] at h
  simp only [Option.pure_def, Option.some_inj, Prod.mk.injEq] at h
  obtain ⟨hb, hm, hbl⟩ := h
  obtain ⟨h1b, h1m⟩ := mseg1_frame r r
  have hbm1 : (mseg1 r r).base = (mseg1 r r).m := by rw [h1b, h1m]
  obtain ⟨t2, e2, ht2, hs1⟩ := mseg2_self _ _ hbm1 h2
  have hbmS1 : s1.base = s1.m := by
    rw [hs1]
    exact hbm1
  obtain ⟨tA, eA, htA, hA⟩ := chainA_self s1 hbmS1
  rw [hA] at h7
  have hs3 : s3 = ⟨s1.base, s1.m, s1.b.app tA, eA⟩ :=
    mseg7_self _ _ hbmS1 h7
  subst hs3
  obtain ⟨tB, eB, htB, hB⟩ := chainB_self ⟨s1.base, s1.m, s1.b.app tA, eA⟩ hbmS1
  rw [hB] at hb hm hbl
  dsimp only at hb hm hbl
  refine ⟨?_, ?_, ?_⟩
  · rw [← hb, hs1]
    dsimp only
    exact h1b
  · rw [← hm, hs1]
    dsimp only
    exact h1m
  · rw [← hbl, hs1]
    dsimp only
    rw [mseg1_b r r]
    simp only [lineData_app, lineData_empty, List.nil_append, List.append_assoc]
    refine append_eq_append_replicate_of_tabOnly _ _ ?_
    intro c hc
    rcases List.mem_append.mp hc with hc | hc
    · exact tabOnly_tabStr _ c hc
    rcases List.mem_append.mp hc with hc | hc
    · exact ht2 c hc
    rcases List.mem_append.mp hc with hc | hc
    · exact htA c hc
    · exact htB c hc

end PCGen

namespace PCGen

set_option maxRecDepth 100000 in
/-- C2 witness. -/
theorem c2_self_diff_only_header_witness :
    c2SelfOut.1 = sampleFeat ∧ c2SelfOut.2.1 = sampleFeat ∧
      ∃ n, c2SelfOut.2.2.lineData = (modHeader sampleFeat).data ++ List.replicate n '\t' :=
  c2_self_diff_only_header sampleFeat c2SelfOut.1 c2SelfOut.2.1 c2SelfOut.2.2 (by decide)

end PCGen

namespace PCGen

theorem withOF_race (x : Ability) (z : List String) :
    ({ x with other_fields := z } : Ability).race = x.race := rfl

theorem withOF_bab (x : Ability) (z : List String) :
    ({ x with other_fields := z } : Ability).bab = x.bab := rfl

theorem withOF_level (x : Ability) (z : List String) :
    ({ x with other_fields := z } : Ability).level = x.level := rfl

theorem withOF_pretext (x : Ability) (z : List String) :
    ({ x with other_fields := z } : Ability).pretext = x.pretext := rfl

theorem withOF_feats (x : Ability) (z : List String) :
    ({ x with other_fields := z } : Ability).feats = x.feats := rfl

theorem withOF_abilityType (x : Ability) (z : List String) :
    ({ x with other_fields := z } : Ability).ability_type = x.ability_type := rfl

theorem disallowed_withOF (x : Ability) (z : List String) :
    ({ x with other_fields := z } : Ability).disallowed = x.disallowed := rfl

theorem alignToken_withOF (x : Ability) (z : List String) :
    alignToken { x with other_fields := z } = alignToken x := rfl

theorem clearPrereq_withOF (b x : Ability) (z : List String) :
    clearPrereq b { x with other_fields := z } = clearPrereq b x := rfl

theorem addedFeats_clear (b m : Ability) (h : clearPrereq b m = true) :
    addedFeats b m = m.feats := by
  simp [addedFeats, h]

theorem infix_mid (a b c : String) : b.data <:+: (a ++ b ++ c).data :=
  ⟨a.data, c.data, by simp [String.data_append, List.append_assoc]⟩

theorem infix_right (a b : String) : b.data <:+: (a ++ b).data :=
  ⟨a.data, [], by simp [String.data_append]⟩

theorem infix_assoc_right (a b c : String) : (b ++ c).data <:+: (a ++ b ++ c).data :=
  ⟨a.data, [], by simp [String.data_append, List.append_assoc]⟩

set_option maxHeartbeats 1000000 in
theorem mseg4_cond (s : MS) :
    ∃ u, (mseg4 s).b = s.b.app u ∧
      (modStatsRequired s.base s.m ≠ [] →
        (prestatToken (modStatsRequired s.base s.m)).data <:+: u.data) := by
  by_cases hreq : modStatsRequired s.base s.m = []
  · obtain ⟨u, hu⟩ := mseg4_b s
    exact ⟨u, hu, fun hne => absurd hreq hne⟩
  · simp only [mseg4]
    rw [if_pos hreq]
    split
    all_goals first
      | exact ⟨_, (Builder.app_append _ _ _).symm, fun _ => infix_mid _ _ _⟩
      | exact ⟨_, rfl, fun _ => infix_right _ _⟩
      | (rename_i hh
         exact absurd hh hreq)

set_option maxHeartbeats 1000000 in
theorem mseg5_cond (s : MS) (hclear : clearPrereq s.base s.m = true) :
    ∃ u, (mseg5 s).b = s.b.app u ∧
      (s.m.disallowed.length < 9 → (alignToken s.m).data <:+: u.data) := by
  by_cases hlt : s.m.disallowed.length < 9
  · simp only [mseg5]
    rw [if_pos ⟨hlt, hclear⟩]
    exact ⟨_, rfl, fun _ => infix_mid _ _ _⟩
  · obtain ⟨u, hu⟩ := mseg5_b s
    exact ⟨u, hu, fun h => absurd h hlt⟩

set_option maxHeartbeats 1000000 in
theorem mseg6_cond (s : MS) (hclear : clearPrereq s.base s.m = true) :
    ∃ u, (mseg6 s).b = s.b.app u ∧
      (s.m.race ≠ "None" → s.m.ability_type ≠ "Trait" →
        ("PRERACE:1," ++ s.m.race).data <:+: u.data) := by
  by_cases hrace : s.m.race ≠ "None"
  · by_cases htr : s.m.ability_type = "Trait"
    · obtain ⟨u, hu⟩ := mseg6_b s
      exact ⟨u, hu, fun _ hnt => absurd htr hnt⟩
    · simp only [mseg6]
      rw [if_pos ⟨hrace, Or.inl hclear⟩, if_neg htr]
      exact ⟨_, rfl, fun _ _ => infix_mid _ _ _⟩
  · obtain ⟨u, hu⟩ := mseg6_b s
    exact ⟨u, hu, fun h => absurd h hrace⟩

set_option maxHeartbeats 1000000 in
theorem mseg8_cond (s : MS) (hclear : clearPrereq s.base s.m = true) :
    ∃ u, (mseg8 s).b = s.b.app u ∧
      (0 < s.m.bab → ("PRETOTALAB:" ++ pyStr s.m.bab).data <:+: u.data) := by
  by_cases hbab : 0 < s.m.bab
  · simp only [mseg8]
    rw [if_pos ⟨hbab, Or.inl hclear⟩]
    exact ⟨_, rfl, fun _ => infix_assoc_right _ _ _⟩
  · obtain ⟨u, hu⟩ := mseg8_b s
    exact ⟨u, hu, fun h => absurd h hbab⟩

set_option maxHeartbeats 1000000 in
theorem mseg9_cond (s : MS) (hclear : clearPrereq s.base s.m = true) :
    ∃ u, (mseg9 s).b = s.b.app u ∧
      (0 < s.m.level → ("PREVARGTEQ:TL," ++ pyStr s.m.level).data <:+: u.data) := by
  by_cases hlv : 0 < s.m.level
  · simp only [mseg9]
    rw [if_pos ⟨hlv, Or.inl hclear⟩]
    exact ⟨_, rfl, fun _ => infix_assoc_right _ _ _⟩
  · obtain ⟨u, hu⟩ := mseg9_b s
    exact ⟨u, hu, fun h => absurd h hlv⟩

set_option maxHeartbeats 1000000 in
theorem mseg10_cond (s : MS) (hclear : clearPrereq s.base s.m = true) :
    ∃ u, (mseg10 s).b = s.b.app u ∧
      (s.m.feats ≠ [] →
        ("PREABILITY:" ++ pyStr s.m.feats.length ++ ",CATEGORY=FEAT," ++
          String.intercalate "," s.m.feats).data <:+: u.data) := by
  have hadd : addedFeats s.base s.m = s.m.feats := addedFeats_clear _ _ hclear
  by_cases hf : s.m.feats = []
  · obtain ⟨u, hu⟩ := mseg10_b s
    exact ⟨u, hu, fun hne => absurd hf hne⟩
  · simp only [mseg10, hadd]
    rw [if_pos hf]
    exact ⟨_, rfl, fun _ => infix_mid _ _ _⟩

set_option maxHeartbeats 1000000 in
theorem mseg11_cond (s : MS) (hclear : clearPrereq s.base s.m = true) :
    ∃ u, (mseg11 s).b = s.b.app u ∧
      (s.m.pretext ≠ "" → ("PRETEXT:" ++ s.m.pretext).data <:+: u.data) := by
  by_cases hp : s.m.pretext = ""
  · obtain ⟨u, hu⟩ := mseg11_b s
    exact ⟨u, hu, fun hne => absurd hp hne⟩
  · simp only [mseg11]
    rw [if_pos ⟨hp, Or.inl hclear⟩]
    exact ⟨_, rfl, fun _ => infix_assoc_right _ _ _⟩

end PCGen

namespace PCGen

set_option maxRecDepth 100000 in
/-- C3 counterexample: a stat minimum moving from zero in the base to five in
the edited record does not trigger the clear-all-prerequisites sentinel. -/
theorem c3_counterexample :
    sampleFeat.con = 0 ∧ c3Edited.con = 5 ∧
      Mod.str sampleFeat c3Edited = some c3Out ∧
      pyContains c3Out.2.2.line "PRE:.clear" = false := by
  refine ⟨rfl, rfl, by decide, by decide⟩

/-- C3 amended: whenever the code's clear trigger fires, the patch contains
the `PRE:.clear` sentinel and, after it, re-emits every currently active
prerequisite of the edited record. -/
theorem c3_clear_sentinel_reemission (base m b' m' : Ability) (bld : Builder)
    (hclear : clearPrereq base m = true)
    (h : Mod.str base m = some (b', m', bld)) :
    ∃ pre post : List Char,
      bld.lineData = pre ++ ("\tPRE:.clear\t").data ++ post ∧
      (modStatsRequired base m ≠ [] →
        (prestatToken (modStatsRequired base m)).data <:+: post) ∧
      (m.disallowed.length < 9 → (alignToken m).data <:+: post) ∧
      (m.race ≠ "None" → m.ability_type ≠ "Trait" →
        ("PRERACE:1," ++ m.race).data <:+: post) ∧
      (0 < m.bab → ("PRETOTALAB:" ++ pyStr m.bab).data <:+: post) ∧
      (0 < m.level → ("PREVARGTEQ:TL," ++ pyStr m.level).data <:+: post) ∧
      (m.feats ≠ [] →
        ("PREABILITY:" ++ pyStr m.feats.length ++ ",CATEGORY=FEAT," ++
          String.intercalate "," m.feats).data <:+: post) ∧
      (m.pretext ≠ "" → ("PRETEXT:" ++ m.pretext).data <:+: post) := by
  have hsb : ∀ {α β : Type} (x : α) (f : α → Option β), (some x : Option α) >>= f = f x :=
    fun _ _ => rfl
  simp only [Mod.str] at h
  rcases h2 : mseg2 (mseg1 base m) with _ | s1
  · rw [h2] at h
    simp at h
  rw [h2, hsb] at h
  rcases h7 : mseg7 (mseg6 (mseg5 (mseg4 (mseg3 s1)))) with _ | s3
  · rw [h7] at h
    simp at h
  rw [h7, hsb] at h
  simp only [Option.pure_def, Option.some_inj, Prod.mk.injEq] at h
  obtain ⟨hB, hM, hbl⟩ := h
  obtain ⟨h2b, h2m⟩ := mseg2_frame _ _ h2
  rw [(mseg1_frame base m).1] at h2b
  rw [(mseg1_frame base m).2] at h2m
  -- mseg3 emits the sentinel
  have hcl1 : clearPrereq s1.base s1.m = true := by rw [h2b, h2m]; exact hclear
  have h3b : (mseg3 s1).b = s1.b.app "\tPRE:.clear\t" := by
    simp only [mseg3]
    rw [if_pos hcl1]
  have hb3 : (mseg3 s1).base = base := by rw [(mseg3_frame s1).1, h2b]
  have hm3 : (mseg3 s1).m = m := by rw [(mseg3_frame s1).2, h2m]
  -- mseg4
  obtain ⟨u4, hu4, hinf4⟩ := mseg4_cond (mseg3 s1)
  rw [hb3, hm3] at hinf4
  have hb4 : (mseg4 (mseg3 s1)).base = base := by rw [(mseg4_frame _).1, hb3]
  have hm4 : (mseg4 (mseg3 s1)).m =
      { m with other_fields := (mseg4 (mseg3 s1)).m.other_fields } := by
    have hx := (mseg4_frame (mseg3 s1)).2
    rw [hm3] at hx
    exact hx
  -- mseg5
  have hcl4 : clearPrereq (mseg4 (mseg3 s1)).base (mseg4 (mseg3 s1)).m = true := by
    rw [hb4, hm4, clearPrereq_withOF]
    exact hclear
  obtain ⟨u5, hu5, hinf5⟩ := mseg5_cond _ hcl4
  rw [hm4, disallowed_withOF, alignToken_withOF] at hinf5
  have hb5 : (mseg5 (mseg4 (mseg3 s1))).base = base := by rw [(mseg5_frame _).1, hb4]
  have hm5 : (mseg5 (mseg4 (mseg3 s1))).m =
      { m with other_fields := (mseg5 (mseg4 (mseg3 s1))).m.other_fields } := by
    rw [(mseg5_frame _).2]
    exact hm4
  -- mseg6
  have hcl5 : clearPrereq (mseg5 (mseg4 (mseg3 s1))).base (mseg5 (mseg4 (mseg3 s1))).m
      = true := by
    rw [hb5, hm5, clearPrereq_withOF]
    exact hclear
  obtain ⟨u6, hu6, hinf6⟩ := mseg6_cond _ hcl5
  rw [hm5, withOF_race, withOF_abilityType] at hinf6
  have hb6 : (mseg6 (mseg5 (mseg4 (mseg3 s1)))).base = base := by rw [(mseg6_frame _).1, hb5]
  have hm6 : (mseg6 (mseg5 (mseg4 (mseg3 s1)))).m =
      { m with other_fields := (mseg6 (mseg5 (mseg4 (mseg3 s1)))).m.other_fields } := by
    have hx := (mseg6_frame (mseg5 (mseg4 (mseg3 s1)))).2
    exact withOF_trans _ _ _ hm5 hx
  -- mseg7
  have h7b : s3.b = (mseg6 (mseg5 (mseg4 (mseg3 s1)))).b := mseg7_b _ _ h7
  obtain ⟨h7base, h7m⟩ := mseg7_frame _ _ h7
  have hb7 : s3.base = base := by rw [h7base, hb6]
  have hm7 : s3.m = { m with other_fields := s3.m.other_fields } :=
    withOF_trans _ _ _ hm6 h7m
  -- mseg8
  have hcl7 : clearPrereq s3.base s3.m = true := by
    rw [hb7, hm7, clearPrereq_withOF]
    exact hclear
  obtain ⟨u8, hu8, hinf8⟩ := mseg8_cond _ hcl7
  rw [hm7, withOF_bab] at hinf8
  have hb8 : (mseg8 s3).base = base := by rw [(mseg8_frame _).1, hb7]
  have hm8 : (mseg8 s3).m = { m with other_fields := (mseg8 s3).m.other_fields } := by
    rw [(mseg8_frame _).2]
    exact hm7
  -- mseg9
  have hcl8 : clearPrereq (mseg8 s3).base (mseg8 s3).m = true := by
    rw [hb8, hm8, clearPrereq_withOF]
    exact hclear
  obtain ⟨u9, hu9, hinf9⟩ := mseg9_cond _ hcl8
  rw [hm8, withOF_level] at hinf9
  have hb9 : (mseg9 (mseg8 s3)).base = base := by rw [(mseg9_frame _).1, hb8]
  have hm9 : (mseg9 (mseg8 s3)).m =
      { m with other_fields := (mseg9 (mseg8 s3)).m.other_fields } := by
    rw [(mseg9_frame _).2]
    exact hm8
  -- mseg10
  have hcl9 : clearPrereq (mseg9 (mseg8 s3)).base (mseg9 (mseg8 s3)).m = true := by
    rw [hb9, hm9, clearPrereq_withOF]
    exact hclear
  obtain ⟨u10, hu10, hinf10⟩ := mseg10_cond _ hcl9
  rw [hm9, withOF_feats] at hinf10
  have hb10 : (mseg10 (mseg9 (mseg8 s3))).base = base := by rw [(mseg10_frame _).1, hb9]
  have hm10 : (mseg10 (mseg9 (mseg8 s3))).m =
      { m with other_fields := (mseg10 (mseg9 (mseg8 s3))).m.other_fields } := by
    rw [(mseg10_frame _).2]
    exact hm9
  -- mseg11
  have hcl10 : clearPrereq (mseg10 (mseg9 (mseg8 s3))).base
      (mseg10 (mseg9 (mseg8 s3))).m = true := by
    rw [hb10, hm10, clearPrereq_withOF]
    exact hclear
  obtain ⟨u11, hu11, hinf11⟩ := mseg11_cond _ hcl10
  rw [hm10, withOF_pretext] at hinf11
  -- msegs 12-15 only extend the builder
  obtain ⟨u12, hu12⟩ := mseg12_b (mseg11 (mseg10 (mseg9 (mseg8 s3))))
  obtain ⟨u13, hu13⟩ := mseg13_b (mseg12 (mseg11 (mseg10 (mseg9 (mseg8 s3)))))
  obtain ⟨u14, hu14⟩ := mseg14_b (mseg13 (mseg12 (mseg11 (mseg10 (mseg9 (mseg8 s3))))))
  obtain ⟨u15, hu15⟩ :=
    mseg15_b (mseg14 (mseg13 (mseg12 (mseg11 (mseg10 (mseg9 (mseg8 s3)))))))
  rw [← hbl, hu15, hu14, hu13, hu12, hu11, hu10, hu9, hu8, h7b, hu6, hu5, hu4, h3b]
  simp only [lineData_app, List.append_assoc]
  refine ⟨Builder.lineData s1.b,
    u4.data ++ (u5.data ++ (u6.data ++ (u8.data ++ (u9.data ++ (u10.data ++ (u11.data ++
      (u12.data ++ (u13.data ++ (u14.data ++ u15.data))))))))),
    by simp [List.append_assoc], ?_, ?_, ?_, ?_, ?_, ?_, ?_⟩
  · intro hc
    exact (hinf4 hc).trans ⟨[], u5.data ++ (u6.data ++ (u8.data ++ (u9.data ++ (u10.data ++
      (u11.data ++ (u12.data ++ (u13.data ++ (u14.data ++ u15.data)))))))),
      by simp [List.append_assoc]⟩
  · intro hc
    exact (hinf5 hc).trans ⟨u4.data, u6.data ++ (u8.data ++ (u9.data ++ (u10.data ++
      (u11.data ++ (u12.data ++ (u13.data ++ (u14.data ++ u15.data))))))),
      by simp [List.append_assoc]⟩
  · intro hc1 hc2
    exact (hinf6 hc1 hc2).trans ⟨u4.data ++ u5.data, u8.data ++ (u9.data ++ (u10.data ++
      (u11.data ++ (u12.data ++ (u13.data ++ (u14.data ++ u15.data)))))),
      by simp [List.append_assoc]⟩
  · intro hc
    exact (hinf8 hc).trans ⟨u4.data ++ u5.data ++ u6.data, u9.data ++ (u10.data ++
      (u11.data ++ (u12.data ++ (u13.data ++ (u14.data ++ u15.data))))),
      by simp [List.append_assoc]⟩
  · intro hc
    exact (hinf9 hc).trans ⟨u4.data ++ u5.data ++ u6.data ++ u8.data, u10.data ++
      (u11.data ++ (u12.data ++ (u13.data ++ (u14.data ++ u15.data)))),
      by simp [List.append_assoc]⟩
  · intro hc
    exact (hinf10 hc).trans ⟨u4.data ++ u5.data ++ u6.data ++ u8.data ++ u9.data,
      u11.data ++ (u12.data ++ (u13.data ++ (u14.data ++ u15.data))),
      by simp [List.append_assoc]⟩
  · intro hc
    exact (hinf11 hc).trans ⟨u4.data ++ u5.data ++ u6.data ++ u8.data ++ u9.data ++
      u10.data, u12.data ++ (u13.data ++ (u14.data ++ u15.data)),
      by simp [List.append_assoc]⟩

end PCGen

namespace PCGen

set_option maxRecDepth 100000 in
/-- C3 witness: applied to a base/edited pair differing in the level
requirement. -/
theorem c3_clear_sentinel_reemission_witness :
    clearPrereq c3ClearBase sampleFeat = true ∧
    (∃ pre post : List Char,
      c3ClearOut.2.2.lineData = pre ++ ("\tPRE:.clear\t").data ++ post ∧
      (modStatsRequired c3ClearBase sampleFeat ≠ [] →
        (prestatToken (modStatsRequired c3ClearBase sampleFeat)).data <:+: post) ∧
      (sampleFeat.disallowed.length < 9 → (alignToken sampleFeat).data <:+: post) ∧
      (sampleFeat.race ≠ "None" → sampleFeat.ability_type ≠ "Trait" →
        ("PRERACE:1," ++ sampleFeat.race).data <:+: post) ∧
      (0 < sampleFeat.bab → ("PRETOTALAB:" ++ pyStr sampleFeat.bab).data <:+: post) ∧
      (0 < sampleFeat.level → ("PREVARGTEQ:TL," ++ pyStr sampleFeat.level).data <:+: post) ∧
      (sampleFeat.feats ≠ [] →
        ("PREABILITY:" ++ pyStr sampleFeat.feats.length ++ ",CATEGORY=FEAT," ++
          String.intercalate "," sampleFeat.feats).data <:+: post) ∧
      (sampleFeat.pretext ≠ "" → ("PRETEXT:" ++ sampleFeat.pretext).data <:+: post)) :=
  ⟨by decide,
   c3_clear_sentinel_reemission c3ClearBase sampleFeat c3ClearOut.1 c3ClearOut.2.1
     c3ClearOut.2.2 (by decide) (by decide)⟩

end PCGen

namespace PCGen

theorem strLtb_iff_lex : ∀ (u v : List Char), strLtb u v = true ↔ List.Lex (· < ·) u v
  | [], [] => by
    simp only [strLtb, Bool.false_eq_true, false_iff]
    exact List.Lex.not_nil_right _ _
  | [], b :: bs => by
    simp only [strLtb]
    exact iff_of_true (by simp) List.Lex.nil
  | a :: as, [] => by
    simp only [strLtb, Bool.false_eq_true, false_iff]
    exact List.Lex.not_nil_right _ _
  | a :: as, b :: bs => by
    simp only [strLtb]
    by_cases hab : a < b
    · rw [if_pos hab]
      exact iff_of_true (by simp) (List.Lex.rel hab)
    · rw [if_neg hab]
      by_cases hba : b < a
      · rw [if_pos hba]
        refine iff_of_false (by simp) ?_
        intro h
        cases h with
        | rel h' => exact hab h'
        | cons h' => exact lt_irrefl a hba
      · rw [if_neg hba]
        have hab' : a = b := le_antisymm (le_of_not_lt hba) (le_of_not_lt hab)
        subst hab'
        rw [strLtb_iff_lex as bs]
        exact (List.Lex.cons_iff).symm

theorem strLeb_iff (s t : String) : strLeb s t = true ↔ s ≤ t := by
  have h1 : strLtb t.data s.data = true ↔ t < s :=
    (strLtb_iff_lex _ _).trans (String.lt_iff_toList_lt).symm
  show (!strLtb t.data s.data) = true ↔ s ≤ t
  rw [Bool.not_eq_true']
  constructor
  · intro h hlt
    have h2 := h1.mpr hlt
    rw [h] at h2
    exact Bool.false_ne_true h2
  · intro h
    by_contra hne
    have h2 : strLtb t.data s.data = true := by
      cases hx : strLtb t.data s.data
      · exact absurd hx hne
      · rfl
    exact h (h1.mp h2)

theorem sortKeyLe_trans (a b c : Ability) (h1 : sortKeyLe a b) (h2 : sortKeyLe b c) :
    sortKeyLe a c = true := by
  simp only [sortKeyLe, strLeb_iff] at *
  exact le_trans h1 h2

theorem sortKeyLe_total (a b : Ability) : sortKeyLe a b || sortKeyLe b a := by
  simp only [sortKeyLe, Bool.or_eq_true, strLeb_iff]
  exact le_total _ _

theorem list_lex_append_left (p u v : List Char) :
    List.Lex (· < ·) (p ++ u) (p ++ v) ↔ List.Lex (· < ·) u v := by
  induction p with
  | nil => exact Iff.rfl
  | cons c cs ih =>
    rw [List.cons_append, List.cons_append, List.Lex.cons_iff]
    exact ih

theorem mapM_option_forall2 {α β : Type} (f : α → Option β) :
    ∀ (l : List α) (r : List β), l.mapM f = some r →
      List.Forall₂ (fun a b => f a = some b) l r := by
  intro l
  induction l with
  | nil =>
    intro r h
    rw [← List.mapM'_eq_mapM] at h
    cases h
    exact List.Forall₂.nil
  | cons a l ih =>
    intro r h
    rw [← List.mapM'_eq_mapM] at h
    simp only [List.mapM'_cons] at h
    rcases hfa : f a with _ | b
    · rw [hfa] at h
      simp at h
    rw [hfa] at h
    rcases hml : l.mapM' f with _ | bs
    · rw [hml] at h
      simp at h
    rw [hml] at h
    simp only [Option.some_bind, Option.pure_def, Option.some_inj] at h
    cases h
    refine List.Forall₂.cons hfa (ih bs ?_)
    rw [← List.mapM'_eq_mapM]
    exact hml

theorem concatLe_implies_pairLe (x y : Ability)
    (hx : x.ability_type ∈ (["Feat", "GM_Award", "Trait"] : List String))
    (hy : y.ability_type ∈ (["Feat", "GM_Award", "Trait"] : List String))
    (h : sortKeyLe x y = true) : pairKeyLe x y := by
  rw [sortKeyLe, strLeb_iff] at h
  simp only [List.mem_cons, List.not_mem_nil, or_false] at hx hy
  have hsame : x.ability_type = y.ability_type → pairKeyLe x y := by
    intro hxy
    refine Or.inr ⟨hxy, ?_⟩
    refine le_of_not_lt fun hk => ?_
    have hYX : (y.ability_type ++ y.key) < (x.ability_type ++ x.key) := by
      rw [String.lt_iff_toList_lt] at hk ⊢
      show List.Lex (· < ·) ((y.ability_type ++ y.key).data) ((x.ability_type ++ x.key).data)
      rw [String.data_append, String.data_append, hxy]
      exact (list_lex_append_left _ _ _).mpr hk
    exact h.not_lt hYX
  have hmixed : ∀ cx cy : Char, ∀ rx ry : List Char,
      x.ability_type.data = cx :: rx → y.ability_type.data = cy :: ry →
      cy < cx → False := by
    intro cx cy rx ry hdx hdy hlt
    apply h.not_lt
    rw [String.lt_iff_toList_lt]
    show List.Lex (· < ·) ((y.ability_type ++ y.key).data) ((x.ability_type ++ x.key).data)
    rw [String.data_append, String.data_append, hdx, hdy]
    exact List.Lex.rel hlt
  have hlt_of : ∀ cx cy : Char, ∀ rx ry : List Char,
      x.ability_type.data = cx :: rx → y.ability_type.data = cy :: ry →
      cx < cy → x.ability_type < y.ability_type := by
    intro cx cy rx ry hdx hdy hlt
    rw [String.lt_iff_toList_lt]
    show List.Lex (· < ·) x.ability_type.data y.ability_type.data
    rw [hdx, hdy]
    exact List.Lex.rel hlt
  rcases hx with hx | hx | hx <;> rcases hy with hy | hy | hy
  · exact hsame (by rw [hx, hy])
  · exact Or.inl (hlt_of _ _ _ _ (by rw [hx]) (by rw [hy]) (by decide))
  · exact Or.inl (hlt_of _ _ _ _ (by rw [hx]) (by rw [hy]) (by decide))
  · exact absurd (hmixed _ _ _ _ (by rw [hx]) (by rw [hy]) (by decide)) id
  · exact hsame (by rw [hx, hy])
  · exact Or.inl (hlt_of _ _ _ _ (by rw [hx]) (by rw [hy]) (by decide))
  · exact absurd (hmixed _ _ _ _ (by rw [hx]) (by rw [hy]) (by decide)) id
  · exact absurd (hmixed _ _ _ _ (by rw [hx]) (by rw [hy]) (by decide)) id
  · exact hsame (by rw [hx, hy])

end PCGen

namespace PCGen

/-- C8: batch save layout. -/
theorem c8_batch_save_layout (abilities : List Ability) (mods other_entries : List String)
    (header mode : String) (lines : List String)
    (h : generate_ability_lst abilities mods other_entries header mode = some lines)
    (hkinds : ∀ a ∈ abilities,
      a.ability_type ∈ (["Feat", "GM_Award", "Trait"] : List String)) :
    ∃ sorted rendered,
      abilities.Perm sorted ∧
      sorted.Pairwise pairKeyLe ∧
      List.Forall₂ (fun (a : Ability) (l : String) =>
        ∃ p, Ability.render { a with mode := mode } = some p ∧ l = p.2.line)
        sorted rendered ∧
      lines = [generatedByLine, header, ""] ++ rendered ++
        (if other_entries ≠ [] then ["", "# BEGIN OTHER ENTRIES (e.g., class abilities)"]
         else []) ++
        other_entries ++ ["", "# BEGIN MODS"] ++ mods := by
  have hsb : ∀ {α β : Type} (x : α) (f : α → Option β), (some x : Option α) >>= f = f x :=
    fun _ _ => rfl
  simp only [generate_ability_lst] at h
  rcases hmm : (abilities.mergeSort sortKeyLe).mapM
      (fun a => (Ability.render { a with mode := mode }).map (fun p => p.2.line))
    with _ | rendered
  · rw [hmm] at h
    simp at h
  rw [hmm, hsb] at h
  simp only [Option.pure_def, Option.some_inj] at h
  refine ⟨abilities.mergeSort sortKeyLe, rendered, ?_, ?_, ?_, h.symm⟩
  · exact (List.mergeSort_perm abilities sortKeyLe).symm
  · have hsorted : (abilities.mergeSort sortKeyLe).Pairwise (fun a b => sortKeyLe a b) :=
      List.sorted_mergeSort sortKeyLe_trans sortKeyLe_total abilities
    refine List.Pairwise.imp_of_mem ?_ hsorted
    intro a b ha hb hab
    have ha' : a ∈ abilities := (List.mergeSort_perm abilities sortKeyLe).mem_iff.mp ha
    have hb' : b ∈ abilities := (List.mergeSort_perm abilities sortKeyLe).mem_iff.mp hb
    exact concatLe_implies_pairLe a b (hkinds a ha') (hkinds b hb') hab
  · have hfa := mapM_option_forall2 _ _ _ hmm
    refine hfa.imp ?_
    intro a l hal
    rcases Option.map_eq_some'.mp hal with ⟨p, hp, hlp⟩
    exact ⟨p, hp, hlp.symm⟩

set_option maxRecDepth 100000 in
set_option maxHeartbeats 1000000 in
theorem c8_gen_eq :
    generate_ability_lst c8Abilities ["MODLINE"] ["OTHERENTRY"] "HEADER" "Pathfinder 1e"
      = some c8Lines := by
  have hsb : ∀ {α β : Type} (x : α) (f : α → Option β), (some x : Option α) >>= f = f x :=
    fun _ _ => rfl
  have hsort : (c8Abilities.mergeSort sortKeyLe) = [sampleFeat, sampleTrait] := by
    show ([sampleTrait, sampleFeat].mergeSort sortKeyLe) = _
    rw [List.mergeSort]
    simp only [List.splitInTwo_fst, List.splitInTwo_snd, List.length_cons, List.length_nil]
    norm_num
    have hTF : sortKeyLe sampleTrait sampleFeat = false := by decide
    simp [List.merge, hTF]
  have hf : Ability.render { sampleFeat with mode := "Pathfinder 1e" } =
      some ((Ability.render { sampleFeat with mode := "Pathfinder 1e" }).getD
        (sampleFeat, Builder.empty)) := by decide
  have ht : Ability.render { sampleTrait with mode := "Pathfinder 1e" } =
      some ((Ability.render { sampleTrait with mode := "Pathfinder 1e" }).getD
        (sampleTrait, Builder.empty)) := by decide
  have hmap : (([sampleFeat, sampleTrait] : List Ability).mapM
      (fun a => (Ability.render { a with mode := "Pathfinder 1e" }).map
        (fun p => p.2.line))) = some [c8LineFeat, c8LineTrait] := by
    rw [← List.mapM'_eq_mapM]
    simp only [List.mapM'_cons, List.mapM'_nil]
    rw [hf, ht]
    rfl
  simp only [generate_ability_lst, hsort, hmap, hsb]
  rfl

set_option maxRecDepth 100000 in
/-- C8 witness. -/
theorem c8_batch_save_layout_witness :
    ∃ sorted rendered, c8Abilities.Perm sorted ∧ sorted.Pairwise pairKeyLe ∧
      List.Forall₂ (fun (a : Ability) (l : String) =>
        ∃ p, Ability.render { a with mode := "Pathfinder 1e" } = some p ∧ l = p.2.line)
        sorted rendered ∧
      c8Lines = [generatedByLine, "HEADER", ""] ++ rendered ++
        (if (["OTHERENTRY"] : List String) ≠ [] then
          ["", "# BEGIN OTHER ENTRIES (e.g., class abilities)"] else []) ++
        ["OTHERENTRY"] ++ ["", "# BEGIN MODS"] ++ ["MODLINE"] :=
  c8_batch_save_layout c8Abilities ["MODLINE"] ["OTHERENTRY"] "HEADER" "Pathfinder 1e"
    c8Lines c8_gen_eq (by decide)

end PCGen

namespace PCGen

theorem joinSep_splitOnSeqGo (sep : List Char) (hsep : sep ≠ []) :
    ∀ (fuel : Nat) (l : List Char), l.length ≤ fuel →
      joinSep sep (splitOnSeqGo sep fuel l) = l := by
  intro fuel
  induction fuel with
  | zero =>
    intro l hl
    simp [splitOnSeqGo, joinSep]
  | succ f ih =>
    intro l hl
    cases l with
    | nil => simp [splitOnSeqGo, joinSep]
    | cons c cs =>
      simp only [splitOnSeqGo]
      by_cases hpre : sep.isPrefixOf (c :: cs)
      · rw [if_pos hpre]
        obtain ⟨rest, hrest⟩ := List.isPrefixOf_iff_prefix.mp hpre
        have hdrop : (c :: cs).drop sep.length = rest := by
          rw [← hrest]
          simp [List.drop_left]
        rw [hdrop]
        have hslen : 1 ≤ sep.length := List.length_pos.mpr hsep
        have hlen : rest.length ≤ f := by
          have h1 : (c :: cs).length = sep.length + rest.length := by
            rw [← hrest]
            simp [List.length_append]
          simp only [List.length_cons] at h1 hl
          omega
        rcases hgo : splitOnSeqGo sep f rest with _ | ⟨p0, ps⟩
        · exact absurd hgo (splitOnSeqGo_ne_nil sep f rest)
        have hjoin := ih rest hlen
        rw [hgo] at hjoin
        simp only [joinSep] at hjoin ⊢
        rw [List.flatMap_cons, List.nil_append, List.append_assoc, hjoin, hrest]
      · rw [if_neg hpre]
        rcases hgo : splitOnSeqGo sep f cs with _ | ⟨r, rs⟩
        · exact absurd hgo (splitOnSeqGo_ne_nil sep f cs)
        have hjoin := ih cs (by simp only [List.length_cons] at hl; omega)
        rw [hgo] at hjoin
        simp only [joinSep] at hjoin ⊢
        rw [List.cons_append, hjoin]

theorem pyContains_isInfix (s sub : String) (hsub : sub.data ≠ [])
    (h : pyContains s sub = true) : sub.data <:+: s.data := by
  simp only [pyContains, decide_eq_true_eq] at h
  have hjoin : joinSep sub.data (splitOnSeq sub.data s.data) = s.data := by
    simp only [splitOnSeq]
    rw [if_neg hsub]
    exact joinSep_splitOnSeqGo sub.data hsub _ _ le_rfl
  rcases hparts : splitOnSeq sub.data s.data with _ | ⟨p0, ps⟩
  · rw [hparts] at h
    simp at h
  rcases ps with _ | ⟨p1, ps'⟩
  · rw [hparts] at h
    simp at h
  rw [hparts] at hjoin
  simp only [joinSep, List.flatMap_cons] at hjoin
  exact ⟨p0, p1 ++ ps'.flatMap (fun y => sub.data ++ y),
    by rw [← hjoin]; simp [List.append_assoc]⟩

theorem pyContains_eq_false_of_char (s sub : String) (c : Char) (hc : c ∈ sub.data)
    (hs : c ∉ s.data) : pyContains s sub = false := by
  cases hx : pyContains s sub
  · rfl
  · exact absurd ((pyContains_isInfix s sub (fun hnil => by rw [hnil] at hc; simp at hc)
      hx).subset hc) hs

theorem pyCount_pos_iff (s sub : String) :
    0 < pyCount s sub ↔ pyContains s sub = true := by
  simp only [pyCount, pyContains, decide_eq_true_eq]
  omega

end PCGen

namespace PCGen

theorem digitChar_isDigit (n : Nat) (h : n < 10) : (Nat.digitChar n).isDigit = true := by
  interval_cases n <;> decide

theorem toDigitsCore_digits :
    ∀ (fuel n : Nat) (ds : List Char), (∀ c ∈ ds, c.isDigit = true) →
      ∀ c ∈ Nat.toDigitsCore 10 fuel n ds, c.isDigit = true := by
  intro fuel
  induction fuel with
  | zero =>
    intro n ds hds
    simpa [Nat.toDigitsCore] using hds
  | succ f ih =>
    intro n ds hds c hc
    simp only [Nat.toDigitsCore] at hc
    split at hc
    · rcases List.mem_cons.mp hc with h | h
      · rw [h]
        exact digitChar_isDigit _ (Nat.mod_lt _ (by decide))
      · exact hds c h
    · refine ih _ _ ?_ c hc
      intro c' hc'
      rcases List.mem_cons.mp hc' with h | h
      · rw [h]
        exact digitChar_isDigit _ (Nat.mod_lt _ (by decide))
      · exact hds c' h

theorem toDigitsCore_ne_nil :
    ∀ (fuel n : Nat) (ds : List Char), ds ≠ [] →
      Nat.toDigitsCore 10 fuel n ds ≠ [] := by
  intro fuel
  induction fuel with
  | zero =>
    intro n ds hds
    simpa [Nat.toDigitsCore] using hds
  | succ f ih =>
    intro n ds hds
    simp only [Nat.toDigitsCore]
    split
    · simp
    · exact ih _ _ (by simp)

theorem pyStr_chars (n : Int) : ∀ c ∈ (pyStr n).data, c = '-' ∨ c.isDigit = true := by
  cases n with
  | ofNat m =>
    intro c hc
    right
    have hd : (pyStr (Int.ofNat m)).data = Nat.toDigits 10 m := rfl
    rw [hd] at hc
    exact toDigitsCore_digits _ _ _ (by simp) c hc
  | negSucc m =>
    intro c hc
    have hd : (pyStr (Int.negSucc m)).data = '-' :: Nat.toDigits 10 (m + 1) := rfl
    rw [hd] at hc
    rcases List.mem_cons.mp hc with h | h
    · exact Or.inl h
    · exact Or.inr (toDigitsCore_digits _ _ _ (by simp) c h)

theorem pyStr_ne_nil (n : Int) : (pyStr n).data ≠ [] := by
  cases n with
  | ofNat m =>
    have hd : (pyStr (Int.ofNat m)).data = Nat.toDigits 10 m := rfl
    rw [hd]
    simp only [Nat.toDigits, Nat.toDigitsCore]
    split
    · simp
    · exact toDigitsCore_ne_nil _ _ _ (by simp)
  | negSucc m =>
    have hd : (pyStr (Int.negSucc m)).data = '-' :: Nat.toDigits 10 (m + 1) := rfl
    rw [hd]
    simp

end PCGen

namespace PCGen

theorem infix_splitOnSeqGo (sep : List Char) (hsep : sep ≠ []) :
    ∀ (fuel : Nat) (l : List Char), l.length ≤ fuel → sep <:+: l →
      1 < (splitOnSeqGo sep fuel l).length := by
  intro fuel
  induction fuel with
  | zero =>
    intro l hl hin
    have : l = [] := List.eq_nil_of_length_eq_zero (Nat.le_zero.1 hl)
    rw [this] at hin
    exact absurd (List.infix_nil.1 hin) hsep
  | succ f ih =>
    intro l hl hin
    rcases l with _ | ⟨c, cs⟩
    · exact absurd (List.infix_nil.1 hin) hsep
    by_cases hpre : sep.isPrefixOf (c :: cs) = true
    · simp only [splitOnSeqGo]
      rw [if_pos hpre]
      have hne := splitOnSeqGo_ne_nil sep f ((c :: cs).drop sep.length)
      rcases hx : splitOnSeqGo sep f ((c :: cs).drop sep.length) with _ | ⟨r, rs⟩
      · exact absurd hx hne
      simp [List.length_cons]
    · simp only [splitOnSeqGo]
      rw [if_neg hpre]
      have hcs : sep <:+: cs := by
        rcases List.infix_cons_iff.1 hin with h | h
        · exact absurd (List.isPrefixOf_iff_prefix.2 h) hpre
        · exact h
      have hlen : cs.length ≤ f := by
        simp only [List.length_cons] at hl; omega
      have := ih cs hlen hcs
      rcases hx : splitOnSeqGo sep f cs with _ | ⟨r, rs⟩
      · rw [hx] at this; simp at this
      · rw [hx] at this
        simpa using this

theorem pyContains_of_isInfix (s sub : String) (hsub : sub.data ≠ [])
    (h : sub.data <:+: s.data) : pyContains s sub = true := by
  simp only [pyContains, decide_eq_true_eq, splitOnSeq]
  rw [if_neg hsub]
  exact infix_splitOnSeqGo sub.data hsub _ _ le_rfl h

theorem getLast?_append_right {α : Type} (l₁ l₂ : List α) (h : l₂ ≠ []) :
    (l₁ ++ l₂).getLast? = l₂.getLast? := by
  rw [List.getLast?_append]
  rcases hl : l₂.getLast? with _ | c
  · exact absurd (List.getLast?_eq_none_iff.1 hl) h
  · rfl

theorem prefix_singleton_head? {α : Type} (y : α) (l : List α) (h : [y] <+: l) :
    l.head? = some y := by
  rcases h with ⟨t, ht⟩
  rw [← ht]
  rfl

theorem pair_infix_append {α : Type} (x y : α) :
    ∀ (a b : List α), [x, y] <:+: a ++ b →
      [x, y] <:+: a ∨ [x, y] <:+: b ∨ (a.getLast? = some x ∧ b.head? = some y) := by
  intro a
  induction a with
  | nil => intro b h; exact Or.inr (Or.inl h)
  | cons c a' ih =>
    intro b h
    rcases List.infix_cons_iff.1 h with h | h
    · rcases List.cons_prefix_cons.1 h with ⟨hx, hy⟩
      rcases a' with _ | ⟨d, a''⟩
      · refine Or.inr (Or.inr ⟨?_, ?_⟩)
        · rw [hx]; rfl
        · exact prefix_singleton_head? y b (by simpa using hy)
      · rcases List.cons_prefix_cons.1 hy with ⟨hy', _⟩
        refine Or.inl ?_
        refine (List.prefix_iff_eq_take.2 ?_).isInfix
        rw [hx, hy']
        rfl
    · rcases ih b h with h | h | ⟨hL, hR⟩
      · exact Or.inl (List.infix_cons h)
      · exact Or.inr (Or.inl h)
      · refine Or.inr (Or.inr ⟨?_, hR⟩)
        rcases a' with _ | ⟨d, a''⟩
        · simp at hL
        · rw [List.getLast?_cons_cons]
          exact hL

theorem not_pair_infix_of_not_mem {α : Type} (x y : α) (l : List α) (h : x ∉ l) :
    ¬ [x, y] <:+: l :=
  fun hi => h (hi.subset (by simp))

theorem pyContains_eq_false_of_pair (s sub : String) (x y : Char)
    (hxy : [x, y] <:+: sub.data) (h : ¬ [x, y] <:+: s.data) :
    pyContains s sub = false := by
  cases hb : pyContains s sub
  · rfl
  · have hsub : sub.data ≠ [] := by
      intro hn
      rw [hn] at hxy
      simp at hxy
    exact absurd (hxy.trans (pyContains_isInfix s sub hsub hb)) h

theorem infix_data_append_left (s t : String) (l : List Char) (h : l <:+: s.data) :
    l <:+: (s ++ t).data := by
  rw [String.data_append]
  exact h.trans (List.prefix_append s.data t.data).isInfix

theorem infix_data_append_right (s t : String) (l : List Char) (h : l <:+: t.data) :
    l <:+: (s ++ t).data := by
  rw [String.data_append]
  exact h.trans (List.suffix_append s.data t.data).isInfix

end PCGen

namespace PCGen

theorem dexP_prestat (a : Ability) :
    pyContains (dexPremult a) "PreStatScore_DEX" = true := by
  apply pyContains_of_isInfix _ _ (by decide)
  simp only [dexPremult]
  exact infix_data_append_left _ _ _ (infix_data_append_left _ _ _
    (infix_data_append_left _ _ _ (infix_data_append_left _ _ _ (by decide))))

theorem strP_prestat (a : Ability) :
    pyContains (strPremult a) "PreStatScore_STR" = true := by
  apply pyContains_of_isInfix _ _ (by decide)
  simp only [strPremult]
  exact infix_data_append_left _ _ _ (by decide)

theorem intP_prestat (a : Ability) :
    pyContains (intPremult a) "PreStatScore_INT" = true := by
  apply pyContains_of_isInfix _ _ (by decide)
  simp only [intPremult]
  exact infix_data_append_left _ _ _ (infix_data_append_left _ _ _
    (infix_data_append_left _ _ _ (infix_data_append_left _ _ _ (by decide))))

theorem dexP_no_prerace (a : Ability) :
    pyContains (dexPremult a) "PRERACE:1," = false := by
  apply pyContains_eq_false_of_char _ _ 'C' (by decide)
  intro hC
  simp only [dexPremult, String.data_append, List.mem_append] at hC
  rcases hC with ((((h | h) | h) | h) | h) | h
  all_goals
    first
      | exact absurd h (by decide)
      | (rcases pyStr_chars a.dex 'C' h with h' | h' <;> exact absurd h' (by decide))

theorem strP_no_premult (a : Ability) :
    pyContains (strPremult a) "PREMULT:1," = false := by
  apply pyContains_eq_false_of_char _ _ 'M' (by decide)
  intro hM
  simp only [strPremult, String.data_append, List.mem_append] at hM
  rcases hM with (h | h) | h
  all_goals
    first
      | exact absurd h (by decide)
      | (rcases pyStr_chars a.str 'M' h with h' | h' <;> exact absurd h' (by decide))

theorem intP_no_premult (a : Ability) :
    pyContains (intPremult a) "PREMULT:1," = false := by
  apply pyContains_eq_false_of_pair _ _ ':' '1' (by decide)
  intro hin
  simp only [intPremult, String.data_append] at hin
  rcases pair_infix_append ':' '1' _ _ hin with h | h | ⟨hL, hR⟩
  · rcases pair_infix_append ':' '1' _ _ h with h | h | ⟨hL, hR⟩
    · rcases pair_infix_append ':' '1' _ _ h with h | h | ⟨hL, hR⟩
      · rcases pair_infix_append ':' '1' _ _ h with h | h | ⟨hL, hR⟩
        · exact absurd h (by decide)
        · rcases pyStr_chars a.int ':' (h.subset (by simp)) with h' | h' <;>
            exact absurd h' (by decide)
        · exact absurd hL (by decide)
      · exact absurd h (by decide)
      · rw [getLast?_append_right _ _ (pyStr_ne_nil a.int)] at hL
        rcases pyStr_chars a.int ':' (List.mem_of_mem_getLast? (Option.mem_def.2 hL))
            with h' | h' <;>
          exact absurd h' (by decide)
    · rcases pyStr_chars a.int ':' (h.subset (by simp)) with h' | h' <;>
        exact absurd h' (by decide)
    · rw [getLast?_append_right _ _ (by decide : ("], [PREVARGTEQ: CombatFeatIntRequirement, " : String).data ≠ [])] at hL
      exact absurd hL (by decide)
  · exact absurd h (by decide)
  · rw [getLast?_append_right _ _ (pyStr_ne_nil a.int)] at hL
    rcases pyStr_chars a.int ':' (List.mem_of_mem_getLast? (Option.mem_def.2 hL))
        with h' | h' <;>
      exact absurd h' (by decide)

theorem raceP_premult (race : String) :
    pyContains (racePremult race) "PREMULT:1," = true := by
  apply pyContains_of_isInfix _ _ (by decide)
  simp only [racePremult]
  exact infix_data_append_left _ _ _ (infix_data_append_left _ _ _
    (infix_data_append_left _ _ _ (infix_data_append_left _ _ _ (by decide))))

theorem raceP_prerace (race : String) :
    pyContains (racePremult race) "PRERACE:1," = true := by
  apply pyContains_of_isInfix _ _ (by decide)
  simp only [racePremult]
  exact infix_data_append_left _ _ _ (infix_data_append_left _ _ _
    (infix_data_append_left _ _ _ (infix_data_append_left _ _ _ (by decide))))

theorem bypP_premult_count (k s0 : String) :
    0 < pyCount (bypassPremult k s0) "PREMULT:1,[" := by
  refine (pyCount_pos_iff _ _).2 (pyContains_of_isInfix _ _ (by decide) ?_)
  simp only [bypassPremult]
  exact infix_data_append_left _ _ _ (infix_data_append_left _ _ _
    (infix_data_append_left _ _ _ (infix_data_append_left _ _ _ (by decide))))

theorem bypP_bypass_count (k s0 : String) :
    0 < pyCount (bypassPremult k s0) "PREVAREQ:BypassTraitRestriction,1" := by
  refine (pyCount_pos_iff _ _).2 (pyContains_of_isInfix _ _ (by decide) ?_)
  simp only [bypassPremult]
  exact infix_data_append_left _ _ _ (infix_data_append_left _ _ _
    (infix_data_append_right _ _ _ (by decide)))

end PCGen

namespace PCGen

theorem seg3_a_eq (s : RS) : (seg3 s).a = { s.a with other_fields := ofSeg3 s.a } := by
  simp only [seg3, ofSeg3]
  by_cases h : s.a.mode = "Pathfinder 1e" ∧ (0 < s.a.dex ∨ 0 < s.a.str ∨ 0 < s.a.int)
  · rw [if_pos h, if_pos h]
  · rw [if_neg h, if_neg h]
    split
    · rfl
    · rfl

theorem seg5_a_eq (s : RS) : (seg5 s).a = { s.a with other_fields := ofSeg5 s.a } := by
  simp only [seg5, ofSeg5]
  by_cases h1 : s.a.race ≠ "None"
  · rw [if_pos h1, if_pos h1]
    by_cases h2 : s.a.ability_type = "Trait"
    · rw [if_pos h2, if_pos h2]
    · rw [if_neg h2, if_neg h2]
  · rw [if_neg h1, if_neg h1]

theorem seg6_eq (s : RS) (h : s.a.ability_type = "Trait" → s.a.ability_subtypes ≠ []) :
    seg6 s = some ⟨{ s.a with other_fields := ofSeg6 s.a }, s.b, s.et⟩ := by
  have hsb : ∀ {α β : Type} (x : α) (f : α → Option β), (some x : Option α) >>= f = f x :=
    fun _ _ => rfl
  by_cases ht : s.a.ability_type = "Trait"
  · simp only [seg6, ofSeg6]
    rw [if_pos ht, if_pos ht]
    by_cases hp : (s.a.other_fields.any
        (fun f => decide (0 < pyCount f "PREMULT:1,[" ∧
          0 < pyCount f "PREVAREQ:BypassTraitRestriction,1"))) = true
    · rw [if_neg (fun hc => hc hp), if_neg (fun hc => hc hp)]
      rfl
    · rw [if_pos hp, if_pos hp]
      rcases hl : s.a.ability_subtypes with _ | ⟨st0, rest⟩
      · exact absurd hl (h ht)
      rw [List.head?_cons, hsb, List.headD_cons]
      rfl
  · simp only [seg6, ofSeg6]
    rw [if_neg ht, if_neg ht]
    rfl

theorem seg10_a_eq (s : RS) : (seg10 s).a = { s.a with other_fields := ofSeg10 s.a } := by
  simp only [seg10, ofSeg10]
  by_cases hm : s.a.mult = true
  · rw [if_pos hm, if_pos hm]
    by_cases hc : (s.a.other_fields.any (fun f => decide (0 < pyCount f "CHOOSE"))) = true
    · rw [if_neg (fun hx => hx hc), if_neg (fun hx => hx hc)]
    · rw [if_pos hc, if_pos hc]
  · rw [if_neg hm, if_neg hm]

theorem seg12_a_eq (s : RS) : (seg12 s).a = { s.a with other_fields := ofSeg12 s.a } := by
  simp only [seg12, ofSeg12]
  by_cases h : s.a.ability_type = "GM_Award" ∧
      ¬ (s.a.other_fields.any (fun f => decide (0 < pyCount f "COST:")) = true)
  · rw [if_pos h, if_pos h]
  · rw [if_neg h, if_neg h]

theorem renderTail_a_eq (s : RS) :
    (seg14 (seg13 (seg12 (seg11 (seg10 (seg9 (seg8 (seg7 s)))))))).a =
      { s.a with other_fields := ofSeg12 { s.a with other_fields := ofSeg10 s.a } } := by
  rw [seg14_a, seg13_a, seg12_a_eq, seg11_a, seg10_a_eq, seg9_a, seg8_a, seg7_a]

theorem render_eq (r : Ability)
    (hsub : r.ability_type = "Trait" → r.ability_subtypes ≠ []) :
    ∃ b, Ability.render r = some ({ r with other_fields := ofRender r }, b) := by
  have hsb : ∀ {α β : Type} (x : α) (f : α → Option β), (some x : Option α) >>= f = f x :=
    fun _ _ => rfl
  obtain ⟨s1, hs1, hs1a⟩ := seg2_some (seg1 r) (by rw [seg1_a]; exact hsub)
  rw [seg1_a] at hs1a
  have h3 : (seg3 s1).a = { r with other_fields := ofSeg3 r } := by
    rw [seg3_a_eq, hs1a]
  have h5 : (seg5 (seg4 (seg3 s1))).a =
      { r with other_fields := ofSeg5 { r with other_fields := ofSeg3 r } } := by
    rw [seg5_a_eq, seg4_a, h3]
  have h6 := seg6_eq (seg5 (seg4 (seg3 s1))) (by rw [h5]; exact hsub)
  rw [h5] at h6
  simp only [Ability.render]
  rw [hs1, hsb, h6, hsb, renderTail_a_eq]
  exact ⟨_, rfl⟩

end PCGen

namespace PCGen

theorem forall_mem_ite_append {α : Type} (P : α → Prop) (c : Prop) [Decidable c]
    (of : List α) (x : α) (h : ∀ f ∈ of, P f) (hx : P x) :
    ∀ f ∈ (if c then of ++ [x] else of), P f := by
  split
  · intro f hf
    rcases List.mem_append.1 hf with h1 | h1
    · exact h f h1
    · rw [List.mem_singleton.1 h1]
      exact hx
  · exact h

theorem any_mono_ite_append {α : Type} (p : α → Bool) (c : Prop) [Decidable c]
    (of : List α) (x : α) (h : of.any p = true) :
    (if c then of ++ [x] else of).any p = true := by
  split
  · simp [List.any_append, h]
  · exact h

theorem any_establish {α : Type} (p : α → Bool) (Q : Prop) [Decidable Q]
    (of : List α) (x : α) (hQ : Q) (hx : p x = true) :
    (if Q ∧ ¬ (of.any p = true) then of ++ [x] else of).any p = true := by
  by_cases hany : of.any p = true
  · rw [if_neg (fun hc => hc.2 hany)]
    exact hany
  · rw [if_pos ⟨hQ, hany⟩]
    simp [List.any_append, hx]

theorem forall_mem_eq_cases {α : Type} (P : α → Prop) (of l : List α) (x : α)
    (h : l = of ∨ l = of ++ [x]) (hof : ∀ f ∈ of, P f) (hx : P x) : ∀ f ∈ l, P f := by
  rcases h with rfl | rfl
  · exact hof
  · intro f hf
    rcases List.mem_append.1 hf with h1 | h1
    · exact hof f h1
    · rw [List.mem_singleton.1 h1]
      exact hx

theorem any_of_eq_cases {α : Type} (p : α → Bool) (of l : List α) (x : α)
    (h : l = of ∨ l = of ++ [x]) (hof : of.any p = true) : l.any p = true := by
  rcases h with rfl | rfl
  · exact hof
  · simp [List.any_append, hof]

theorem mem_of_eq_cases {α : Type} (y : α) (of l : List α) (x : α)
    (h : l = of ∨ l = of ++ [x]) (hm : y ∈ of) : y ∈ l := by
  rcases h with rfl | rfl
  · exact hm
  · exact List.mem_append_left _ hm

theorem inv_ofSeg3 (a : Ability) (race : String)
    (h : ∀ f ∈ a.other_fields, pyContains f "PREMULT:1," = true →
      pyContains f "PRERACE:1," = true → f = racePremult race) :
    ∀ f ∈ ofSeg3 a, pyContains f "PREMULT:1," = true →
      pyContains f "PRERACE:1," = true → f = racePremult race := by
  simp only [ofSeg3]
  by_cases hc : a.mode = "Pathfinder 1e" ∧ (0 < a.dex ∨ 0 < a.str ∨ 0 < a.int)
  · rw [if_pos hc]
    refine forall_mem_ite_append _ _ _ _
      (forall_mem_ite_append _ _ _ _ (forall_mem_ite_append _ _ _ _ h ?_) ?_) ?_
    · intro h1 h2
      rw [dexP_no_prerace] at h2
      exact Bool.noConfusion h2
    · intro h1 h2
      rw [strP_no_premult] at h1
      exact Bool.noConfusion h1
    · intro h1 h2
      rw [intP_no_premult] at h1
      exact Bool.noConfusion h1
  · rw [if_neg hc]
    exact h

theorem ofSeg3_dex (a : Ability) (hm : a.mode = "Pathfinder 1e") (hd : 0 < a.dex) :
    (ofSeg3 a).any (fun f => pyContains f "PreStatScore_DEX") = true := by
  simp only [ofSeg3]
  rw [if_pos ⟨hm, Or.inl hd⟩]
  apply any_mono_ite_append
  apply any_mono_ite_append
  exact any_establish _ _ _ _ hd (dexP_prestat a)

theorem ofSeg3_str (a : Ability) (hm : a.mode = "Pathfinder 1e") (hs : 0 < a.str) :
    (ofSeg3 a).any (fun f => pyContains f "PreStatScore_STR") = true := by
  simp only [ofSeg3]
  rw [if_pos ⟨hm, Or.inr (Or.inl hs)⟩]
  apply any_mono_ite_append
  exact any_establish _ _ _ _ hs (strP_prestat a)

theorem ofSeg3_int (a : Ability) (hm : a.mode = "Pathfinder 1e") (hi : 0 < a.int) :
    (ofSeg3 a).any (fun f => pyContains f "PreStatScore_INT") = true := by
  simp only [ofSeg3]
  rw [if_pos ⟨hm, Or.inr (Or.inr hi)⟩]
  exact any_establish _ _ _ _ hi (intP_prestat a)

theorem ofSeg3_id (a : Ability)
    (hdex : a.mode = "Pathfinder 1e" → 0 < a.dex →
      a.other_fields.any (fun f => pyContains f "PreStatScore_DEX") = true)
    (hstr : a.mode = "Pathfinder 1e" → 0 < a.str →
      a.other_fields.any (fun f => pyContains f "PreStatScore_STR") = true)
    (hint : a.mode = "Pathfinder 1e" → 0 < a.int →
      a.other_fields.any (fun f => pyContains f "PreStatScore_INT") = true) :
    ofSeg3 a = a.other_fields := by
  simp only [ofSeg3]
  by_cases h : a.mode = "Pathfinder 1e" ∧ (0 < a.dex ∨ 0 < a.str ∨ 0 < a.int)
  · rw [if_pos h]
    have hd : ¬ (0 < a.dex ∧
        ¬ (a.other_fields.any (fun f => pyContains f "PreStatScore_DEX") = true)) := by
      rintro ⟨h1, h2⟩
      exact h2 (hdex h.1 h1)
    rw [if_neg hd]
    have hs : ¬ (0 < a.str ∧
        ¬ (a.other_fields.any (fun f => pyContains f "PreStatScore_STR") = true)) := by
      rintro ⟨h1, h2⟩
      exact h2 (hstr h.1 h1)
    rw [if_neg hs]
    have hi : ¬ (0 < a.int ∧
        ¬ (a.other_fields.any (fun f => pyContains f "PreStatScore_INT") = true)) := by
      rintro ⟨h1, h2⟩
      exact h2 (hint h.1 h1)
    rw [if_neg hi]
  · rw [if_neg h]

end PCGen

namespace PCGen

theorem ofSeg5_map_id (a : Ability)
    (hinv : ∀ f ∈ a.other_fields, pyContains f "PREMULT:1," = true →
      pyContains f "PRERACE:1," = true → f = racePremult a.race) :
    a.other_fields.map
      (fun f => if pyContains f "PREMULT:1," ∧ pyContains f "PRERACE:1,"
        then racePremult a.race else f) = a.other_fields := by
  have h : ∀ f ∈ a.other_fields,
      (if pyContains f "PREMULT:1," ∧ pyContains f "PRERACE:1,"
        then racePremult a.race else f) = f := by
    intro f hf
    split
    · rename_i hc
      exact (hinv f hf hc.1 hc.2).symm
    · rfl
  exact (List.map_congr_left (fun f hf => h f hf)).trans (List.map_id _)

theorem ofSeg5_eq_cases (a : Ability)
    (hinv : ∀ f ∈ a.other_fields, pyContains f "PREMULT:1," = true →
      pyContains f "PRERACE:1," = true → f = racePremult a.race) :
    ofSeg5 a = a.other_fields ∨ ofSeg5 a = a.other_fields ++ [racePremult a.race] := by
  simp only [ofSeg5]
  by_cases h1 : a.race ≠ "None"
  · rw [if_pos h1]
    by_cases h2 : a.ability_type = "Trait"
    · rw [if_pos h2, ofSeg5_map_id a hinv]
      by_cases hf : (a.other_fields.any
          (fun f => pyContains f "PREMULT:1," ∧ pyContains f "PRERACE:1,")) = true
      · rw [if_neg (fun hc => hc hf)]
        exact Or.inl rfl
      · rw [if_pos hf]
        exact Or.inr rfl
    · rw [if_neg h2]
      exact Or.inl rfl
  · rw [if_neg h1]
    exact Or.inl rfl

theorem ofSeg5_mem (a : Ability)
    (hinv : ∀ f ∈ a.other_fields, pyContains f "PREMULT:1," = true →
      pyContains f "PRERACE:1," = true → f = racePremult a.race)
    (h1 : a.race ≠ "None") (h2 : a.ability_type = "Trait") :
    racePremult a.race ∈ ofSeg5 a := by
  simp only [ofSeg5]
  rw [if_pos h1, if_pos h2]
  by_cases hf : (a.other_fields.any
      (fun f => pyContains f "PREMULT:1," ∧ pyContains f "PRERACE:1,")) = true
  · rw [if_neg (fun hc => hc hf)]
    obtain ⟨x, hxmem, hx⟩ := List.any_eq_true.1 hf
    simp only [decide_eq_true_eq] at hx
    exact List.mem_map.2 ⟨x, hxmem, by rw [if_pos hx]⟩
  · rw [if_pos hf]
    exact List.mem_append_right _ (by simp)

theorem ofSeg5_id (a : Ability)
    (hinv : ∀ f ∈ a.other_fields, pyContains f "PREMULT:1," = true →
      pyContains f "PRERACE:1," = true → f = racePremult a.race)
    (hfound : a.race ≠ "None" → a.ability_type = "Trait" →
      racePremult a.race ∈ a.other_fields) :
    ofSeg5 a = a.other_fields := by
  simp only [ofSeg5]
  by_cases h1 : a.race ≠ "None"
  · rw [if_pos h1]
    by_cases h2 : a.ability_type = "Trait"
    · rw [if_pos h2]
      have hf : (a.other_fields.any
          (fun f => pyContains f "PREMULT:1," ∧ pyContains f "PRERACE:1,")) = true := by
        refine List.any_eq_true.2 ⟨racePremult a.race, hfound h1 h2, ?_⟩
        simp only [decide_eq_true_eq]
        exact ⟨raceP_premult a.race, raceP_prerace a.race⟩
      rw [if_neg (fun hc => hc hf)]
      exact ofSeg5_map_id a hinv
    · rw [if_neg h2]
  · rw [if_neg h1]

theorem ofSeg6_eq_cases (a : Ability) :
    ofSeg6 a = a.other_fields ∨
      ofSeg6 a = a.other_fields ++ [bypassPremult a.key (a.ability_subtypes.headD "")] := by
  simp only [ofSeg6]
  by_cases h1 : a.ability_type = "Trait"
  · rw [if_pos h1]
    by_cases h2 : (a.other_fields.any
        (fun f => 0 < pyCount f "PREMULT:1,[" ∧
          0 < pyCount f "PREVAREQ:BypassTraitRestriction,1")) = true
    · rw [if_neg (fun hc => hc h2)]
      exact Or.inl rfl
    · rw [if_pos h2]
      exact Or.inr rfl
  · rw [if_neg h1]
    exact Or.inl rfl

theorem ofSeg6_present (a : Ability) (ht : a.ability_type = "Trait") :
    (ofSeg6 a).any (fun f => 0 < pyCount f "PREMULT:1,[" ∧
      0 < pyCount f "PREVAREQ:BypassTraitRestriction,1") = true := by
  simp only [ofSeg6]
  rw [if_pos ht]
  by_cases hp : (a.other_fields.any
      (fun f => 0 < pyCount f "PREMULT:1,[" ∧
        0 < pyCount f "PREVAREQ:BypassTraitRestriction,1")) = true
  · rw [if_neg (fun hc => hc hp)]
    exact hp
  · rw [if_pos hp]
    refine List.any_eq_true.2 ⟨bypassPremult a.key (a.ability_subtypes.headD ""),
      List.mem_append_right _ (by simp), ?_⟩
    simp only [decide_eq_true_eq]
    exact ⟨bypP_premult_count _ _, bypP_bypass_count _ _⟩

theorem ofSeg6_id (a : Ability)
    (h : a.ability_type = "Trait" →
      (a.other_fields.any (fun f => 0 < pyCount f "PREMULT:1,[" ∧
        0 < pyCount f "PREVAREQ:BypassTraitRestriction,1")) = true) :
    ofSeg6 a = a.other_fields := by
  simp only [ofSeg6]
  by_cases h1 : a.ability_type = "Trait"
  · rw [if_pos h1, if_neg (fun hc => hc (h h1))]
  · rw [if_neg h1]

theorem ofSeg10_eq_cases (a : Ability) :
    ofSeg10 a = a.other_fields ∨ ofSeg10 a = a.other_fields ++ ["CHOOSE:NOCHOICE"] := by
  simp only [ofSeg10]
  by_cases h1 : a.mult = true
  · rw [if_pos h1]
    by_cases h2 : (a.other_fields.any (fun f => 0 < pyCount f "CHOOSE")) = true
    · rw [if_neg (fun hc => hc h2)]
      exact Or.inl rfl
    · rw [if_pos h2]
      exact Or.inr rfl
  · rw [if_neg h1]
    exact Or.inl rfl

theorem ofSeg10_choose (a : Ability) (hm : a.mult = true) :
    (ofSeg10 a).any (fun f => 0 < pyCount f "CHOOSE") = true := by
  simp only [ofSeg10]
  rw [if_pos hm]
  by_cases hp : (a.other_fields.any (fun f => 0 < pyCount f "CHOOSE")) = true
  · rw [if_neg (fun hc => hc hp)]
    exact hp
  · rw [if_pos hp]
    refine List.any_eq_true.2 ⟨"CHOOSE:NOCHOICE", List.mem_append_right _ (by simp), by decide⟩

theorem ofSeg10_id (a : Ability)
    (h : a.mult = true →
      (a.other_fields.any (fun f => 0 < pyCount f "CHOOSE")) = true) :
    ofSeg10 a = a.other_fields := by
  simp only [ofSeg10]
  by_cases h1 : a.mult = true
  · rw [if_pos h1, if_neg (fun hc => hc (h h1))]
  · rw [if_neg h1]

theorem ofSeg12_eq_cases (a : Ability) :
    ofSeg12 a = a.other_fields ∨ ofSeg12 a = a.other_fields ++ ["COST:0"] := by
  simp only [ofSeg12]
  by_cases h : a.ability_type = "GM_Award" ∧
      ¬ ((a.other_fields.any (fun f => 0 < pyCount f "COST:")) = true)
  · rw [if_pos h]
    exact Or.inr rfl
  · rw [if_neg h]
    exact Or.inl rfl

theorem ofSeg12_cost (a : Ability) (hg : a.ability_type = "GM_Award") :
    (ofSeg12 a).any (fun f => 0 < pyCount f "COST:") = true := by
  simp only [ofSeg12]
  by_cases hp : (a.other_fields.any (fun f => 0 < pyCount f "COST:")) = true
  · rw [if_neg (fun hc => hc.2 hp)]
    exact hp
  · rw [if_pos ⟨hg, hp⟩]
    refine List.any_eq_true.2 ⟨"COST:0", List.mem_append_right _ (by simp), by decide⟩

theorem ofSeg12_id (a : Ability)
    (h : a.ability_type = "GM_Award" →
      (a.other_fields.any (fun f => 0 < pyCount f "COST:")) = true) :
    ofSeg12 a = a.other_fields := by
  simp only [ofSeg12]
  rw [if_neg (fun hc => hc.2 (h hc.1))]

end PCGen

namespace PCGen

theorem ofRender_props (r : Ability)
    (Hof : ∀ f ∈ r.other_fields, pyContains f "PREMULT:1," = true →
      pyContains f "PRERACE:1," = true → f = racePremult r.race)
    (Hkey : pyContains (bypassPremult r.key (r.ability_subtypes.headD ""))
      "PRERACE:1," = false) :
    (∀ f ∈ ofRender r, pyContains f "PREMULT:1," = true →
        pyContains f "PRERACE:1," = true → f = racePremult r.race) ∧
    (r.mode = "Pathfinder 1e" → 0 < r.dex →
        (ofRender r).any (fun f => pyContains f "PreStatScore_DEX") = true) ∧
    (r.mode = "Pathfinder 1e" → 0 < r.str →
        (ofRender r).any (fun f => pyContains f "PreStatScore_STR") = true) ∧
    (r.mode = "Pathfinder 1e" → 0 < r.int →
        (ofRender r).any (fun f => pyContains f "PreStatScore_INT") = true) ∧
    (r.race ≠ "None" → r.ability_type = "Trait" → racePremult r.race ∈ ofRender r) ∧
    (r.ability_type = "Trait" →
        (ofRender r).any (fun f => 0 < pyCount f "PREMULT:1,[" ∧
          0 < pyCount f "PREVAREQ:BypassTraitRestriction,1") = true) ∧
    (r.mult = true → (ofRender r).any (fun f => 0 < pyCount f "CHOOSE") = true) ∧
    (r.ability_type = "GM_Award" →
        (ofRender r).any (fun f => 0 < pyCount f "COST:") = true) := by
  have i3 : ∀ f ∈ (a3R r).other_fields, pyContains f "PREMULT:1," = true →
      pyContains f "PRERACE:1," = true → f = racePremult (a3R r).race :=
    inv_ofSeg3 r r.race Hof
  have c5 := ofSeg5_eq_cases (a3R r) i3
  have i5 : ∀ f ∈ (a5R r).other_fields, pyContains f "PREMULT:1," = true →
      pyContains f "PRERACE:1," = true → f = racePremult (a5R r).race :=
    forall_mem_eq_cases _ _ _ _ c5 i3 (fun _ _ => rfl)
  have c6 := ofSeg6_eq_cases (a5R r)
  have i6 : ∀ f ∈ (a6R r).other_fields, pyContains f "PREMULT:1," = true →
      pyContains f "PRERACE:1," = true → f = racePremult (a6R r).race :=
    forall_mem_eq_cases _ _ _ _ c6 i5 (fun _ h2 => by
      have h2' : pyContains (bypassPremult r.key (r.ability_subtypes.headD ""))
          "PRERACE:1," = true := h2
      rw [Hkey] at h2'
      exact Bool.noConfusion h2')
  have c10 := ofSeg10_eq_cases (a6R r)
  have i10 : ∀ f ∈ (a10R r).other_fields, pyContains f "PREMULT:1," = true →
      pyContains f "PRERACE:1," = true → f = racePremult (a10R r).race :=
    forall_mem_eq_cases _ _ _ _ c10 i6 (fun h1 _ => by
      rw [(by decide : pyContains "CHOOSE:NOCHOICE" "PREMULT:1," = false)] at h1
      exact Bool.noConfusion h1)
  have c12 := ofSeg12_eq_cases (a10R r)
  have i12 : ∀ f ∈ ofRender r, pyContains f "PREMULT:1," = true →
      pyContains f "PRERACE:1," = true → f = racePremult r.race :=
    forall_mem_eq_cases _ _ _ _ c12 i10 (fun h1 _ => by
      rw [(by decide : pyContains "COST:0" "PREMULT:1," = false)] at h1
      exact Bool.noConfusion h1)
  refine ⟨i12, ?_, ?_, ?_, ?_, ?_, ?_, ?_⟩
  · intro hm hd
    have p3 : ((a3R r).other_fields).any (fun f => pyContains f "PreStatScore_DEX") = true :=
      ofSeg3_dex r hm hd
    have p5 := any_of_eq_cases _ _ _ _ c5 p3
    have p6 := any_of_eq_cases _ _ _ _ c6 p5
    have p10 := any_of_eq_cases _ _ _ _ c10 p6
    exact any_of_eq_cases _ _ _ _ c12 p10
  · intro hm hs
    have p3 : ((a3R r).other_fields).any (fun f => pyContains f "PreStatScore_STR") = true :=
      ofSeg3_str r hm hs
    have p5 := any_of_eq_cases _ _ _ _ c5 p3
    have p6 := any_of_eq_cases _ _ _ _ c6 p5
    have p10 := any_of_eq_cases _ _ _ _ c10 p6
    exact any_of_eq_cases _ _ _ _ c12 p10
  · intro hm hi
    have p3 : ((a3R r).other_fields).any (fun f => pyContains f "PreStatScore_INT") = true :=
      ofSeg3_int r hm hi
    have p5 := any_of_eq_cases _ _ _ _ c5 p3
    have p6 := any_of_eq_cases _ _ _ _ c6 p5
    have p10 := any_of_eq_cases _ _ _ _ c10 p6
    exact any_of_eq_cases _ _ _ _ c12 p10
  · intro h1 h2
    have m5 : racePremult (a3R r).race ∈ (a5R r).other_fields :=
      ofSeg5_mem (a3R r) i3 h1 h2
    have m6 := mem_of_eq_cases _ _ _ _ c6 m5
    have m10 := mem_of_eq_cases _ _ _ _ c10 m6
    exact mem_of_eq_cases _ _ _ _ c12 m10
  · intro ht
    have q6 : ((a6R r).other_fields).any (fun f => 0 < pyCount f "PREMULT:1,[" ∧
        0 < pyCount f "PREVAREQ:BypassTraitRestriction,1") = true :=
      ofSeg6_present (a5R r) ht
    have q10 := any_of_eq_cases _ _ _ _ c10 q6
    exact any_of_eq_cases _ _ _ _ c12 q10
  · intro hmu
    have q10 : ((a10R r).other_fields).any (fun f => 0 < pyCount f "CHOOSE") = true :=
      ofSeg10_choose (a6R r) hmu
    exact any_of_eq_cases _ _ _ _ c12 q10
  · intro hg
    exact ofSeg12_cost (a10R r) hg

theorem ofRender_id (a : Ability)
    (hdex : a.mode = "Pathfinder 1e" → 0 < a.dex →
      a.other_fields.any (fun f => pyContains f "PreStatScore_DEX") = true)
    (hstr : a.mode = "Pathfinder 1e" → 0 < a.str →
      a.other_fields.any (fun f => pyContains f "PreStatScore_STR") = true)
    (hint : a.mode = "Pathfinder 1e" → 0 < a.int →
      a.other_fields.any (fun f => pyContains f "PreStatScore_INT") = true)
    (hinv : ∀ f ∈ a.other_fields, pyContains f "PREMULT:1," = true →
      pyContains f "PRERACE:1," = true → f = racePremult a.race)
    (hfound : a.race ≠ "None" → a.ability_type = "Trait" →
      racePremult a.race ∈ a.other_fields)
    (h6 : a.ability_type = "Trait" →
      (a.other_fields.any (fun f => 0 < pyCount f "PREMULT:1,[" ∧
        0 < pyCount f "PREVAREQ:BypassTraitRestriction,1")) = true)
    (h10 : a.mult = true →
      (a.other_fields.any (fun f => 0 < pyCount f "CHOOSE")) = true)
    (h12 : a.ability_type = "GM_Award" →
      (a.other_fields.any (fun f => 0 < pyCount f "COST:")) = true) :
    ofRender a = a.other_fields := by
  have e3 : ofSeg3 a = a.other_fields := ofSeg3_id a hdex hstr hint
  have E3 : a3R a = a := by
    simp only [a3R]
    rw [e3]
  have e5 : ofSeg5 a = a.other_fields := ofSeg5_id a hinv hfound
  have E5 : a5R a = a := by
    simp only [a5R]
    rw [E3, e5]
  have e6 : ofSeg6 a = a.other_fields := ofSeg6_id a h6
  have E6 : a6R a = a := by
    simp only [a6R]
    rw [E5, e6]
  have e10 : ofSeg10 a = a.other_fields := ofSeg10_id a h10
  have E10 : a10R a = a := by
    simp only [a10R]
    rw [E6, e10]
  simp only [ofRender]
  rw [E10]
  exact ofSeg12_id a h12

end PCGen

namespace PCGen

/-- C6 (amended): rendering is idempotent on the record — so in particular a
second render duplicates no synthesized `other_fields` entry — provided the
record is hygienic: every pre-existing entry holding both race-marker
fragments is exactly the race compound entry, and the bypass-restriction
entry built from the key and first subtype does not itself contain the
fragment `PRERACE:1,`. -/
theorem c6_idempotent_synthesis (r : Ability) (p : Ability × Builder)
    (Hof : ∀ f ∈ r.other_fields, pyContains f "PREMULT:1," = true →
      pyContains f "PRERACE:1," = true → f = racePremult r.race)
    (Hkey : pyContains (bypassPremult r.key (r.ability_subtypes.headD ""))
      "PRERACE:1," = false)
    (h : Ability.render r = some p) :
    ∃ b2, Ability.render p.1 = some (p.1, b2) := by
  have hsub : r.ability_type = "Trait" → r.ability_subtypes ≠ [] := by
    intro ht hs
    rw [render_none_trait r ht hs] at h
    cases h
  obtain ⟨b, hb⟩ := render_eq r hsub
  rw [h] at hb
  injection hb with hb'
  obtain ⟨pr1, pr2, pr3, pr4, pr5, pr6, pr7, pr8⟩ := ofRender_props r Hof Hkey
  subst hb'
  show ∃ b2, Ability.render { r with other_fields := ofRender r } =
    some ({ r with other_fields := ofRender r }, b2)
  obtain ⟨b2, hb2⟩ := render_eq { r with other_fields := ofRender r } (by exact hsub)
  have hstab : ofRender { r with other_fields := ofRender r } = ofRender r :=
    ofRender_id { r with other_fields := ofRender r } (by exact pr2) (by exact pr3)
      (by exact pr4) (by exact pr1) (by exact pr5) (by exact pr6) (by exact pr7)
      (by exact pr8)
  have hfix : ({ { r with other_fields := ofRender r } with
      other_fields := ofRender { r with other_fields := ofRender r } } : Ability) =
      { r with other_fields := ofRender r } := by
    rw [hstab]
  rw [hfix] at hb2
  exact ⟨b2, hb2⟩

set_option maxRecDepth 100000 in
set_option maxHeartbeats 1000000 in
/-- Witness: `sampleTrait` satisfies both hygiene hypotheses, and its first
render is a fixed point of the second. -/
theorem c6_idempotent_synthesis_witness :
    ∃ b2, Ability.render c6Pair.1 = some (c6Pair.1, b2) :=
  c6_idempotent_synthesis sampleTrait c6Pair
    (fun f hf => absurd hf (List.not_mem_nil f))
    (by decide)
    (by decide)

set_option maxRecDepth 200000 in
set_option maxHeartbeats 2000000 in
/-- C6 is false as stated: for a trait whose key contains the fragment
`PRERACE:1,`, the second render turns the bypass-restriction entry into a
second copy of the race compound entry (the replacement map of lines
394-397 matches it), and then appends a fresh bypass entry — the race
compound entry is duplicated. -/
theorem c6_counterexample :
    (Ability.render advTrait).isSome = true ∧
    (Ability.render advR1).isSome = true ∧
    advR1.other_fields.count (racePremult advTrait.race) = 1 ∧
    advR2.other_fields.count (racePremult advTrait.race) = 2 := by
  refine ⟨by decide, by decide, by decide, by decide⟩

end PCGen

